import Mathlib

/-! Coup rule engine (Player.cpp, PlayerRoles.cpp, Game.cpp)

A shallow embedding of the Player / role / Game classes.

Modelling conventions.

* Player objects live in a store `World.heap : Nat → Player`; a `Player*` or a
  `Player&` is the address (a `Nat`) of the object.  Two references are the
  same player exactly when the addresses are equal, as with the pointer
  comparison `get_game()->get_last_arrested() == &target`.  A null pointer is
  `none`.
* Players need not be in the roster of the game: the tests build players on
  the stack and let them act without `add_player`.
* Every player of a `World` has its `game` back pointer set to the one `Game`
  of that world, so `get_game()` is `World.game`.
* `int coins` is an `Int` kept in the range of the type `int`: the addition
  `coins += amount` of `add_coins` stores the sum reduced to a two's-complement
  value of `World.int_bits` bits (`some 32` unless a world says otherwise).
  C++ leaves signed overflow undefined and the model takes the wrap; whatever
  a platform does there, what it stores is a value of `int`, so not the sum
  once that exceeds INT_MAX.  `int_bits = none` is the idealisation in which
  `int` is unbounded.  The subtraction of `remove_coins` runs only when
  `0 ≤ amount ≤ coins`, so its result is always in range.  An `int amount`
  parameter is an `Int`; where a theorem leaves the amount of `add_coins` free
  it asks for a value of `int` (`World.fits`).
* A member function that may throw is a function `World → Outcome`: the
  outcome carries the world as it is when the call returns or when the
  exception leaves the call, so a mutation made before a `throw` stays
  visible.
* Text written to `std::cout` is not part of the state.
-/

namespace Coup

/-- The exception classes of Player.cpp, together with the two standard
exceptions the engine throws directly. -/
inductive Exn
  | InvalidActionException
  | InsufficientCoinsException
  | SanctionedException
  | ConsecutiveArrestException
  | GameOverException
  | NotPlayerTurnException
  | invalid_argument
  | runtime_error
  deriving DecidableEq, Repr

/-- The dynamic class of a player object: the base class or one of the six
classes of PlayerRoles.cpp.  Virtual calls and `dynamic_cast` look at this;
`get_role()` looks at the string field `role`. -/
inductive Cls
  | Player
  | Governor
  | Spy
  | Baron
  | General
  | Judge
  | Merchant
  deriving DecidableEq, Repr

/-- The data members of `class Player` (the `game` back pointer is the one
game of the world) plus the dynamic class of the object. -/
structure Player where
  name : String
  role : String
  coins : Int
  active : Bool
  sanctioned : Bool
  last_arrested : Option Nat
  cls : Cls
  deriving DecidableEq, Repr

/-- The data members of `class Game`. -/
structure Game where
  players : List Nat
  current_player_index : Nat
  last_arrested : Option Nat
  deriving DecidableEq, Repr

/-- The object store and the game, on a platform whose type `int` has
`int_bits` bits (`none`: unbounded integers). -/
structure World where
  heap : Nat → Player
  game : Game
  int_bits : Option Nat := some 32

/-- The value of type `int` with `bits` bits that a two's-complement machine
holds after computing `x`. -/
def wrap_int (bits : Nat) (x : Int) : Int :=
  (x + 2 ^ (bits - 1)) % 2 ^ bits - 2 ^ (bits - 1)

/-- The value the platform of `w` holds after computing `x` in type `int`. -/
def World.fit (w : World) (x : Int) : Int :=
  match w.int_bits with
  | some bits => wrap_int bits x
  | none => x

/-- Whether `x` is a value of type `int` on the platform of `w`, so that
computing it does not overflow. -/
def World.fits (w : World) (x : Int) : Bool := decide (w.fit x = x)

/-- What a call leaves behind: normal return or the exception thrown, and the
world at that moment. -/
structure Outcome where
  result : Except Exn Unit
  world : World

instance : DecidableEq (Except Exn Unit)
  | .ok (), .ok () => isTrue rfl
  | .error a, .error b =>
    if h : a = b then isTrue (by rw [h]) else isFalse (by intro h2; cases h2; exact h rfl)
  | .ok _, .error _ => isFalse (by intro h; cases h)
  | .error _, .ok _ => isFalse (by intro h; cases h)

/-- Normal return. -/
def ret (w : World) : Outcome := ⟨.ok (), w⟩

/-- The statement `throw e` executed in world `w`. -/
def throw_ (e : Exn) (w : World) : Outcome := ⟨.error e, w⟩

/-- Sequencing of two statements: the second runs only when the first
returned normally; an exception propagates with the world it left. -/
def Outcome.andThen (o : Outcome) (k : World → Outcome) : Outcome :=
  match o.result with
  | .ok _ => k o.world
  | .error e => ⟨.error e, o.world⟩

/-- Overwrite the object at address `a`. -/
def World.store (w : World) (a : Nat) (p : Player) : World :=
  { w with heap := Function.update w.heap a p }

/-! ## class Player: inline members -/

/-- Member `Player(name, role, game)`: the freshly constructed base object. -/
def Player.new (name role : String) : Player :=
  { name := name, role := role, coins := 0, active := true, sanctioned := false,
    last_arrested := none, cls := .Player }

def Player.is_sanctioned (w : World) (self : Nat) : Bool := (w.heap self).sanctioned

def Player.set_sanctioned (w : World) (self : Nat) (value : Bool) : Outcome :=
  ret (w.store self { w.heap self with sanctioned := value })

def Player.get_coins (w : World) (self : Nat) : Int := (w.heap self).coins

/-- Member `add_coins`: the guard, then `coins += amount`, an addition in type
`int` whose result is stored as the platform holds it. -/
def Player.add_coins (w : World) (self : Nat) (amount : Int) : Outcome :=
  if amount < 0 then throw_ .invalid_argument w
  else ret (w.store self { w.heap self with coins := w.fit ((w.heap self).coins + amount) })

/-- Member `remove_coins`: the two guards, then `coins -= amount`, which they
keep between 0 and the old balance. -/
def Player.remove_coins (w : World) (self : Nat) (amount : Int) : Outcome :=
  if amount < 0 then throw_ .invalid_argument w
  else if (w.heap self).coins < amount then throw_ .InsufficientCoinsException w
  else ret (w.store self { w.heap self with coins := (w.heap self).coins - amount })

def Player.get_name (w : World) (self : Nat) : String := (w.heap self).name

def Player.get_role (w : World) (self : Nat) : String := (w.heap self).role

def Player.is_eliminated (w : World) (self : Nat) : Bool := !(w.heap self).active

def Player.eliminate (w : World) (self : Nat) : Outcome :=
  ret (w.store self { w.heap self with active := false })

/-! ## class Game: the members the player actions use -/

def Game.get_last_arrested (w : World) : Option Nat := w.game.last_arrested

def Game.set_last_arrested (w : World) (player : Option Nat) : Outcome :=
  ret { w with game := { w.game with last_arrested := player } }

def Game.add_player (w : World) (player : Nat) : Outcome :=
  ret { w with game := { w.game with players := w.game.players ++ [player] } }

/-- The loop of `is_game_over`: the number of roster entries that are not
eliminated. -/
def Game.active_players (w : World) : Nat :=
  (w.game.players.filter fun p => !Player.is_eliminated w p).length

def Game.is_game_over (w : World) : Bool := decide (Game.active_players w ≤ 1)

def Game.eliminate_player (w : World) (player : Nat) : Outcome :=
  if Player.is_eliminated w player then throw_ .runtime_error w
  else Player.eliminate w player

/-! ## class Player: the six base actions -/

def Player.gather (w : World) (self : Nat) : Outcome :=
  if Player.is_sanctioned w self then throw_ .SanctionedException w
  else Player.add_coins w self 1

def Player.tax (w : World) (self : Nat) : Outcome :=
  if Player.is_sanctioned w self then throw_ .SanctionedException w
  else Player.add_coins w self 2

def Player.bribe (w : World) (self : Nat) : Outcome :=
  if Player.get_coins w self < 4 then throw_ .InsufficientCoinsException w
  else Player.remove_coins w self 4

def Player.arrest (w : World) (self target : Nat) : Outcome :=
  if Player.get_coins w self < 1 then throw_ .InsufficientCoinsException w
  else if Game.get_last_arrested w = some target then throw_ .ConsecutiveArrestException w
  else if Player.get_coins w target < 1 then throw_ .InvalidActionException w
  else
    (Player.remove_coins w target 1).andThen fun w1 =>
    (Player.add_coins w1 self 1).andThen fun w2 =>
    Game.set_last_arrested w2 (some target)

def Player.sanction (w : World) (self target : Nat) : Outcome :=
  if Player.get_coins w self < 3 then throw_ .InsufficientCoinsException w
  else
    (Player.remove_coins w self 3).andThen fun w1 =>
    Player.set_sanctioned w1 target true

def Player.coup (w : World) (self target : Nat) : Outcome :=
  if Player.get_coins w self < 7 then throw_ .InsufficientCoinsException w
  else
    (Player.remove_coins w self 7).andThen fun w1 =>
    Game.eliminate_player w1 target

/-! ## PlayerRoles.cpp -/

def Governor.new (name : String) : Player :=
  { Player.new name "Governor" with cls := .Governor }

def Spy.new (name : String) : Player :=
  { Player.new name "Spy" with cls := .Spy }

def Baron.new (name : String) : Player :=
  { Player.new name "Baron" with cls := .Baron }

def General.new (name : String) : Player :=
  { Player.new name "General" with cls := .General }

def Judge.new (name : String) : Player :=
  { Player.new name "Judge" with cls := .Judge }

def Merchant.new (name : String) : Player :=
  { Player.new name "Merchant" with cls := .Merchant }

def Governor.tax (w : World) (self : Nat) : Outcome :=
  if Player.is_sanctioned w self then throw_ .SanctionedException w
  else Player.add_coins w self 3

/-- The body only writes to `std::cout`. -/
def Governor.block_tax (w : World) (_self _target : Nat) : Outcome := ret w

def Spy.view_coins (w : World) (_self target : Nat) : Int := Player.get_coins w target

/-- The body only writes to `std::cout`. -/
def Spy.block_arrest (w : World) (_self _target : Nat) : Outcome := ret w

def Baron.invest (w : World) (self : Nat) : Outcome :=
  if Player.get_coins w self < 3 then throw_ .InsufficientCoinsException w
  else
    (Player.remove_coins w self 3).andThen fun w1 =>
    Player.add_coins w1 self 6

def Baron.compensate (w : World) (self : Nat) : Outcome :=
  if Player.is_sanctioned w self then Player.add_coins w self 1
  else ret w

def General.protect (w : World) (self _target : Nat) : Outcome :=
  if Player.get_coins w self < 5 then throw_ .InsufficientCoinsException w
  else Player.remove_coins w self 5

def General.recover_arrest (w : World) (self : Nat) : Outcome :=
  Player.add_coins w self 1

/-- The body only writes to `std::cout`. -/
def Judge.block_bribe (w : World) (_self _target : Nat) : Outcome := ret w

def Judge.penalize_sanction (w : World) (_self target : Nat) : Outcome :=
  if Player.get_coins w target < 1 then throw_ .InvalidActionException w
  else Player.remove_coins w target 1

def Merchant.bonus (w : World) (self : Nat) : Outcome :=
  if Player.get_coins w self ≥ 3 then Player.add_coins w self 1
  else ret w

def Merchant.arrest (w : World) (self target : Nat) : Outcome :=
  if Player.get_coins w self < 1 then throw_ .InsufficientCoinsException w
  else if Game.get_last_arrested w = some target then throw_ .ConsecutiveArrestException w
  else
    (Player.remove_coins w self 2).andThen fun w1 =>
    Game.set_last_arrested w1 (some target)

/-! ## Virtual calls -/

/-- The call `p.tax()` through a `Player` reference: `Governor` overrides. -/
def dispatch_tax (w : World) (self : Nat) : Outcome :=
  match (w.heap self).cls with
  | .Governor => Governor.tax w self
  | _ => Player.tax w self

/-- The call `p.arrest(target)` through a `Player` reference: `Merchant`
overrides. -/
def dispatch_arrest (w : World) (self target : Nat) : Outcome :=
  match (w.heap self).cls with
  | .Merchant => Merchant.arrest w self target
  | _ => Player.arrest w self target

/-! ## class Game: queries and turn advance

An out-of-range `players[i]` and a loop that does not end have no defined
result; the functions below return `none` there. -/

def Game.turn (w : World) : Option (Except Exn String) :=
  if w.game.players.isEmpty then some (.error .runtime_error)
  else if Game.is_game_over w then some (.error .GameOverException)
  else
    match w.game.players[w.game.current_player_index]? with
    | none => none
    | some p => some (.ok (Player.get_name w p))

def Game.players_list (w : World) : List String :=
  (w.game.players.filter fun p => !Player.is_eliminated w p).map fun p => Player.get_name w p

def Game.winner (w : World) : Except Exn String :=
  if !Game.is_game_over w then .error .runtime_error
  else
    match w.game.players.find? fun p => !Player.is_eliminated w p with
    | some p => .ok (Player.get_name w p)
    | none => .error .runtime_error

def Game.get_player_by_name (w : World) (name : String) : Option Nat :=
  w.game.players.find? fun p => Player.get_name w p == name

def Game.get_current_player (w : World) : Option (Except Exn Nat) :=
  if w.game.players.isEmpty then some (.error .runtime_error)
  else
    match w.game.players[w.game.current_player_index]? with
    | none => none
    | some p => some (.ok p)

/-- The loop `do { i = (i + 1) % players.size(); } while (players[i]->is_eliminated());`
started with the index at `i`: the index it stops at, within `fuel`
iterations. -/
def Game.advance (w : World) : Nat → Nat → Option Nat
  | 0, _ => none
  | fuel + 1, i =>
    let j := (i + 1) % w.game.players.length
    match w.game.players[j]? with
    | none => none
    | some p => if Player.is_eliminated w p then Game.advance w fuel j else some j

/-- The two role blocks of `next_turn`, run on the player `cur` that holds the
turn, after its sanction was reset. -/
def Game.role_effects (w : World) (cur : Nat) : Outcome :=
  (if Player.get_role w cur = "Merchant" ∧ (w.heap cur).cls = .Merchant
    then Merchant.bonus w cur else ret w).andThen fun w1 =>
  if Player.get_role w1 cur = "Baron" ∧ Player.is_sanctioned w1 cur = true
      ∧ (w1.heap cur).cls = .Baron
    then Baron.compensate w1 cur else ret w1

/-- The loop is given as many iterations as the roster has entries: a loop
that has not stopped by then has seen every entry eliminated and never stops. -/
def Game.next_turn (w : World) : Option Outcome :=
  if Game.is_game_over w then some (throw_ .GameOverException w)
  else
    match w.game.players[w.game.current_player_index]? with
    | none => none
    | some cur =>
      let o := (Player.set_sanctioned w cur false).andThen fun w1 => Game.role_effects w1 cur
      match o.result with
      | .error _ => some o
      | .ok _ =>
        match Game.advance o.world o.world.game.players.length
            o.world.game.current_player_index with
        | none => none
        | some j =>
          some (ret { o.world with game := { o.world.game with current_player_index := j } })

/-! ## Calls on the engine and their traces -/

/-- A state-changing call a client of the engine can make. -/
inductive Call
  | gather (self : Nat)
  | tax (self : Nat)
  | bribe (self : Nat)
  | arrest (self target : Nat)
  | sanction (self target : Nat)
  | coup (self target : Nat)
  | add_coins (self : Nat) (amount : Int)
  | remove_coins (self : Nat) (amount : Int)
  | block_tax (self target : Nat)
  | view_coins (self target : Nat)
  | block_arrest (self target : Nat)
  | invest (self : Nat)
  | compensate (self : Nat)
  | protect (self target : Nat)
  | recover_arrest (self : Nat)
  | block_bribe (self target : Nat)
  | penalize_sanction (self target : Nat)
  | bonus (self : Nat)
  | next_turn
  | eliminate_player (player : Nat)
  deriving DecidableEq, Repr

/-- A role ability is a member of one class: the call exists only on an object
of that class. -/
def guard_cls (w : World) (self : Nat) (c : Cls) (o : Outcome) : Option Outcome :=
  if (w.heap self).cls = c then some o else none

/-- Run one call.  `none`: the call does not exist on that object, or it has no
defined result. -/
def exec (w : World) : Call → Option Outcome
  | .gather self => some (Player.gather w self)
  | .tax self => some (dispatch_tax w self)
  | .bribe self => some (Player.bribe w self)
  | .arrest self target => some (dispatch_arrest w self target)
  | .sanction self target => some (Player.sanction w self target)
  | .coup self target => some (Player.coup w self target)
  | .add_coins self amount => some (Player.add_coins w self amount)
  | .remove_coins self amount => some (Player.remove_coins w self amount)
  | .block_tax self target => guard_cls w self .Governor (Governor.block_tax w self target)
  | .view_coins self _ => guard_cls w self .Spy (ret w)
  | .block_arrest self target => guard_cls w self .Spy (Spy.block_arrest w self target)
  | .invest self => guard_cls w self .Baron (Baron.invest w self)
  | .compensate self => guard_cls w self .Baron (Baron.compensate w self)
  | .protect self target => guard_cls w self .General (General.protect w self target)
  | .recover_arrest self => guard_cls w self .General (General.recover_arrest w self)
  | .block_bribe self target => guard_cls w self .Judge (Judge.block_bribe w self target)
  | .penalize_sanction self target =>
    guard_cls w self .Judge (Judge.penalize_sanction w self target)
  | .bonus self => guard_cls w self .Merchant (Merchant.bonus w self)
  | .next_turn => Game.next_turn w
  | .eliminate_player player => some (Game.eliminate_player w player)

/-- Run a sequence of calls, each in the world the previous one left (an
exception is caught by the caller and play goes on).  The log pairs every call
with its result. -/
def run : World → List Call → Option (List (Call × Except Exn Unit) × World)
  | w, [] => some ([], w)
  | w, c :: cs =>
    match exec w c with
    | none => none
    | some o =>
      match run o.world cs with
      | none => none
      | some (log, w2) => some ((c, o.result) :: log, w2)

/-! ## Concrete worlds -/

/-- A base-class player, as built by `Player(name, "Regular", &game)`, brought to
the given balance and flags. -/
def mk_player (name : String) (coins : Int) (active sanctioned : Bool) : Player :=
  { Player.new name "Regular" with coins := coins, active := active, sanctioned := sanctioned }

/-- A world of two roster players at addresses 0 and 1, every other address
holding a fresh base player. -/
def world2 (p0 p1 : Player) (last : Option Nat) : World :=
  { heap := fun a => if a = 0 then p0 else if a = 1 then p1 else Player.new "" "",
    game := { players := [0, 1], current_player_index := 0, last_arrested := last } }

/-! ## Worlds, traces and result worlds the theorems refer to -/

/-- Two base players: address 0 holds 7 coins, address 1 is already
eliminated. -/
def coup_eliminated_world : World :=
  world2 (mk_player "A" 7 true false) (mk_player "B" 0 false false) none

/-- The actions that test a precondition before they change anything: gather,
tax, bribe, arrest, sanction, Baron invest, General protect, Judge
penalize_sanction. -/
def Call.checks_first : Call → Bool
  | .gather _ => true
  | .tax _ => true
  | .bribe _ => true
  | .arrest _ _ => true
  | .sanction _ _ => true
  | .invest _ => true
  | .protect _ _ => true
  | .penalize_sanction _ _ => true
  | _ => false

/-- A Merchant holding one coin (address 0) and a player with no coins. -/
def merchant_one_coin_world : World :=
  world2 { Merchant.new "M" with coins := 1 } (Player.new "T" "Regular") none

/-- A sanctioned Governor holding 12 coins (address 0). -/
def sanctioned_governor_world : World :=
  world2 { Governor.new "Gov" with coins := 12, sanctioned := true } (Baron.new "Baron") none

/-- A Spy holding 10 coins has the turn (address 0). -/
def ten_coin_world : World :=
  world2 { Spy.new "S" with coins := 10 } (Player.new "T" "Regular") (some 1)

/-- The world a successful base arrest leaves. -/
def arrest_result (w : World) (self target : Nat) : World :=
  let w1 := w.store target { w.heap target with coins := (w.heap target).coins - 1 }
  let w2 := w1.store self { w1.heap self with coins := w.fit ((w1.heap self).coins + 1) }
  { w2 with game := { w2.game with last_arrested := some target } }

/-- A General with 1 coin (address 0) and a Merchant with 1 coin (address 1). -/
def general_merchant_world : World :=
  world2 { General.new "Diana" with coins := 1 } { Merchant.new "M" with coins := 1 } none

/-- Two General players with 3 coins each; the one at address 0 has the turn. -/
def two_generals_world : World :=
  world2 { General.new "D" with coins := 3 } { General.new "C" with coins := 3 } none

/-- A trace without a successful arrest: the turn passes, the
other player gathers, tries the same arrest and is rejected, and the turn
passes again. -/
def quiet_trace : List Call :=
  [.next_turn, .gather 1, .arrest 1 1, .next_turn]

/-- The log of `quiet_trace` run in `two_generals_world` after player 0 arrested
player 1. -/
def quiet_log : List (Call × Except Exn Unit) :=
  [(.next_turn, .ok ()), (.gather 1, .ok ()),
    (.arrest 1 1, .error .ConsecutiveArrestException), (.next_turn, .ok ())]

/-- A Merchant holding 2 coins (address 0) and a player with no coins. -/
def merchant_two_coin_world : World :=
  world2 { Merchant.new "M" with coins := 2 } (Player.new "T" "Regular") none

/-- The world a coup that returns normally leaves. -/
def coup_result (w : World) (self target : Nat) : World :=
  let w1 := w.store self { w.heap self with coins := (w.heap self).coins - 7 }
  w1.store target { w1.heap target with active := false }

/-- The game of the test "Coup action": Player1 holds 7 coins. -/
def coup_action_world : World :=
  world2 { Player.new "Player1" "Regular" with coins := 7 } (Player.new "Player2" "Regular")
    none

/-- A fresh Governor (address 0) and a fresh base player (address 1). -/
def governor_regular_world : World :=
  world2 (Governor.new "TestGovernor") (Player.new "TestPlayer" "Regular") none

/-- A base player holding 4 coins (address 0) and a base player holding 1. -/
def four_coin_world : World :=
  world2 (mk_player "A" 4 true false) (mk_player "B" 1 true false) none

/-- The world a sanction that returns normally leaves. -/
def sanction_result (w : World) (self target : Nat) : World :=
  let w1 := w.store self { w.heap self with coins := (w.heap self).coins - 3 }
  w1.store target { w1.heap target with sanctioned := true }

/-- A Governor holding 4 coins (address 0) and a Spy holding 2 (address 1). -/
def governor_spy_world : World :=
  world2 { Governor.new "Alice" with coins := 4 } { Spy.new "Bob" with coins := 2 } none

/-- The world `w` with the sanctioned flags of `actor` and `target` overwritten
by `fa` and `ft`. -/
def with_flags (w : World) (actor target : Nat) (fa ft : Bool) : World :=
  let w1 := w.store actor { w.heap actor with sanctioned := fa }
  w1.store target { w1.heap target with sanctioned := ft }

/-- A player object with its sanctioned flag cleared. -/
def Player.without_flag (p : Player) : Player := { p with sanctioned := false }

/-- Two worlds that differ at most in sanctioned flags. -/
def same_but_sanctioned (w w2 : World) : Prop :=
  w.game = w2.game ∧ w.int_bits = w2.int_bits
  ∧ ∀ p, (w.heap p).without_flag = (w2.heap p).without_flag

/-- Two outcomes with the same result whose worlds differ at most in sanctioned
flags. -/
def compat (o o2 : Outcome) : Prop :=
  o.result = o2.result ∧ same_but_sanctioned o.world o2.world

/-- What an observer of an action sees: success or the exception raised, every
coin balance, every eliminated flag and the last-arrested reference. -/
def same_outcome (o o2 : Outcome) : Prop :=
  o.result = o2.result
  ∧ (∀ p, Player.get_coins o.world p = Player.get_coins o2.world p)
  ∧ (∀ p, Player.is_eliminated o.world p = Player.is_eliminated o2.world p)
  ∧ Game.get_last_arrested o.world = Game.get_last_arrested o2.world

/-- A game to which no player was added yet. -/
def empty_world : World :=
  { heap := fun _ => Player.new "" "",
    game := { players := [], current_player_index := 0, last_arrested := none } }

/-- Three roster players at addresses 0, 1, 2, every other address holding a
fresh base player. -/
def world3 (p0 p1 p2 : Player) (idx : Nat) : World :=
  { heap := fun a => if a = 0 then p0 else if a = 1 then p1 else if a = 2 then p2
      else Player.new "" "",
    game := { players := [0, 1, 2], current_player_index := idx, last_arrested := none } }

/-- Alice is the only player left of three; the turn pointer is at her index. -/
def alice_left_world : World :=
  world3 (Governor.new "Alice") { Spy.new "Bob" with active := false }
    { Baron.new "Charlie" with active := false } 0

/-- Three players, none eliminated; Bob (index 1) has the turn. -/
def three_players_world : World :=
  world3 (Governor.new "Alice") (Spy.new "Bob") (Baron.new "Charlie") 1

/-- Three players, all eliminated. -/
def nobody_left_world : World :=
  world3 { Governor.new "Alice" with active := false } { Spy.new "Bob" with active := false }
    { Baron.new "Charlie" with active := false } 0

/-- Three players of whom Bob (index 1) is eliminated; Alice (index 0) has the
turn. -/
def bob_out_world : World :=
  world3 (Governor.new "Alice") { Spy.new "Bob" with active := false } (Baron.new "Charlie") 0

/-- The six players of the role tests, none eliminated; the Governor has the
turn. -/
def six_roles_world : World :=
  { heap := fun a =>
      if a = 0 then Governor.new "Gov" else if a = 1 then Spy.new "Spy"
      else if a = 2 then Baron.new "Baron" else if a = 3 then General.new "General"
      else if a = 4 then Judge.new "Judge" else if a = 5 then Merchant.new "Merchant"
      else Player.new "" "",
    game := { players := [0, 1, 2, 3, 4, 5], current_player_index := 0, last_arrested := none } }

/-- Member `Game()`: the game before any player is added, over a given store. -/
def Game.new (heap : Nat → Player) : World :=
  { heap := heap, game := { players := [], current_player_index := 0, last_arrested := none } }

/-- The turn pointer is 0, as `Game()` leaves it, or an index into the roster. -/
def Game.pointer_ok (w : World) : Prop :=
  w.game.current_player_index = 0 ∨ w.game.current_player_index < w.game.players.length

/-- The world next_turn has built when it enters its loop: the player `cur`
that holds the turn has its sanction reset and, when it is a Merchant with at
least 3 coins, one coin more. -/
def next_turn_prefix_world (w : World) (cur : Nat) : World :=
  w.store cur { w.heap cur with
    sanctioned := false,
    coins := if (w.heap cur).role = "Merchant" ∧ (w.heap cur).cls = .Merchant
        ∧ 3 ≤ (w.heap cur).coins
      then w.fit ((w.heap cur).coins + 1) else (w.heap cur).coins }

/-- A sanctioned Baron holding 5 coins has the turn (address 0); a Spy waits. -/
def sanctioned_baron_world : World :=
  world2 { Baron.new "Baron" with coins := 5, sanctioned := true } (Spy.new "Spy") none

/-- A sanctioned Merchant holding 3 coins has the turn (address 0); a sanctioned
Spy holding 4 coins waits. -/
def merchant_turn_world : World :=
  world2 { Merchant.new "Merchant" with coins := 3, sanctioned := true }
    { Spy.new "Spy" with coins := 4, sanctioned := true } none

/-- A Merchant holding 2 coins has the turn (address 0); a Spy waits. -/
def poor_merchant_turn_world : World :=
  world2 { Merchant.new "Merchant" with coins := 2 } (Spy.new "Spy") none

/-- A Baron holding 3 coins (address 0) and a Baron holding 2 (address 1). -/
def two_barons_world : World :=
  world2 { Baron.new "Rich" with coins := 3 } { Baron.new "Poor" with coins := 2 } none

/-- A General holding 5 coins (address 0), a Spy holding 2 (address 1) and a
Governor holding 7 (address 2). -/
def general_spy_world : World :=
  world3 { General.new "General" with coins := 5 } { Spy.new "Spy" with coins := 2 }
    { Governor.new "Gov" with coins := 7 } 0

/-- A Judge holding 2 coins (address 0) and a Baron holding 1 (address 1). -/
def judge_baron_world : World :=
  world2 { Judge.new "Judge" with coins := 2 } { Baron.new "Baron" with coins := 1 } none

/-- Whether `catch (const InvalidActionException&)` catches the exception: the
class itself and the five classes Player.cpp derives from it.  The class
InvalidActionException derives from std::runtime_error, not the other way
round, and std::invalid_argument is a std::logic_error. -/
def Exn.is_invalid_action : Exn → Bool
  | .InvalidActionException => true
  | .InsufficientCoinsException => true
  | .SanctionedException => true
  | .ConsecutiveArrestException => true
  | .GameOverException => true
  | .NotPlayerTurnException => true
  | .invalid_argument => false
  | .runtime_error => false

/-- Two players of the same name, with a third between them. -/
def same_name_world : World :=
  world3 (Spy.new "Ann") (Baron.new "Bob") { Judge.new "Ann" with active := false } 0

/-- The player a call sets out to eliminate, if any. -/
def Call.victim : Call → Option Nat
  | .coup _ target => some target
  | .eliminate_player player => some player
  | _ => none

/-- What a call other than next_turn may do to the store, `T` being the player
it may eliminate: with unbounded integers a non-negative balance stays
non-negative, an eliminated flag is kept or, for `T` only, set, and a
sanctioned flag that is set stays set; the platform is the same. -/
def Foot (T : Option Nat) (w w2 : World) : Prop :=
  w2.int_bits = w.int_bits
  ∧ ∀ p, (w.int_bits = none → 0 ≤ (w.heap p).coins → 0 ≤ (w2.heap p).coins)
    ∧ ((w2.heap p).active = (w.heap p).active ∨ ((w2.heap p).active = false ∧ T = some p))
    ∧ ((w.heap p).sanctioned = true → (w2.heap p).sanctioned = true)

/-- No player holds a negative balance. -/
def coins_nonneg (w : World) : Prop := ∀ p, 0 ≤ (w.heap p).coins

/-- The six players of the role tests with 7 coins each. -/
def six_rich_world : World :=
  { heap := fun a =>
      if a = 0 then { Governor.new "Gov" with coins := 7 }
      else if a = 1 then { Spy.new "Spy" with coins := 7 }
      else if a = 2 then { Baron.new "Baron" with coins := 7 }
      else if a = 3 then { General.new "General" with coins := 7 }
      else if a = 4 then { Judge.new "Judge" with coins := 7 }
      else if a = 5 then { Merchant.new "Merchant" with coins := 7 }
      else Player.new "" "",
    game := { players := [0, 1, 2, 3, 4, 5], current_player_index := 0, last_arrested := none } }

/-- A trace that mixes calls that succeed with calls that are rejected: two
coups, a bribe, a rejected remove_coins, a Merchant arrest, a rejected coup, a
rejected penalize_sanction and a next_turn. -/
def mixed_trace : List Call :=
  [.coup 0 1, .coup 2 4, .bribe 3, .remove_coins 0 5, .arrest 5 3, .coup 0 2,
    .penalize_sanction 4 0, .next_turn]

/-- Run the calls one after the other as long as each passes the check `chk`
in the world it is made in; `none` when a call fails the check or has no
defined result. -/
def run_if (chk : World → Call → Bool) : World → List Call → Option World
  | w, [] => some w
  | w, c :: cs =>
    if chk w c then
      match exec w c with
      | none => none
      | some o => run_if chk o.world cs
    else none

/-- The game after `Game()` and one add_player for each address of `ps`. -/
def setup (heap : Nat → Player) (ps : List Nat) : World :=
  ps.foldl (fun w p => (Game.add_player w p).world) (Game.new heap)

/-- The call does not set out to eliminate the player that holds the turn. -/
def spares_current (w : World) (c : Call) : Bool :=
  match c.victim with
  | some t => decide (w.game.players[w.game.current_player_index]? ≠ some t)
  | none => true

/-- The player that makes the call; next_turn and eliminate_player are calls
on the game. -/
def Call.actor : Call → Option Nat
  | .gather self => some self
  | .tax self => some self
  | .bribe self => some self
  | .arrest self _ => some self
  | .sanction self _ => some self
  | .coup self _ => some self
  | .add_coins self _ => some self
  | .remove_coins self _ => some self
  | .block_tax self _ => some self
  | .view_coins self _ => some self
  | .block_arrest self _ => some self
  | .invest self => some self
  | .compensate self => some self
  | .protect self _ => some self
  | .recover_arrest self => some self
  | .block_bribe self _ => some self
  | .penalize_sanction self _ => some self
  | .bonus self => some self
  | .next_turn => none
  | .eliminate_player _ => none

/-- The turn discipline: the call is next_turn, or it is made by the player at
the turn pointer and, when it is a coup, does not target that player. -/
def turn_discipline (w : World) (c : Call) : Bool :=
  match c with
  | .next_turn => true
  | .eliminate_player _ => false
  | .coup self target =>
    decide (w.game.players[w.game.current_player_index]? = some self) && decide (target ≠ self)
  | c => decide (w.game.players[w.game.current_player_index]? = c.actor)

/-- The game is over or the turn pointer refers to a player that is not
eliminated. -/
def current_active (w : World) : Prop :=
  Game.is_game_over w = false →
    ∃ p, w.game.players[w.game.current_player_index]? = some p
      ∧ Player.is_eliminated w p = false

/-- Three fresh players at addresses 0, 1, 2. -/
def three_fresh_heap : Nat → Player :=
  fun a => if a = 0 then Governor.new "Alice" else if a = 1 then Spy.new "Bob"
    else if a = 2 then Baron.new "Charlie" else Player.new "" ""

/-- Bob taxes four times while Alice holds the turn and coups her. -/
def coup_out_of_turn : List Call :=
  [.tax 1, .tax 1, .tax 1, .tax 1, .coup 1 0]

/-- A game played in turn: each player taxes on its own turn and passes the
turn, until Alice holds 9 coins and coups Bob. -/
def disciplined_trace : List Call :=
  [.tax 0, .next_turn, .tax 1, .next_turn, .tax 2, .next_turn,
    .tax 0, .next_turn, .tax 1, .next_turn, .tax 2, .next_turn,
    .tax 0, .coup 0 1, .next_turn]

/-- The call is not a next_turn made while player `p` holds the turn. -/
def keeps_turn_of (p : Nat) (w : World) (c : Call) : Bool :=
  match c with
  | .next_turn => decide (w.game.players[w.game.current_player_index]? ≠ some p)
  | _ => true

/-- Diana, Ethan and Alice with 3 coins each; Diana (index 0) has the turn. -/
def diana_ethan_world : World :=
  world3 { General.new "Diana" with coins := 3 } { Judge.new "Ethan" with coins := 3 }
    { Governor.new "Alice" with coins := 3 } 0

/-- What a copy of a game holds: the new player objects in roster order, the
turn pointer, and the last-arrested pointer, which the copy takes over as it
is, so that it still refers to an object of the source game. -/
structure GameCopy where
  players : List Player
  current_player_index : Nat
  last_arrested : Option Nat
  deriving DecidableEq, Repr

/-- The object the copy loop of `Game(const Game&)` and of `operator=` builds
for one player of the source: a new object of the role class, made by its
constructor from the name alone, when the role string names one of the six
roles, and otherwise `new Player(*player)`, a base object with every data
member copied. -/
def copy_player (p : Player) : Player :=
  if p.role = "Governor" then Governor.new p.name
  else if p.role = "Spy" then Spy.new p.name
  else if p.role = "Baron" then Baron.new p.name
  else if p.role = "General" then General.new p.name
  else if p.role = "Judge" then Judge.new p.name
  else if p.role = "Merchant" then Merchant.new p.name
  else { p with cls := .Player }

/-- Members `Game(const Game& other)` and `operator=(const Game& other)` (for
`this != &other`), `other` being the game of `w`: both run the same loop and
copy the same two members. -/
def Game.copy (w : World) : GameCopy :=
  { players := w.game.players.map fun a => copy_player (w.heap a),
    current_player_index := w.game.current_player_index,
    last_arrested := w.game.last_arrested }

/-- A sanctioned Governor holding 4 coins, a base player holding 5 coins and an
eliminated Spy holding 2; the base player (index 1) has the turn and the
Governor is the last-arrested player. -/
def game_to_copy : World :=
  { heap := fun a =>
      if a = 0 then { Governor.new "Alice" with coins := 4, sanctioned := true }
      else if a = 1 then { Player.new "Pat" "Regular" with coins := 5, sanctioned := true }
      else if a = 2 then { Spy.new "Bob" with coins := 2, active := false }
      else Player.new "" "",
    game := { players := [0, 1, 2], current_player_index := 1, last_arrested := some 0 } }

/-- A Governor (address 0), a Merchant (address 1) and a Baron (address 2) that
each hold INT_MAX = 2147483647 coins, the largest value of a 32-bit `int`, as
`add_coins(2147483647)` on a new player leaves it; the Merchant has the turn. -/
def int_max_world : World :=
  world3 { Governor.new "Gov" with coins := 2147483647 }
    { Merchant.new "Merchant" with coins := 2147483647 }
    { Baron.new "Baron" with coins := 2147483647 } 1

/-- The store of `general_spy_world` with another roster: the Governor was
added once and the Spy twice, as `add_player` allows. -/
def twice_added_world : World :=
  { general_spy_world with
    game := { players := [2, 1, 1], current_player_index := 0, last_arrested := none } }

/-- The six players with 7 coins each, coins taken as unbounded integers. -/
def six_rich_unbounded_world : World := { six_rich_world with int_bits := none }

/-! ## Store lemmas -/

@[simp] theorem store_heap_same (w : World) (a : Nat) (p : Player) :
    (w.store a p).heap a = p := by
  simp [World.store]

@[simp] theorem store_heap_other (w : World) (a b : Nat) (p : Player) (h : b ≠ a) :
    (w.store a p).heap b = w.heap b := by
  simp [World.store, Function.update, h]

@[simp] theorem store_game (w : World) (a : Nat) (p : Player) :
    (w.store a p).game = w.game := rfl

theorem store_heap (w : World) (a b : Nat) (p : Player) :
    (w.store a p).heap b = if b = a then p else w.heap b := by
  by_cases h : b = a
  · subst h; simp
  · simp [h]

/-! ## The range of `int` -/

@[simp] theorem store_int_bits (w : World) (a : Nat) (p : Player) :
    (w.store a p).int_bits = w.int_bits := rfl

@[simp] theorem store_fit (w : World) (a : Nat) (p : Player) (x : Int) :
    (w.store a p).fit x = w.fit x := rfl

theorem fits_iff (w : World) (x : Int) : w.fits x = true ↔ w.fit x = x := by
  simp [World.fits]

/-- With unbounded integers nothing overflows. -/
theorem fit_unbounded (w : World) (x : Int) (h : w.int_bits = none) : w.fit x = x := by
  simp [World.fit, h]

/-- On a 32-bit platform the values of `int` are those from INT_MIN =
-2147483648 to INT_MAX = 2147483647. -/
theorem fits_32 (w : World) (x : Int) (h : w.int_bits = some 32) :
    w.fits x = true ↔ -2147483648 ≤ x ∧ x ≤ 2147483647 := by
  rw [fits_iff]
  simp only [World.fit, h, wrap_int]
  norm_num
  omega

theorem wrap_int_eq_iff (bits : Nat) (x : Int) :
    wrap_int bits x = x ↔ 0 ≤ x + 2 ^ (bits - 1) ∧ x + 2 ^ (bits - 1) < 2 ^ bits := by
  unfold wrap_int
  have hM : (0 : Int) < 2 ^ bits := by positivity
  generalize (2 : Int) ^ bits = M at hM ⊢
  generalize (2 : Int) ^ (bits - 1) = H
  constructor
  · intro h
    have h1 := Int.emod_nonneg (x + H) (ne_of_gt hM)
    have h2 := Int.emod_lt_of_pos (x + H) hM
    constructor <;> omega
  · rintro ⟨h1, h2⟩
    rw [Int.emod_eq_of_lt h1 h2]
    omega

/-- A value between 0 and a value of `int` is a value of `int`. -/
theorem fits_mono (w : World) (y z : Int) (h0 : 0 ≤ y) (hyz : y ≤ z)
    (hz : w.fits z = true) : w.fits y = true := by
  rw [fits_iff] at hz ⊢
  unfold World.fit at hz ⊢
  split at hz
  · next bits hb =>
    rw [wrap_int_eq_iff] at hz ⊢
    have hH : (0 : Int) < 2 ^ (bits - 1) := by positivity
    generalize (2 : Int) ^ bits = M at hz ⊢
    generalize (2 : Int) ^ (bits - 1) = H at hz hH ⊢
    constructor <;> omega
  · rfl

/-- On a 32-bit platform whatever `add_coins` stores is a value of `int`. -/
theorem fit_32_range (w : World) (x : Int) (h : w.int_bits = some 32) :
    -2147483648 ≤ w.fit x ∧ w.fit x ≤ 2147483647 := by
  simp only [World.fit, h, wrap_int]
  norm_num
  omega

/-! ## Rejected calls -/

/-- C1, evaluated at the failing input: the coup of an already eliminated
target is rejected by eliminate_player with runtime_error, after remove_coins(7)
has run, so the actor's balance went from 7 to 0. -/
theorem coup_eliminated_target_spends_coins :
    Player.get_coins coup_eliminated_world 0 = 7
    ∧ Player.is_eliminated coup_eliminated_world 1 = true
    ∧ (Player.coup coup_eliminated_world 0 1).result = .error .runtime_error
    ∧ Player.get_coins (Player.coup coup_eliminated_world 0 1).world 0 = 0 := by
  decide

/-- A coup by an actor with fewer than 7 coins is rejected with the world as it
was. -/
theorem coup_insufficient_unchanged (w : World) (self target : Nat)
    (h : Player.get_coins w self < 7) :
    Player.coup w self target = throw_ .InsufficientCoinsException w := by
  simp [Player.coup, h]

theorem gather_rejected_unchanged (w : World) (self : Nat) (e : Exn)
    (h : (Player.gather w self).result = .error e) : (Player.gather w self).world = w := by
  unfold Player.gather Player.add_coins at *
  split_ifs at h ⊢ <;> simp_all [throw_, ret]

theorem tax_rejected_unchanged (w : World) (self : Nat) (e : Exn)
    (h : (dispatch_tax w self).result = .error e) : (dispatch_tax w self).world = w := by
  unfold dispatch_tax Governor.tax Player.tax Player.add_coins at *
  split at h <;> split_ifs at h ⊢ <;> simp_all [throw_, ret]

theorem bribe_rejected_unchanged (w : World) (self : Nat) (e : Exn)
    (h : (Player.bribe w self).result = .error e) : (Player.bribe w self).world = w := by
  unfold Player.bribe Player.remove_coins Player.get_coins at *
  split_ifs at h ⊢ <;> simp_all [throw_, ret]

theorem base_arrest_rejected_unchanged (w : World) (self target : Nat) (e : Exn)
    (h : (Player.arrest w self target).result = .error e) :
    (Player.arrest w self target).world = w := by
  unfold Player.arrest Player.remove_coins Player.add_coins Game.set_last_arrested
    Player.get_coins at *
  split_ifs at h ⊢ <;> simp_all [throw_, ret, Outcome.andThen]

theorem merchant_arrest_rejected_unchanged (w : World) (self target : Nat) (e : Exn)
    (h : (Merchant.arrest w self target).result = .error e) :
    (Merchant.arrest w self target).world = w := by
  unfold Merchant.arrest Player.remove_coins Game.set_last_arrested Player.get_coins at *
  split_ifs at h ⊢ <;> simp_all [throw_, ret, Outcome.andThen]

theorem arrest_rejected_unchanged (w : World) (self target : Nat) (e : Exn)
    (h : (dispatch_arrest w self target).result = .error e) :
    (dispatch_arrest w self target).world = w := by
  unfold dispatch_arrest at *
  split at h
  · exact merchant_arrest_rejected_unchanged w self target e h
  · exact base_arrest_rejected_unchanged w self target e h

theorem sanction_rejected_unchanged (w : World) (self target : Nat) (e : Exn)
    (h : (Player.sanction w self target).result = .error e) :
    (Player.sanction w self target).world = w := by
  unfold Player.sanction Player.remove_coins Player.set_sanctioned Player.get_coins at *
  split_ifs at h ⊢ <;> simp_all [throw_, ret, Outcome.andThen]

theorem invest_rejected_unchanged (w : World) (self : Nat) (e : Exn)
    (h : (Baron.invest w self).result = .error e) : (Baron.invest w self).world = w := by
  unfold Baron.invest Player.remove_coins Player.add_coins Player.get_coins at *
  split_ifs at h ⊢ <;> simp_all [throw_, ret, Outcome.andThen]

theorem protect_rejected_unchanged (w : World) (self target : Nat) (e : Exn)
    (h : (General.protect w self target).result = .error e) :
    (General.protect w self target).world = w := by
  unfold General.protect Player.remove_coins Player.get_coins at *
  split_ifs at h ⊢ <;> simp_all [throw_, ret]

theorem penalize_rejected_unchanged (w : World) (self target : Nat) (e : Exn)
    (h : (Judge.penalize_sanction w self target).result = .error e) :
    (Judge.penalize_sanction w self target).world = w := by
  unfold Judge.penalize_sanction Player.remove_coins Player.get_coins at *
  split_ifs at h ⊢ <;> simp_all [throw_, ret]

/-- C2: when gather, tax, bribe, arrest (base or Merchant override), sanction,
Baron invest, General protect or Judge penalize_sanction is rejected with an
exception, the world after the call is the world before it: every player
object (coins, sanctioned and eliminated flags), the last-arrested reference
and the turn pointer. -/
theorem rejected_action_leaves_world_unchanged (w : World) (c : Call) (o : Outcome) (e : Exn)
    (hc : c.checks_first = true) (hx : exec w c = some o) (hr : o.result = .error e) :
    o.world = w := by
  cases c <;> simp [Call.checks_first] at hc <;>
    simp only [exec, guard_cls, Option.some.injEq] at hx
  · subst hx; exact gather_rejected_unchanged w _ e hr
  · subst hx; exact tax_rejected_unchanged w _ e hr
  · subst hx; exact bribe_rejected_unchanged w _ e hr
  · subst hx; exact arrest_rejected_unchanged w _ _ e hr
  · subst hx; exact sanction_rejected_unchanged w _ _ e hr
  · split_ifs at hx
    simp only [Option.some.injEq] at hx
    subst hx; exact invest_rejected_unchanged w _ e hr
  · split_ifs at hx
    simp only [Option.some.injEq] at hx
    subst hx; exact protect_rejected_unchanged w _ _ e hr
  · split_ifs at hx
    simp only [Option.some.injEq] at hx
    subst hx; exact penalize_rejected_unchanged w _ _ e hr

/-- C2 at a concrete rejected call: a Merchant holding one coin arrests; the
call passes the balance check of the override and is rejected inside
remove_coins(2). -/
theorem rejected_action_leaves_world_unchanged_witness :
    (Call.arrest 0 1).checks_first = true
    ∧ exec merchant_one_coin_world (.arrest 0 1)
        = some (dispatch_arrest merchant_one_coin_world 0 1)
    ∧ (dispatch_arrest merchant_one_coin_world 0 1).result = .error .InsufficientCoinsException
    ∧ (dispatch_arrest merchant_one_coin_world 0 1).world = merchant_one_coin_world :=
  ⟨rfl, rfl, by decide,
    rejected_action_leaves_world_unchanged merchant_one_coin_world (.arrest 0 1)
      (dispatch_arrest merchant_one_coin_world 0 1) .InsufficientCoinsException rfl rfl
      (by decide)⟩

/-! ## gather and tax -/

/-- C9: a player whose sanctioned flag is set, of any class and with any
balance, has gather and tax (the Governor override included) rejected with
SanctionedException, and the world, so the balance, is as before. -/
theorem sanctioned_blocks_gather_and_tax (w : World) (self : Nat)
    (hs : (w.heap self).sanctioned = true) :
    Player.gather w self = throw_ .SanctionedException w
    ∧ dispatch_tax w self = throw_ .SanctionedException w
    ∧ Governor.tax w self = throw_ .SanctionedException w
    ∧ Player.tax w self = throw_ .SanctionedException w := by
  refine ⟨?_, ?_, ?_, ?_⟩
  · simp [Player.gather, Player.is_sanctioned, hs]
  · unfold dispatch_tax
    split <;> simp [Governor.tax, Player.tax, Player.is_sanctioned, hs]
  · simp [Governor.tax, Player.is_sanctioned, hs]
  · simp [Player.tax, Player.is_sanctioned, hs]

/-- C9 at a sanctioned Governor holding 12 coins. -/
theorem sanctioned_blocks_gather_and_tax_witness :
    (sanctioned_governor_world.heap 0).sanctioned = true
    ∧ (sanctioned_governor_world.heap 0).cls = .Governor
    ∧ Player.gather sanctioned_governor_world 0
        = throw_ .SanctionedException sanctioned_governor_world
    ∧ dispatch_tax sanctioned_governor_world 0
        = throw_ .SanctionedException sanctioned_governor_world :=
  ⟨rfl, rfl,
    (sanctioned_blocks_gather_and_tax sanctioned_governor_world 0 rfl).1,
    (sanctioned_blocks_gather_and_tax sanctioned_governor_world 0 rfl).2.1⟩

/-- C10 fails at the largest balance: an unsanctioned Governor holding INT_MAX =
2147483647 coins on a 32-bit platform gathers; the call returns normally and the
balance it leaves is not one higher (2147483648 is not a value of `int`): the
sum has wrapped to INT_MIN. -/
theorem gather_at_int_max_overflows :
    (int_max_world.heap 0).sanctioned = false
    ∧ (int_max_world.heap 0).coins = 2147483647
    ∧ (Player.gather int_max_world 0).result = .ok ()
    ∧ ((Player.gather int_max_world 0).world.heap 0).coins
        ≠ (int_max_world.heap 0).coins + 1
    ∧ ((Player.gather int_max_world 0).world.heap 0).coins = -2147483648 := by
  decide

/-- C10, amended: for a player whose sanctioned flag is clear, of any class and
with any balance for which balance + 1 is a value of `int` (any balance below
INT_MAX), gather returns normally, the balance is one higher, the rest of the
player object (flags included) is as before, every other player object is as
before, and the game (roster, turn pointer, last-arrested) is as before. -/
theorem gather_succeeds (w : World) (self : Nat) (hs : (w.heap self).sanctioned = false)
    (hfit : w.fits ((w.heap self).coins + 1) = true) :
    (Player.gather w self).result = .ok ()
    ∧ (Player.gather w self).world.heap self
        = { w.heap self with coins := (w.heap self).coins + 1 }
    ∧ (∀ p, p ≠ self → (Player.gather w self).world.heap p = w.heap p)
    ∧ (Player.gather w self).world.game = w.game := by
  have hf := (fits_iff w _).mp hfit
  have h : Player.gather w self
      = ret (w.store self { w.heap self with coins := (w.heap self).coins + 1 }) := by
    simp [Player.gather, Player.is_sanctioned, hs, Player.add_coins, hf]
  rw [h]
  refine ⟨rfl, by simp [ret], ?_, rfl⟩
  intro p hp
  simp [ret, hp]

/-- C10 at a player holding 10 coins: gather is not blocked. -/
theorem gather_succeeds_witness :
    (ten_coin_world.heap 0).sanctioned = false
    ∧ ten_coin_world.fits ((ten_coin_world.heap 0).coins + 1) = true
    ∧ (Player.gather ten_coin_world 0).result = .ok ()
    ∧ ((Player.gather ten_coin_world 0).world.heap 0).coins = 11 := by
  have h := gather_succeeds ten_coin_world 0 rfl (by decide)
  refine ⟨rfl, by decide, h.1, ?_⟩
  rw [h.2.1]
  rfl

/-! ## arrest -/

theorem base_arrest_ok (w : World) (self target : Nat)
    (hself : 1 ≤ (w.heap self).coins) (hlast : w.game.last_arrested ≠ some target)
    (htarget : 1 ≤ (w.heap target).coins) :
    Player.arrest w self target = ret (arrest_result w self target) := by
  have h1 : ¬ (w.heap self).coins < 1 := by omega
  have h2 : ¬ (w.heap target).coins < 1 := by omega
  simp [Player.arrest, Player.get_coins, Game.get_last_arrested, h1, h2, hlast,
    Player.remove_coins, Player.add_coins, Game.set_last_arrested, Outcome.andThen, ret,
    arrest_result]

/-- C3 fails at the largest balance: on a 32-bit platform a Governor holding
INT_MAX = 2147483647 coins arrests a Baron that holds coins and is not the
last-arrested player; the call returns normally, the target has one coin less,
and the actor does not have one coin more (2147483648 is not a value of `int`):
its balance has wrapped to INT_MIN. -/
theorem arrest_at_int_max_overflows :
    (int_max_world.heap 0).cls ≠ .Merchant ∧ (2 : Nat) ≠ 0
    ∧ (int_max_world.heap 0).coins = 2147483647
    ∧ int_max_world.game.last_arrested ≠ some 2
    ∧ 1 ≤ (int_max_world.heap 2).coins
    ∧ (dispatch_arrest int_max_world 0 2).result = .ok ()
    ∧ ((dispatch_arrest int_max_world 0 2).world.heap 2).coins
        = (int_max_world.heap 2).coins - 1
    ∧ ((dispatch_arrest int_max_world 0 2).world.heap 0).coins
        ≠ (int_max_world.heap 0).coins + 1
    ∧ ((dispatch_arrest int_max_world 0 2).world.heap 0).coins = -2147483648 := by
  decide

/-- C3, amended: an actor whose class is not Merchant, holding at least 1 coin
and less than INT_MAX (its balance + 1 is a value of `int`), arrests a target
distinct from itself that is not the last-arrested player and holds at least 1
coin: the call returns normally, the target has one coin less, the actor one
coin more, and last-arrested is the target. -/
theorem arrest_transfers_coin (w : World) (self target : Nat)
    (hcls : (w.heap self).cls ≠ .Merchant) (hne : target ≠ self)
    (hself : 1 ≤ (w.heap self).coins) (hlast : w.game.last_arrested ≠ some target)
    (htarget : 1 ≤ (w.heap target).coins)
    (hfit : w.fits ((w.heap self).coins + 1) = true) :
    (dispatch_arrest w self target).result = .ok ()
    ∧ ((dispatch_arrest w self target).world.heap target).coins = (w.heap target).coins - 1
    ∧ ((dispatch_arrest w self target).world.heap self).coins = (w.heap self).coins + 1
    ∧ (dispatch_arrest w self target).world.game.last_arrested = some target := by
  have hd : dispatch_arrest w self target = Player.arrest w self target := by
    unfold dispatch_arrest
    split
    · next h => exact absurd h hcls
    · rfl
  rw [hd, base_arrest_ok w self target hself hlast htarget]
  have hne2 : self ≠ target := fun h => hne h.symm
  have hf := (fits_iff w _).mp hfit
  refine ⟨rfl, ?_, ?_, rfl⟩
  · simp [ret, arrest_result, store_heap, hne, hne2]
  · simp [ret, arrest_result, store_heap, hne, hne2, hf]

/-- C3 at a General arresting a Merchant, one coin each. -/
theorem arrest_transfers_coin_witness :
    (general_merchant_world.heap 0).cls ≠ .Merchant ∧ (1 : Nat) ≠ 0
    ∧ 1 ≤ (general_merchant_world.heap 0).coins
    ∧ general_merchant_world.game.last_arrested ≠ some 1
    ∧ 1 ≤ (general_merchant_world.heap 1).coins
    ∧ general_merchant_world.fits ((general_merchant_world.heap 0).coins + 1) = true
    ∧ (dispatch_arrest general_merchant_world 0 1).result = .ok ()
    ∧ ((dispatch_arrest general_merchant_world 0 1).world.heap 1).coins = 0
    ∧ ((dispatch_arrest general_merchant_world 0 1).world.heap 0).coins = 2
    ∧ (dispatch_arrest general_merchant_world 0 1).world.game.last_arrested = some 1 :=
  ⟨by decide, by decide, by decide, by decide, by decide, by decide,
    arrest_transfers_coin general_merchant_world 0 1 (by decide) (by decide) (by decide)
      (by decide) (by decide) (by decide)⟩

/-! ## The last-arrested reference along a trace -/

theorem add_coins_game (w : World) (a : Nat) (n : Int) :
    (Player.add_coins w a n).world.game = w.game := by
  unfold Player.add_coins; split_ifs <;> rfl

theorem remove_coins_game (w : World) (a : Nat) (n : Int) :
    (Player.remove_coins w a n).world.game = w.game := by
  unfold Player.remove_coins; split_ifs <;> rfl

theorem andThen_game (o : Outcome) (k : World → Outcome) (g : Game)
    (ho : o.world.game = g) (hk : ∀ w1, w1.game = g → (k w1).world.game = g) :
    (o.andThen k).world.game = g := by
  unfold Outcome.andThen
  split
  · exact hk _ ho
  · exact ho

theorem bonus_game (w : World) (a : Nat) : (Merchant.bonus w a).world.game = w.game := by
  unfold Merchant.bonus; split_ifs
  · exact add_coins_game w a 1
  · rfl

theorem compensate_game (w : World) (a : Nat) :
    (Baron.compensate w a).world.game = w.game := by
  unfold Baron.compensate; split_ifs
  · exact add_coins_game w a 1
  · rfl

theorem role_effects_game (w : World) (cur : Nat) :
    (Game.role_effects w cur).world.game = w.game := by
  unfold Game.role_effects
  apply andThen_game
  · split_ifs
    · exact bonus_game w cur
    · rfl
  · intro w1 h1
    split_ifs
    · rw [compensate_game, h1]
    · exact h1

/-- What `next_turn` does to the game object: only the turn pointer moves. -/
theorem next_turn_game (w : World) (o : Outcome) (h : Game.next_turn w = some o) :
    o.world.game.last_arrested = w.game.last_arrested
    ∧ o.world.game.players = w.game.players := by
  unfold Game.next_turn at h
  split_ifs at h
  · simp only [Option.some.injEq] at h
    subst h; exact ⟨rfl, rfl⟩
  · split at h
    · exact absurd h (by simp)
    · next cur _ =>
      have hg : ((Player.set_sanctioned w cur false).andThen
          fun w1 => Game.role_effects w1 cur).world.game = w.game := by
        apply andThen_game
        · rfl
        · intro w1 h1
          rw [role_effects_game, h1]
      simp only at h
      split at h
      · simp only [Option.some.injEq] at h
        subst h; rw [hg]; exact ⟨rfl, rfl⟩
      · split at h
        · exact absurd h (by simp)
        · simp only [Option.some.injEq] at h
          subst h
          simp [ret, hg]

theorem arrest_ok_last_arrested (w : World) (self target : Nat)
    (h : (dispatch_arrest w self target).result = .ok ()) :
    (dispatch_arrest w self target).world.game.last_arrested = some target := by
  unfold dispatch_arrest at *
  split at h
  · unfold Merchant.arrest Player.remove_coins Game.set_last_arrested at *
    split_ifs at h ⊢ <;> simp_all [throw_, ret, Outcome.andThen]
  · unfold Player.arrest Player.remove_coins Player.add_coins Game.set_last_arrested at *
    split_ifs at h ⊢ <;> simp_all [throw_, ret, Outcome.andThen]

theorem set_sanctioned_game (w : World) (a : Nat) (v : Bool) :
    (Player.set_sanctioned w a v).world.game = w.game := rfl

theorem eliminate_player_game (w : World) (a : Nat) :
    (Game.eliminate_player w a).world.game = w.game := by
  unfold Game.eliminate_player; split_ifs <;> rfl

theorem gather_game (w : World) (a : Nat) : (Player.gather w a).world.game = w.game := by
  unfold Player.gather; split_ifs
  · rfl
  · exact add_coins_game w a 1

theorem tax_game (w : World) (a : Nat) : (dispatch_tax w a).world.game = w.game := by
  unfold dispatch_tax Governor.tax Player.tax
  split <;> split_ifs <;> rfl

theorem bribe_game (w : World) (a : Nat) : (Player.bribe w a).world.game = w.game := by
  unfold Player.bribe; split_ifs
  · rfl
  · exact remove_coins_game w a 4

theorem sanction_game (w : World) (a t : Nat) :
    (Player.sanction w a t).world.game = w.game := by
  unfold Player.sanction; split_ifs
  · rfl
  · apply andThen_game
    · exact remove_coins_game w a 3
    · intro w1 h1; rw [set_sanctioned_game, h1]

theorem coup_game (w : World) (a t : Nat) : (Player.coup w a t).world.game = w.game := by
  unfold Player.coup; split_ifs
  · rfl
  · apply andThen_game
    · exact remove_coins_game w a 7
    · intro w1 h1; rw [eliminate_player_game, h1]

theorem invest_game (w : World) (a : Nat) : (Baron.invest w a).world.game = w.game := by
  unfold Baron.invest; split_ifs
  · rfl
  · apply andThen_game
    · exact remove_coins_game w a 3
    · intro w1 h1; rw [add_coins_game, h1]

theorem protect_game (w : World) (a t : Nat) :
    (General.protect w a t).world.game = w.game := by
  unfold General.protect; split_ifs
  · rfl
  · exact remove_coins_game w a 5

theorem penalize_game (w : World) (a t : Nat) :
    (Judge.penalize_sanction w a t).world.game = w.game := by
  unfold Judge.penalize_sanction; split_ifs
  · rfl
  · exact remove_coins_game w t 1

theorem guard_cls_some (w : World) (a : Nat) (c : Cls) (o o2 : Outcome)
    (h : guard_cls w a c o = some o2) : o2 = o := by
  unfold guard_cls at h
  split_ifs at h
  simp only [Option.some.injEq] at h
  exact h.symm

/-- One call changes the last-arrested reference only when it is an arrest
that returns normally, and then to the target of that arrest. -/
theorem exec_last_arrested (w : World) (c : Call) (o : Outcome) (h : exec w c = some o) :
    o.world.game.last_arrested = w.game.last_arrested
    ∨ ∃ x u, c = .arrest x u ∧ o.result = .ok ()
        ∧ o.world.game.last_arrested = some u := by
  cases c with
  | arrest x u =>
    simp only [exec, Option.some.injEq] at h
    subst h
    cases hr : (dispatch_arrest w x u).result with
    | ok v =>
      right
      exact ⟨x, u, rfl, rfl, arrest_ok_last_arrested w x u hr⟩
    | error e =>
      left
      rw [arrest_rejected_unchanged w x u e hr]
  | next_turn =>
    left
    exact (next_turn_game w o h).1
  | gather a => simp only [exec, Option.some.injEq] at h; subst h; left; rw [gather_game]
  | tax a => simp only [exec, Option.some.injEq] at h; subst h; left; rw [tax_game]
  | bribe a => simp only [exec, Option.some.injEq] at h; subst h; left; rw [bribe_game]
  | sanction a t =>
    simp only [exec, Option.some.injEq] at h; subst h; left; rw [sanction_game]
  | coup a t => simp only [exec, Option.some.injEq] at h; subst h; left; rw [coup_game]
  | add_coins a n =>
    simp only [exec, Option.some.injEq] at h; subst h; left; rw [add_coins_game]
  | remove_coins a n =>
    simp only [exec, Option.some.injEq] at h; subst h; left; rw [remove_coins_game]
  | eliminate_player a =>
    simp only [exec, Option.some.injEq] at h; subst h; left; rw [eliminate_player_game]
  | block_tax a t => rw [guard_cls_some w a _ _ o h]; left; rfl
  | view_coins a t => rw [guard_cls_some w a _ _ o h]; left; rfl
  | block_arrest a t => rw [guard_cls_some w a _ _ o h]; left; rfl
  | block_bribe a t => rw [guard_cls_some w a _ _ o h]; left; rfl
  | invest a => rw [guard_cls_some w a _ _ o h]; left; rw [invest_game]
  | compensate a => rw [guard_cls_some w a _ _ o h]; left; rw [compensate_game]
  | protect a t => rw [guard_cls_some w a _ _ o h]; left; rw [protect_game]
  | recover_arrest a =>
    rw [guard_cls_some w a _ _ o h]; left
    exact congrArg Game.last_arrested (add_coins_game w a 1)
  | penalize_sanction a t => rw [guard_cls_some w a _ _ o h]; left; rw [penalize_game]
  | bonus a => rw [guard_cls_some w a _ _ o h]; left; rw [bonus_game]

/-- Along a trace in which every arrest that returned normally had target `T`,
a last-arrested reference equal to `T` stays `T`. -/
theorem run_keeps_last_arrested (T : Nat) (cs : List Call) :
    ∀ (w w2 : World) (log : List (Call × Except Exn Unit)),
      w.game.last_arrested = some T → run w cs = some (log, w2) →
      (∀ x u, (Call.arrest x u, Except.ok ()) ∈ log → u = T) →
      w2.game.last_arrested = some T := by
  induction cs with
  | nil =>
    intro w w2 log h0 hrun _
    simp only [run, Option.some.injEq, Prod.mk.injEq] at hrun
    rw [← hrun.2]; exact h0
  | cons c cs ih =>
    intro w w2 log h0 hrun hq
    unfold run at hrun
    split at hrun
    · exact absurd hrun (by simp)
    · next o ho =>
      split at hrun
      · exact absurd hrun (by simp)
      · next log2 w3 hrun2 =>
        simp only [Option.some.injEq, Prod.mk.injEq] at hrun
        obtain ⟨hlog, hw⟩ := hrun
        subst hw
        have hstep : o.world.game.last_arrested = some T := by
          rcases exec_last_arrested w c o ho with h | ⟨x, u, hc, hr, hl⟩
          · rw [h]; exact h0
          · have : u = T := by
              apply hq x u
              rw [← hlog, hc, hr]
              exact List.mem_cons_self _ _
            rw [hl, this]
        apply ih o.world w3 log2 hstep hrun2
        intro x u hm
        apply hq x u
        rw [← hlog]
        exact List.mem_cons_of_mem _ hm

/-- C4: after an arrest of T that returned normally, and after any trace of
calls (next_turn, actions, role abilities, rejected arrests) in which no
arrest of another player returned normally, an arrest of T by any actor of any
class holding at least 1 coin is rejected with ConsecutiveArrestException,
leaving the world as it was. -/
theorem arrest_again_rejected (w0 w2 : World) (a T b : Nat) (cs : List Call)
    (log : List (Call × Except Exn Unit))
    (h1 : (dispatch_arrest w0 a T).result = .ok ())
    (hrun : run (dispatch_arrest w0 a T).world cs = some (log, w2))
    (hquiet : ∀ x u, (Call.arrest x u, Except.ok ()) ∈ log → u = T)
    (hb : 1 ≤ (w2.heap b).coins) :
    dispatch_arrest w2 b T = throw_ .ConsecutiveArrestException w2 := by
  have hl : w2.game.last_arrested = some T :=
    run_keeps_last_arrested T cs _ w2 log (arrest_ok_last_arrested w0 a T h1) hrun hquiet
  have hc : ¬ (w2.heap b).coins < 1 := by omega
  unfold dispatch_arrest
  split
  · simp [Merchant.arrest, Player.get_coins, Game.get_last_arrested, hc, hl]
  · simp [Player.arrest, Player.get_coins, Game.get_last_arrested, hc, hl]

/-- C4 on a concrete game: 0 arrests 1, the trace `quiet_trace` runs, and the
next arrest of 1 by 0 is rejected. -/
theorem arrest_again_rejected_witness :
    (dispatch_arrest two_generals_world 0 1).result = .ok ()
    ∧ ∃ w2, run (dispatch_arrest two_generals_world 0 1).world quiet_trace
          = some (quiet_log, w2)
        ∧ (∀ x u, (Call.arrest x u, Except.ok ()) ∈ quiet_log → u = 1)
        ∧ 1 ≤ (w2.heap 0).coins
        ∧ dispatch_arrest w2 0 1 = throw_ .ConsecutiveArrestException w2 := by
  refine ⟨by decide, ?_⟩
  have hsome : (run (dispatch_arrest two_generals_world 0 1).world quiet_trace).isSome
      = true := by decide
  obtain ⟨p, hp⟩ := Option.isSome_iff_exists.mp hsome
  have hlog : p.1 = quiet_log := by
    have h : (run (dispatch_arrest two_generals_world 0 1).world quiet_trace).map Prod.fst
        = some quiet_log := by decide
    rw [hp] at h
    simpa using h
  have hcoins : 1 ≤ (p.2.heap 0).coins := by
    have h : ((run (dispatch_arrest two_generals_world 0 1).world quiet_trace).map
        fun q => decide (1 ≤ (q.2.heap 0).coins)) = some true := by decide
    rw [hp] at h
    simpa using h
  have hrun : run (dispatch_arrest two_generals_world 0 1).world quiet_trace
      = some (quiet_log, p.2) := by
    rw [hp, ← hlog]
  have hq : ∀ x u, (Call.arrest x u, Except.ok ()) ∈ quiet_log → u = 1 := by
    intro x u hm
    simp [quiet_log] at hm
  exact ⟨p.2, hrun, hq, hcoins,
    arrest_again_rejected two_generals_world p.2 0 1 0 quiet_trace quiet_log (by decide)
      hrun hq hcoins⟩

/-- C5: after an arrest of T that returned normally, followed by an arrest of a
different player U that returned normally, an arrest of T by an actor whose
class is not Merchant and who holds at least 1 coin, when T holds at least 1
coin, returns normally (so it is not rejected with ConsecutiveArrestException)
and makes T the last-arrested player again. -/
theorem arrest_after_other_arrest (w0 : World) (a1 T a2 U b : Nat)
    (h1 : (dispatch_arrest w0 a1 T).result = .ok ())
    (h2 : (dispatch_arrest (dispatch_arrest w0 a1 T).world a2 U).result = .ok ())
    (hne : U ≠ T)
    (hcls : ((dispatch_arrest (dispatch_arrest w0 a1 T).world a2 U).world.heap b).cls
      ≠ .Merchant)
    (hb : 1 ≤ ((dispatch_arrest (dispatch_arrest w0 a1 T).world a2 U).world.heap b).coins)
    (hT : 1 ≤ ((dispatch_arrest (dispatch_arrest w0 a1 T).world a2 U).world.heap T).coins) :
    (dispatch_arrest (dispatch_arrest (dispatch_arrest w0 a1 T).world a2 U).world b T).result
      = .ok ()
    ∧ (dispatch_arrest (dispatch_arrest (dispatch_arrest w0 a1 T).world a2 U).world b
        T).world.game.last_arrested = some T := by
  have _h1 := h1
  have hl := arrest_ok_last_arrested (dispatch_arrest w0 a1 T).world a2 U h2
  generalize (dispatch_arrest (dispatch_arrest w0 a1 T).world a2 U).world = w2 at *
  have hlast : w2.game.last_arrested ≠ some T := by
    rw [hl]
    intro h
    exact hne (Option.some.inj h)
  have hd : dispatch_arrest w2 b T = Player.arrest w2 b T := by
    unfold dispatch_arrest
    split
    · next h => exact absurd h hcls
    · rfl
  rw [hd, base_arrest_ok w2 b T hb hlast hT]
  exact ⟨rfl, rfl⟩

/-- C5 on a concrete game of two Generals with 3 coins each: 0 arrests 1, then
1 arrests 0, then 0 arrests 1 again. -/
theorem arrest_after_other_arrest_witness :
    (dispatch_arrest two_generals_world 0 1).result = .ok ()
    ∧ (dispatch_arrest (dispatch_arrest two_generals_world 0 1).world 1 0).result = .ok ()
    ∧ (0 : Nat) ≠ 1
    ∧ (dispatch_arrest (dispatch_arrest (dispatch_arrest two_generals_world 0 1).world 1
        0).world 0 1).result = .ok () :=
  ⟨by decide, by decide, by decide,
    (arrest_after_other_arrest two_generals_world 0 1 1 0 0 (by decide) (by decide)
      (by decide) (by decide) (by decide) (by decide)).1⟩

/-! ## The Merchant override of arrest -/

/-- C6 as stated fails: a Merchant holding exactly 1 coin arrests a target that
is not the last-arrested player, and the call is rejected with
InsufficientCoinsException by remove_coins(2). -/
theorem merchant_arrest_one_coin_rejected :
    (merchant_one_coin_world.heap 0).cls = .Merchant
    ∧ 1 ≤ (merchant_one_coin_world.heap 0).coins
    ∧ merchant_one_coin_world.game.last_arrested ≠ some 1
    ∧ (dispatch_arrest merchant_one_coin_world 0 1).result
        = .error .InsufficientCoinsException := by
  decide

/-- C6 amended: a Merchant arrests a target that is not the last-arrested
player, whatever the balance of the target.  When the Merchant holds at least 2
coins the call returns normally, the Merchant has 2 coins less, every other
player object (the target, when it is not the Merchant itself) is as before,
and last-arrested is the target.  When the Merchant holds exactly 1 coin the
call throws InsufficientCoinsException and the world is as before. -/
theorem merchant_arrest_pays_two (w : World) (self target : Nat)
    (hcls : (w.heap self).cls = .Merchant)
    (hlast : w.game.last_arrested ≠ some target) :
    (2 ≤ (w.heap self).coins →
      (dispatch_arrest w self target).result = .ok ()
      ∧ ((dispatch_arrest w self target).world.heap self).coins = (w.heap self).coins - 2
      ∧ (∀ p, p ≠ self → (dispatch_arrest w self target).world.heap p = w.heap p)
      ∧ (dispatch_arrest w self target).world.game.last_arrested = some target)
    ∧ ((w.heap self).coins = 1 →
      dispatch_arrest w self target = throw_ .InsufficientCoinsException w) := by
  constructor
  · intro hself
    have h1 : ¬ (w.heap self).coins < 1 := by omega
    have h2 : ¬ (w.heap self).coins < 2 := by omega
    have hd : dispatch_arrest w self target
        = ret { w.store self { w.heap self with coins := (w.heap self).coins - 2 } with
            game := { w.game with last_arrested := some target } } := by
      unfold dispatch_arrest
      rw [hcls]
      simp [Merchant.arrest, Player.get_coins, Game.get_last_arrested, h1, h2, hlast,
        Player.remove_coins, Game.set_last_arrested, Outcome.andThen, ret]
    rw [hd]
    refine ⟨rfl, by simp [ret], ?_, rfl⟩
    intro p hp
    simp [ret, hp]
  · intro hone
    unfold dispatch_arrest
    rw [hcls]
    simp [Merchant.arrest, Player.get_coins, Game.get_last_arrested, hone, hlast,
      Player.remove_coins, Outcome.andThen, throw_]

/-- C6 amended, at a Merchant holding 2 coins arresting a player with none, and
at a Merchant holding 1 coin, whose arrest is rejected. -/
theorem merchant_arrest_pays_two_witness :
    (merchant_two_coin_world.heap 0).cls = .Merchant
    ∧ 2 ≤ (merchant_two_coin_world.heap 0).coins
    ∧ (merchant_two_coin_world.heap 1).coins = 0
    ∧ merchant_two_coin_world.game.last_arrested ≠ some 1
    ∧ (dispatch_arrest merchant_two_coin_world 0 1).result = .ok ()
    ∧ ((dispatch_arrest merchant_two_coin_world 0 1).world.heap 0).coins = 2 - 2
    ∧ (dispatch_arrest merchant_two_coin_world 0 1).world.game.last_arrested = some 1
    ∧ (merchant_one_coin_world.heap 0).cls = .Merchant
    ∧ (merchant_one_coin_world.heap 0).coins = 1
    ∧ merchant_one_coin_world.game.last_arrested ≠ some 1
    ∧ dispatch_arrest merchant_one_coin_world 0 1
        = throw_ .InsufficientCoinsException merchant_one_coin_world :=
  have h := (merchant_arrest_pays_two merchant_two_coin_world 0 1 (by decide)
    (by decide)).1 (by decide)
  ⟨by decide, by decide, by decide, by decide, h.1, h.2.1, h.2.2.2,
    by decide, by decide, by decide,
    (merchant_arrest_pays_two merchant_one_coin_world 0 1 (by decide) (by decide)).2
      (by decide)⟩

/-! ## coup -/

theorem coup_ok (w : World) (self target : Nat) (hself : 7 ≤ (w.heap self).coins)
    (hact : (w.heap target).active = true) :
    Player.coup w self target = ret (coup_result w self target) := by
  have h1 : ¬ (w.heap self).coins < 7 := by omega
  have h2 : ((w.store self { w.heap self with coins := (w.heap self).coins - 7 }).heap
      target).active = true := by
    rw [store_heap]
    split_ifs with h
    · subst h; exact hact
    · exact hact
  simp [Player.coup, Player.get_coins, h1, Player.remove_coins, Outcome.andThen, ret,
    Game.eliminate_player, Player.is_eliminated, h2, Player.eliminate, coup_result]

theorem coup_result_active (w : World) (self target p : Nat) :
    (!Player.is_eliminated (coup_result w self target) p)
      = (!Player.is_eliminated w p && decide (p ≠ target)) := by
  by_cases h : p = target
  · subst h
    simp [coup_result, Player.is_eliminated]
  · by_cases h2 : p = self
    · subst h2
      simp [coup_result, Player.is_eliminated, store_heap, h]
    · simp [coup_result, Player.is_eliminated, store_heap, h, h2]

theorem coup_result_roster (w : World) (self target : Nat) :
    (coup_result w self target).game.players.filter
        (fun p => !Player.is_eliminated (coup_result w self target) p)
      = (w.game.players.filter fun p => !Player.is_eliminated w p).filter
          fun p => decide (p ≠ target) := by
  have hg : (coup_result w self target).game.players = w.game.players := rfl
  rw [hg, List.filter_filter]
  congr 1
  funext p
  rw [coup_result_active, Bool.and_comm]

/-- C8: in a game whose roster entries that are not eliminated are exactly the
two distinct players A and B (in either order), when A holds at least 7 coins
and coups B, the call returns normally, B is eliminated, the balance of A is 7
lower, is_game_over is true and winner returns the name of A. -/
theorem coup_of_two_ends_game (w : World) (A B : Nat) (hne : A ≠ B)
    (hroster : (w.game.players.filter fun p => !Player.is_eliminated w p) = [A, B]
      ∨ (w.game.players.filter fun p => !Player.is_eliminated w p) = [B, A])
    (hcoins : 7 ≤ (w.heap A).coins) :
    (Player.coup w A B).result = .ok ()
    ∧ Player.is_eliminated (Player.coup w A B).world B = true
    ∧ Player.get_coins (Player.coup w A B).world A = Player.get_coins w A - 7
    ∧ Game.is_game_over (Player.coup w A B).world = true
    ∧ Game.winner (Player.coup w A B).world = .ok (Player.get_name w A) := by
  have hB : Player.is_eliminated w B = false := by
    have hm : B ∈ w.game.players.filter fun p => !Player.is_eliminated w p := by
      rcases hroster with h | h <;> rw [h] <;> simp
    simpa using (List.mem_filter.mp hm).2
  have hne2 : B ≠ A := fun h => hne h.symm
  have ha : (w.heap B).active = true := by
    simpa [Player.is_eliminated] using hB
  have hw : (Player.coup w A B).world = coup_result w A B := by
    rw [coup_ok w A B hcoins ha]; rfl
  have h1 : (Player.coup w A B).result = .ok () := by
    rw [coup_ok w A B hcoins ha]; rfl
  have hf : (coup_result w A B).game.players.filter
      (fun p => !Player.is_eliminated (coup_result w A B) p) = [A] := by
    rw [coup_result_roster]
    rcases hroster with h | h <;> rw [h] <;> simp [hne, hne2]
  have hname : Player.get_name (coup_result w A B) A = Player.get_name w A := by
    simp [Player.get_name, coup_result, store_heap, hne]
  have hover : Game.is_game_over (coup_result w A B) = true := by
    simp [Game.is_game_over, Game.active_players, hf]
  have hfind : (coup_result w A B).game.players.find?
      (fun p => !Player.is_eliminated (coup_result w A B) p) = some A := by
    rw [← List.filter_head?, hf]; rfl
  refine ⟨h1, ?_, ?_, ?_, ?_⟩
  · rw [hw]; simp [coup_result, Player.is_eliminated]
  · rw [hw]; simp [Player.get_coins, coup_result, store_heap, hne]
  · rw [hw]; exact hover
  · rw [hw]
    simp only [Game.winner, hover, hfind, hname]
    rfl

/-- C8 at the scenario of the spec: two players, P1 with 7 coins coups P2. -/
theorem coup_of_two_ends_game_witness :
    (0 : Nat) ≠ 1
    ∧ (coup_action_world.game.players.filter
        fun p => !Player.is_eliminated coup_action_world p) = [0, 1]
    ∧ 7 ≤ (coup_action_world.heap 0).coins
    ∧ Player.is_eliminated (Player.coup coup_action_world 0 1).world 1 = true
    ∧ Player.get_coins (Player.coup coup_action_world 0 1).world 0 = 7 - 7
    ∧ Game.is_game_over (Player.coup coup_action_world 0 1).world = true
    ∧ Game.winner (Player.coup coup_action_world 0 1).world = .ok "Player1" :=
  have h := coup_of_two_ends_game coup_action_world 0 1 (by decide) (Or.inl (by decide))
    (by decide)
  ⟨by decide, by decide, by decide, h.2.1, h.2.2.1, h.2.2.2.1, h.2.2.2.2⟩

/-! ## tax, bribe and sanction -/

/-- C11 fails at the largest balance: an unsanctioned Governor holding INT_MAX
= 2147483647 coins on a 32-bit platform taxes; the call returns normally and
the balance it leaves is not 3 higher (2147483650 is not a value of `int`): the
sum has wrapped to INT_MIN + 2. -/
theorem tax_at_int_max_overflows :
    (int_max_world.heap 0).sanctioned = false
    ∧ (int_max_world.heap 0).cls = .Governor
    ∧ (int_max_world.heap 0).coins = 2147483647
    ∧ (dispatch_tax int_max_world 0).result = .ok ()
    ∧ ((dispatch_tax int_max_world 0).world.heap 0).coins
        ≠ (int_max_world.heap 0).coins + 3
    ∧ ((dispatch_tax int_max_world 0).world.heap 0).coins = -2147483646 := by
  decide

/-- C11, amended: for a player whose sanctioned flag is clear and whose balance
plus the amount taken is a value of `int` (does not exceed INT_MAX), tax (the
virtual call) returns normally; the balance is 3 higher when the object is a
Governor and 2 higher for every other class; nothing else in the world
changes. -/
theorem tax_succeeds (w : World) (self : Nat) (hs : (w.heap self).sanctioned = false)
    (hfit : w.fits ((w.heap self).coins
      + (if (w.heap self).cls = .Governor then 3 else 2)) = true) :
    (dispatch_tax w self).result = .ok ()
    ∧ (dispatch_tax w self).world.heap self
        = { w.heap self with
            coins := (w.heap self).coins + (if (w.heap self).cls = .Governor then 3 else 2) }
    ∧ (∀ p, p ≠ self → (dispatch_tax w self).world.heap p = w.heap p)
    ∧ (dispatch_tax w self).world.game = w.game := by
  have h : dispatch_tax w self = ret (w.store self { w.heap self with
      coins := (w.heap self).coins + (if (w.heap self).cls = .Governor then 3 else 2) }) := by
    have hf := (fits_iff w _).mp hfit
    unfold dispatch_tax
    split
    · next hc =>
      rw [if_pos hc] at hf
      simp [Governor.tax, Player.is_sanctioned, hs, Player.add_coins, hc, hf]
    · next hc =>
      have hc2 : (w.heap self).cls ≠ .Governor := fun h => hc h
      rw [if_neg hc2] at hf
      simp [Player.tax, Player.is_sanctioned, hs, Player.add_coins, hc2, hf]
  rw [h]
  refine ⟨rfl, by simp [ret], ?_, rfl⟩
  intro p hp
  simp [ret, hp]

/-- C11 at the test "Governor role abilities": a fresh Governor taxes to 3
coins, a fresh base player to 2. -/
theorem tax_succeeds_witness :
    (governor_regular_world.heap 0).sanctioned = false
    ∧ (governor_regular_world.heap 1).sanctioned = false
    ∧ governor_regular_world.fits ((governor_regular_world.heap 0).coins + 3) = true
    ∧ governor_regular_world.fits ((governor_regular_world.heap 1).coins + 2) = true
    ∧ ((dispatch_tax governor_regular_world 0).world.heap 0).coins = 3
    ∧ ((dispatch_tax governor_regular_world 1).world.heap 1).coins = 2 := by
  have h0 := tax_succeeds governor_regular_world 0 rfl (by decide)
  have h1 := tax_succeeds governor_regular_world 1 rfl (by decide)
  refine ⟨rfl, rfl, by decide, by decide, ?_, ?_⟩
  · rw [h0.2.1]; rfl
  · rw [h1.2.1]; rfl

/-- C13: bribe returns normally exactly when the actor holds at least 4 coins;
then the actor object differs only by a balance 4 lower and every other object
and the game are as before; with fewer than 4 coins it throws
InsufficientCoinsException and the world is as before. -/
theorem bribe_spec (w : World) (self : Nat) :
    ((Player.bribe w self).result = .ok () ↔ 4 ≤ (w.heap self).coins)
    ∧ (4 ≤ (w.heap self).coins →
        Player.bribe w self
          = ret (w.store self { w.heap self with coins := (w.heap self).coins - 4 }))
    ∧ ((w.heap self).coins < 4 →
        Player.bribe w self = throw_ .InsufficientCoinsException w) := by
  have hok : 4 ≤ (w.heap self).coins →
      Player.bribe w self
        = ret (w.store self { w.heap self with coins := (w.heap self).coins - 4 }) := by
    intro h
    have h1 : ¬ (w.heap self).coins < 4 := by omega
    simp [Player.bribe, Player.get_coins, h1, Player.remove_coins]
  have hfail : (w.heap self).coins < 4 →
      Player.bribe w self = throw_ .InsufficientCoinsException w := by
    intro h
    simp [Player.bribe, Player.get_coins, h]
  refine ⟨⟨?_, fun h => by rw [hok h]; rfl⟩, hok, hfail⟩
  intro h
  by_contra hlt
  rw [hfail (by omega)] at h
  simp [throw_] at h

/-- C13 at a player holding 4 coins and a player holding 1. -/
theorem bribe_spec_witness :
    (Player.bribe four_coin_world 0).result = .ok ()
    ∧ ((Player.bribe four_coin_world 0).world.heap 0).coins = 0
    ∧ Player.bribe four_coin_world 1 = throw_ .InsufficientCoinsException four_coin_world := by
  have h0 := bribe_spec four_coin_world 0
  have h1 := bribe_spec four_coin_world 1
  refine ⟨h0.1.2 (by decide), ?_, h1.2.2 (by decide)⟩
  rw [h0.2.1 (by decide)]
  rfl

/-- C12 as stated fails when the actor is the target: the sanction returns
normally and the target's coins go from 4 to 1. -/
theorem self_sanction_changes_target_coins :
    3 ≤ Player.get_coins governor_spy_world 0
    ∧ (Player.sanction governor_spy_world 0 0).result = .ok ()
    ∧ Player.is_sanctioned (Player.sanction governor_spy_world 0 0).world 0 = true
    ∧ Player.get_coins (Player.sanction governor_spy_world 0 0).world 0 = 1
    ∧ Player.get_coins (Player.sanction governor_spy_world 0 0).world 0
        ≠ Player.get_coins governor_spy_world 0 := by
  decide

/-- C12 amended: sanction returns normally exactly when the actor holds at
least 3 coins; then the actor's balance is 3 lower, the target's sanctioned
flag is set and, when the target is not the actor itself, the target's coins
are as before; with fewer than 3 coins it throws InsufficientCoinsException
and the world, so both players, is as before. -/
theorem sanction_spec (w : World) (self target : Nat) :
    ((Player.sanction w self target).result = .ok () ↔ 3 ≤ (w.heap self).coins)
    ∧ (3 ≤ (w.heap self).coins →
        Player.sanction w self target = ret (sanction_result w self target)
        ∧ ((Player.sanction w self target).world.heap self).coins = (w.heap self).coins - 3
        ∧ ((Player.sanction w self target).world.heap target).sanctioned = true
        ∧ (target ≠ self →
            ((Player.sanction w self target).world.heap target).coins
              = (w.heap target).coins))
    ∧ ((w.heap self).coins < 3 →
        Player.sanction w self target = throw_ .InsufficientCoinsException w) := by
  have hok : 3 ≤ (w.heap self).coins →
      Player.sanction w self target = ret (sanction_result w self target) := by
    intro h
    have h1 : ¬ (w.heap self).coins < 3 := by omega
    simp [Player.sanction, Player.get_coins, h1, Player.remove_coins, Outcome.andThen, ret,
      Player.set_sanctioned, sanction_result]
  have hfail : (w.heap self).coins < 3 →
      Player.sanction w self target = throw_ .InsufficientCoinsException w := by
    intro h
    simp [Player.sanction, Player.get_coins, h]
  refine ⟨⟨?_, fun h => by rw [hok h]; rfl⟩, ?_, hfail⟩
  · intro h
    by_contra hlt
    rw [hfail (by omega)] at h
    simp [throw_] at h
  · intro h
    refine ⟨hok h, ?_, ?_, ?_⟩
    · rw [hok h]
      by_cases hst : self = target
      · subst hst; simp [ret, sanction_result]
      · simp [ret, sanction_result, store_heap, hst]
    · rw [hok h]
      simp [ret, sanction_result]
    · intro hne
      rw [hok h]
      simp [ret, sanction_result, store_heap, hne]

/-- C12 amended, at the test "Basic actions": Alice holds 4 coins and sanctions
Bob, who holds 2; Bob, who holds fewer than 3, cannot sanction Alice. -/
theorem sanction_spec_witness :
    (Player.sanction governor_spy_world 0 1).result = .ok ()
    ∧ ((Player.sanction governor_spy_world 0 1).world.heap 0).coins = 4 - 3
    ∧ ((Player.sanction governor_spy_world 0 1).world.heap 1).sanctioned = true
    ∧ ((Player.sanction governor_spy_world 0 1).world.heap 1).coins = 2
    ∧ Player.sanction governor_spy_world 1 0
        = throw_ .InsufficientCoinsException governor_spy_world := by
  have h0 := sanction_spec governor_spy_world 0 1
  have h1 := sanction_spec governor_spy_world 1 0
  have hs := h0.2.1 (by decide)
  exact ⟨h0.1.2 (by decide), hs.2.1, hs.2.2.1, hs.2.2.2 (by decide), h1.2.2 (by decide)⟩

/-! ## The sanctioned flag does not influence bribe, arrest, sanction, coup -/

theorem sbs_coins {w w2 : World} (h : same_but_sanctioned w w2) (p : Nat) :
    (w.heap p).coins = (w2.heap p).coins :=
  have h2 : (w.heap p).without_flag.coins = (w2.heap p).without_flag.coins :=
    congrArg Player.coins (h.2.2 p)
  h2

theorem sbs_active {w w2 : World} (h : same_but_sanctioned w w2) (p : Nat) :
    (w.heap p).active = (w2.heap p).active :=
  have h2 : (w.heap p).without_flag.active = (w2.heap p).without_flag.active :=
    congrArg Player.active (h.2.2 p)
  h2

theorem sbs_cls {w w2 : World} (h : same_but_sanctioned w w2) (p : Nat) :
    (w.heap p).cls = (w2.heap p).cls :=
  have h2 : (w.heap p).without_flag.cls = (w2.heap p).without_flag.cls :=
    congrArg Player.cls (h.2.2 p)
  h2

theorem sbs_fit {w w2 : World} (h : same_but_sanctioned w w2) (x : Int) :
    w.fit x = w2.fit x := by
  simp [World.fit, h.2.1]

theorem sbs_store {w w2 : World} (h : same_but_sanctioned w w2) (a : Nat) (p q : Player)
    (hpq : p.without_flag = q.without_flag) :
    same_but_sanctioned (w.store a p) (w2.store a q) := by
  refine ⟨h.1, h.2.1, ?_⟩
  intro b
  rw [store_heap, store_heap]
  split_ifs
  · exact hpq
  · exact h.2.2 b

theorem compat_throw {w w2 : World} (h : same_but_sanctioned w w2) (e : Exn) :
    compat (throw_ e w) (throw_ e w2) := ⟨rfl, h⟩

theorem compat_andThen {o o2 : Outcome} {k k2 : World → Outcome} (h : compat o o2)
    (hk : ∀ w w2, same_but_sanctioned w w2 → compat (k w) (k2 w2)) :
    compat (o.andThen k) (o2.andThen k2) := by
  obtain ⟨hr, hw⟩ := h
  unfold Outcome.andThen
  rw [← hr]
  split
  · exact hk _ _ hw
  · exact ⟨rfl, hw⟩

theorem compat_add_coins {w w2 : World} (h : same_but_sanctioned w w2) (a : Nat) (n : Int) :
    compat (Player.add_coins w a n) (Player.add_coins w2 a n) := by
  unfold Player.add_coins
  split_ifs
  · exact compat_throw h _
  · refine ⟨rfl, sbs_store h a _ _ ?_⟩
    have := h.2.2 a
    simp only [Player.without_flag, Player.mk.injEq] at this ⊢
    simp [this, sbs_fit h]

theorem compat_remove_coins {w w2 : World} (h : same_but_sanctioned w w2) (a : Nat)
    (n : Int) : compat (Player.remove_coins w a n) (Player.remove_coins w2 a n) := by
  unfold Player.remove_coins
  rw [sbs_coins h a]
  split_ifs
  · exact compat_throw h _
  · exact compat_throw h _
  · refine ⟨rfl, sbs_store h a _ _ ?_⟩
    have := h.2.2 a
    simp only [Player.without_flag, Player.mk.injEq] at this ⊢
    simp [this]

theorem compat_set_sanctioned {w w2 : World} (h : same_but_sanctioned w w2) (a : Nat)
    (v : Bool) : compat (Player.set_sanctioned w a v) (Player.set_sanctioned w2 a v) := by
  refine ⟨rfl, sbs_store h a _ _ ?_⟩
  have := h.2.2 a
  simp only [Player.without_flag, Player.mk.injEq] at this ⊢
  simp [this]

theorem compat_eliminate_player {w w2 : World} (h : same_but_sanctioned w w2) (a : Nat) :
    compat (Game.eliminate_player w a) (Game.eliminate_player w2 a) := by
  unfold Game.eliminate_player Player.is_eliminated Player.eliminate
  rw [sbs_active h a]
  split_ifs
  · exact compat_throw h _
  · refine ⟨rfl, sbs_store h a _ _ ?_⟩
    have := h.2.2 a
    simp only [Player.without_flag, Player.mk.injEq] at this ⊢
    simp [this]

theorem compat_set_last_arrested {w w2 : World} (h : same_but_sanctioned w w2)
    (t : Option Nat) : compat (Game.set_last_arrested w t) (Game.set_last_arrested w2 t) := by
  refine ⟨rfl, ?_, h.2⟩
  simp [Game.set_last_arrested, ret, h.1]

theorem compat_bribe {w w2 : World} (h : same_but_sanctioned w w2) (a : Nat) :
    compat (Player.bribe w a) (Player.bribe w2 a) := by
  unfold Player.bribe Player.get_coins
  rw [sbs_coins h a]
  split_ifs
  · exact compat_throw h _
  · exact compat_remove_coins h a 4

theorem compat_base_arrest {w w2 : World} (h : same_but_sanctioned w w2) (a t : Nat) :
    compat (Player.arrest w a t) (Player.arrest w2 a t) := by
  unfold Player.arrest Player.get_coins Game.get_last_arrested
  rw [sbs_coins h a, sbs_coins h t, h.1]
  split_ifs
  · exact compat_throw h _
  · exact compat_throw h _
  · exact compat_throw h _
  · apply compat_andThen (compat_remove_coins h t 1)
    intro w1 w3 h1
    apply compat_andThen (compat_add_coins h1 a 1)
    intro w4 w5 h4
    exact compat_set_last_arrested h4 _

theorem compat_merchant_arrest {w w2 : World} (h : same_but_sanctioned w w2) (a t : Nat) :
    compat (Merchant.arrest w a t) (Merchant.arrest w2 a t) := by
  unfold Merchant.arrest Player.get_coins Game.get_last_arrested
  rw [sbs_coins h a, h.1]
  split_ifs
  · exact compat_throw h _
  · exact compat_throw h _
  · apply compat_andThen (compat_remove_coins h a 2)
    intro w1 w3 h1
    exact compat_set_last_arrested h1 _

theorem compat_arrest {w w2 : World} (h : same_but_sanctioned w w2) (a t : Nat) :
    compat (dispatch_arrest w a t) (dispatch_arrest w2 a t) := by
  unfold dispatch_arrest
  rw [sbs_cls h a]
  split
  · exact compat_merchant_arrest h a t
  · exact compat_base_arrest h a t

theorem compat_sanction {w w2 : World} (h : same_but_sanctioned w w2) (a t : Nat) :
    compat (Player.sanction w a t) (Player.sanction w2 a t) := by
  unfold Player.sanction Player.get_coins
  rw [sbs_coins h a]
  split_ifs
  · exact compat_throw h _
  · apply compat_andThen (compat_remove_coins h a 3)
    intro w1 w3 h1
    exact compat_set_sanctioned h1 t true

theorem compat_coup {w w2 : World} (h : same_but_sanctioned w w2) (a t : Nat) :
    compat (Player.coup w a t) (Player.coup w2 a t) := by
  unfold Player.coup Player.get_coins
  rw [sbs_coins h a]
  split_ifs
  · exact compat_throw h _
  · apply compat_andThen (compat_remove_coins h a 7)
    intro w1 w3 h1
    exact compat_eliminate_player h1 t

theorem compat_same_outcome {o o2 : Outcome} (h : compat o o2) : same_outcome o o2 :=
  ⟨h.1, fun p => sbs_coins h.2 p,
    fun p => by simp [Player.is_eliminated, sbs_active h.2 p],
    congrArg Game.last_arrested h.2.1⟩

theorem with_flags_sbs (w : World) (actor target : Nat) (fa ft : Bool) :
    same_but_sanctioned (with_flags w actor target fa ft) w := by
  refine ⟨rfl, rfl, ?_⟩
  intro p
  simp only [with_flags, store_heap]
  split_ifs <;> simp_all [Player.without_flag]

/-- C14: overwriting the sanctioned flags of the actor and of the target with
any values changes nothing in what bribe, arrest (base or Merchant), sanction
and coup do: the same success or the same exception, the same coin balance and
eliminated flag for every player, and the same last-arrested reference. -/
theorem sanctioned_flag_is_ignored (w : World) (actor target : Nat) (fa ft : Bool) :
    same_outcome (Player.bribe (with_flags w actor target fa ft) actor) (Player.bribe w actor)
    ∧ same_outcome (dispatch_arrest (with_flags w actor target fa ft) actor target)
        (dispatch_arrest w actor target)
    ∧ same_outcome (Player.sanction (with_flags w actor target fa ft) actor target)
        (Player.sanction w actor target)
    ∧ same_outcome (Player.coup (with_flags w actor target fa ft) actor target)
        (Player.coup w actor target) :=
  have h := with_flags_sbs w actor target fa ft
  ⟨compat_same_outcome (compat_bribe h actor),
    compat_same_outcome (compat_arrest h actor target),
    compat_same_outcome (compat_sanction h actor target),
    compat_same_outcome (compat_coup h actor target)⟩

/-! ## Game queries -/

theorem active_players_eq_countP (w : World) :
    Game.active_players w = w.game.players.countP fun p => (w.heap p).active := by
  unfold Game.active_players
  rw [List.countP_eq_length_filter]
  congr 2
  funext p
  simp [Player.is_eliminated]

/-- C15: is_game_over is true exactly when at most one roster entry has its
eliminated flag clear; so it is true for an empty roster and for a roster of
one player. -/
theorem is_game_over_iff (w : World) :
    (Game.is_game_over w = true
        ↔ (w.game.players.countP fun p => (w.heap p).active) ≤ 1)
    ∧ (w.game.players.length ≤ 1 → Game.is_game_over w = true) := by
  have h1 : Game.is_game_over w = true
      ↔ (w.game.players.countP fun p => (w.heap p).active) ≤ 1 := by
    rw [← active_players_eq_countP]
    simp [Game.is_game_over]
  refine ⟨h1, fun hlen => h1.mpr ?_⟩
  exact le_trans (List.countP_le_length _) hlen

/-- C15 at the empty roster, at a roster of three with one player left, and at
a roster of three with nobody eliminated. -/
theorem is_game_over_iff_witness :
    Game.is_game_over empty_world = true
    ∧ Game.is_game_over alice_left_world = true
    ∧ Game.is_game_over three_players_world = false := by
  refine ⟨(is_game_over_iff empty_world).2 (by decide),
    (is_game_over_iff alice_left_world).1.mpr (by decide), ?_⟩
  have h := (is_game_over_iff three_players_world).1
  cases hb : Game.is_game_over three_players_world with
  | false => rfl
  | true => exact absurd (h.mp hb) (by decide)

/-- C16: winner throws when is_game_over is false; when the game is over and a
roster player is not eliminated it returns that player's name; when the game is
over and every roster player is eliminated (an empty roster included) it
throws. -/
theorem winner_spec (w : World) :
    (Game.is_game_over w = false → Game.winner w = .error .runtime_error)
    ∧ (Game.is_game_over w = true → ∀ p ∈ w.game.players,
        Player.is_eliminated w p = false → Game.winner w = .ok (Player.get_name w p))
    ∧ (Game.is_game_over w = true → (∀ p ∈ w.game.players, Player.is_eliminated w p = true) →
        Game.winner w = .error .runtime_error) := by
  refine ⟨?_, ?_, ?_⟩
  · intro h
    simp [Game.winner, h]
  · intro h p hp hel
    have hlen : (w.game.players.filter fun q => !Player.is_eliminated w q).length ≤ 1 := by
      simpa [Game.is_game_over, Game.active_players] using h
    have hmem : p ∈ w.game.players.filter fun q => !Player.is_eliminated w q := by
      simp [List.mem_filter, hp, hel]
    have hf : (w.game.players.filter fun q => !Player.is_eliminated w q) = [p] := by
      match hl : w.game.players.filter fun q => !Player.is_eliminated w q with
      | [] => rw [hl] at hmem; simp at hmem
      | [a] =>
        rw [hl] at hmem
        simp at hmem
        rw [hmem]
      | a :: b :: t =>
        rw [hl] at hlen
        simp at hlen
    have hfind : w.game.players.find? (fun q => !Player.is_eliminated w q) = some p := by
      rw [← List.filter_head?, hf]; rfl
    simp only [Game.winner, h, hfind]
    rfl
  · intro h hall
    have hfind : w.game.players.find? (fun q => !Player.is_eliminated w q) = none := by
      rw [List.find?_eq_none]
      intro q hq
      simp [hall q hq]
    simp only [Game.winner, h, hfind]
    rfl

/-- C16 at three games: nobody eliminated, only Alice left, nobody left. -/
theorem winner_spec_witness :
    Game.winner three_players_world = .error .runtime_error
    ∧ Game.winner alice_left_world = .ok "Alice"
    ∧ Game.winner nobody_left_world = .error .runtime_error
    ∧ Game.winner empty_world = .error .runtime_error :=
  ⟨(winner_spec three_players_world).1 (by decide),
    (winner_spec alice_left_world).2.1 (by decide) 0 (by decide) (by decide),
    (winner_spec nobody_left_world).2.2 (by decide) (by decide),
    (winner_spec empty_world).2.2 (by decide) (by decide)⟩

/-- C17: turn throws runtime_error, not GameOverException, when the roster is
empty; it throws GameOverException when the roster is not empty and
is_game_over is true; otherwise it returns the name of the player the turn
pointer refers to. -/
theorem turn_spec (w : World) :
    (w.game.players = [] → Game.turn w = some (.error .runtime_error))
    ∧ (w.game.players ≠ [] → Game.is_game_over w = true →
        Game.turn w = some (.error .GameOverException))
    ∧ (w.game.players ≠ [] → Game.is_game_over w = false →
        ∀ p, w.game.players[w.game.current_player_index]? = some p →
          Game.turn w = some (.ok (Player.get_name w p))) := by
  refine ⟨?_, ?_, ?_⟩
  · intro h
    simp [Game.turn, h]
  · intro h1 h2
    simp [Game.turn, h1, h2]
  · intro h1 h2 p hp
    simp [Game.turn, h1, h2, hp]

/-- C17 at the empty game, at a finished game and at a game in play with the
turn at Bob. -/
theorem turn_spec_witness :
    Game.turn empty_world = some (.error .runtime_error)
    ∧ Game.turn alice_left_world = some (.error .GameOverException)
    ∧ Game.turn three_players_world = some (.ok "Bob") :=
  ⟨(turn_spec empty_world).1 rfl,
    (turn_spec alice_left_world).2.1 (by decide) (by decide),
    (turn_spec three_players_world).2.2 (by decide) (by decide) 1 (by decide)⟩

/-- C18: when is_game_over is true, next_turn throws GameOverException and the
world (turn pointer, every sanctioned flag, every balance) is as before. -/
theorem next_turn_when_over (w : World) (h : Game.is_game_over w = true) :
    Game.next_turn w = some (throw_ .GameOverException w) := by
  simp [Game.next_turn, h]

/-- C18 at a finished game of three. -/
theorem next_turn_when_over_witness :
    Game.is_game_over alice_left_world = true
    ∧ Game.next_turn alice_left_world = some (throw_ .GameOverException alice_left_world) :=
  ⟨by decide, next_turn_when_over alice_left_world (by decide)⟩

/-! ## next_turn: the turn pointer -/

/-- The loop of next_turn stops at the first index after `i`, in cyclic order,
whose player is not eliminated, when there is one within `fuel` steps. -/
theorem advance_finds (w : World) :
    ∀ (d fuel i : Nat), 1 ≤ d → d ≤ fuel →
      (∀ k, 1 ≤ k → k < d → ∀ p, w.game.players[(i + k) % w.game.players.length]? = some p →
        Player.is_eliminated w p = true) →
      (∃ p, w.game.players[(i + d) % w.game.players.length]? = some p
        ∧ Player.is_eliminated w p = false) →
      Game.advance w fuel i = some ((i + d) % w.game.players.length) := by
  intro d
  induction d with
  | zero => intro fuel i h; omega
  | succ d ih =>
    intro fuel i _ hfuel hbetween hfound
    cases fuel with
    | zero => omega
    | succ fuel =>
      have hn : 0 < w.game.players.length := by
        obtain ⟨p, hp, _⟩ := hfound
        rcases Nat.eq_zero_or_pos w.game.players.length with h0 | h0
        · have : w.game.players = [] := List.length_eq_zero.mp h0
          rw [this] at hp
          simp at hp
        · exact h0
      have hj : (i + 1) % w.game.players.length < w.game.players.length := Nat.mod_lt _ hn
      have hq : w.game.players[(i + 1) % w.game.players.length]?
          = some (w.game.players[(i + 1) % w.game.players.length]) :=
        List.getElem?_eq_getElem hj
      unfold Game.advance
      simp only [hq]
      by_cases hd : d = 0
      · subst hd
        obtain ⟨p, hp, hpe⟩ := hfound
        rw [hq] at hp
        cases hp
        simp [hpe]
      · have hqe := hbetween 1 le_rfl (by omega) _ hq
        simp only [hqe, if_true]
        have hrec := ih fuel ((i + 1) % w.game.players.length) (by omega) (by omega)
          (by
            intro k hk1 hk2 p hp
            rw [Nat.mod_add_mod] at hp
            exact hbetween (k + 1) (by omega) (by omega) p (by rw [← hp]; congr 2; omega))
          (by
            obtain ⟨p, hp, hpe⟩ := hfound
            refine ⟨p, ?_, hpe⟩
            rw [Nat.mod_add_mod, ← hp]; congr 2; omega)
        rw [hrec, Nat.mod_add_mod]
        congr 2
        omega

theorem add_coins_nonneg (w : World) (a : Nat) (n : Int) (h : 0 ≤ n) :
    Player.add_coins w a n
      = ret (w.store a { w.heap a with coins := w.fit ((w.heap a).coins + n) }) := by
  have h1 : ¬ n < 0 := by omega
  simp [Player.add_coins, h1]

theorem add_coins_active (w : World) (a : Nat) (n : Int) (h : 0 ≤ n) :
    (Player.add_coins w a n).result = .ok ()
    ∧ ∀ p, ((Player.add_coins w a n).world.heap p).active = (w.heap p).active := by
  rw [add_coins_nonneg w a n h]
  refine ⟨rfl, ?_⟩
  intro p
  simp only [ret, store_heap]
  split_ifs with hp
  · subst hp; rfl
  · rfl

theorem bonus_active (w : World) (a : Nat) :
    (Merchant.bonus w a).result = .ok ()
    ∧ ∀ p, ((Merchant.bonus w a).world.heap p).active = (w.heap p).active := by
  unfold Merchant.bonus
  split_ifs
  · exact add_coins_active w a 1 (by decide)
  · exact ⟨rfl, fun _ => rfl⟩

theorem compensate_active (w : World) (a : Nat) :
    (Baron.compensate w a).result = .ok ()
    ∧ ∀ p, ((Baron.compensate w a).world.heap p).active = (w.heap p).active := by
  unfold Baron.compensate
  split_ifs
  · exact add_coins_active w a 1 (by decide)
  · exact ⟨rfl, fun _ => rfl⟩

theorem andThen_active (o : Outcome) (k : World → Outcome) (w0 : World)
    (ho : o.result = .ok () ∧ ∀ p, (o.world.heap p).active = (w0.heap p).active)
    (hk : ∀ w1, (k w1).result = .ok ()
      ∧ ∀ p, ((k w1).world.heap p).active = (w1.heap p).active) :
    (o.andThen k).result = .ok ()
    ∧ ∀ p, ((o.andThen k).world.heap p).active = (w0.heap p).active := by
  unfold Outcome.andThen
  rw [ho.1]
  exact ⟨(hk _).1, fun p => by rw [(hk _).2 p, ho.2 p]⟩

theorem role_effects_active (w : World) (cur : Nat) :
    (Game.role_effects w cur).result = .ok ()
    ∧ ∀ p, ((Game.role_effects w cur).world.heap p).active = (w.heap p).active := by
  unfold Game.role_effects
  apply andThen_active
  · split_ifs
    · exact bonus_active w cur
    · exact ⟨rfl, fun _ => rfl⟩
  · intro w1
    split_ifs
    · exact compensate_active w1 cur
    · exact ⟨rfl, fun _ => rfl⟩

/-- The part of next_turn before the loop returns normally, leaves the game
object alone and changes no eliminated flag. -/
theorem next_turn_prefix (w : World) (cur : Nat) :
    ((Player.set_sanctioned w cur false).andThen
        fun w1 => Game.role_effects w1 cur).result = .ok ()
    ∧ ((Player.set_sanctioned w cur false).andThen
        fun w1 => Game.role_effects w1 cur).world.game = w.game
    ∧ ∀ p, Player.is_eliminated ((Player.set_sanctioned w cur false).andThen
        fun w1 => Game.role_effects w1 cur).world p = Player.is_eliminated w p := by
  have h := andThen_active (Player.set_sanctioned w cur false)
    (fun w1 => Game.role_effects w1 cur) w
    ⟨rfl, fun p => by
      simp only [Player.set_sanctioned, ret, store_heap]
      split_ifs with hp
      · subst hp; rfl
      · rfl⟩
    (fun w1 => role_effects_active w1 cur)
  refine ⟨h.1, ?_, ?_⟩
  · apply andThen_game
    · rfl
    · intro w1 h1
      rw [role_effects_game, h1]
  · intro p
    simp only [Player.is_eliminated, h.2 p]

/-- One call of next_turn in a game that is not over, when `d` steps after the
turn pointer lies the first roster entry that is not eliminated. -/
theorem next_turn_steps (w : World) (cur d : Nat) (hno : Game.is_game_over w = false)
    (hcur : w.game.players[w.game.current_player_index]? = some cur)
    (hd1 : 1 ≤ d) (hdn : d ≤ w.game.players.length)
    (hbetween : ∀ k, 1 ≤ k → k < d →
      ∀ p, w.game.players[(w.game.current_player_index + k) % w.game.players.length]? = some p →
        Player.is_eliminated w p = true)
    (hfound : ∃ p,
      w.game.players[(w.game.current_player_index + d) % w.game.players.length]? = some p
        ∧ Player.is_eliminated w p = false) :
    ∃ o, Game.next_turn w = some o ∧ o.result = .ok ()
      ∧ o.world.game = { w.game with
          current_player_index := (w.game.current_player_index + d) % w.game.players.length }
      ∧ ∀ p, Player.is_eliminated o.world p = Player.is_eliminated w p := by
  obtain ⟨hr, hg, ha⟩ := next_turn_prefix w cur
  have hadv := advance_finds ((Player.set_sanctioned w cur false).andThen
      fun w1 => Game.role_effects w1 cur).world d w.game.players.length
      w.game.current_player_index hd1 hdn
      (by
        intro k hk1 hk2 p hp
        rw [hg] at hp
        rw [ha p]
        exact hbetween k hk1 hk2 p hp)
      (by
        obtain ⟨p, hp, hpe⟩ := hfound
        refine ⟨p, ?_, ?_⟩
        · rw [hg]; exact hp
        · rw [ha p]; exact hpe)
  rw [hg] at hadv
  refine ⟨ret { ((Player.set_sanctioned w cur false).andThen
      fun w1 => Game.role_effects w1 cur).world with
      game := { w.game with
        current_player_index := (w.game.current_player_index + d) % w.game.players.length } },
    ?_, rfl, rfl, ?_⟩
  · simp only [Game.next_turn, hno, hcur, hr, hg, hadv]
    simp
  · intro p
    simp only [ret, Player.is_eliminated] at ha ⊢
    exact ha p

theorem filter_length_le_one {α : Type} (P : α → Bool) :
    ∀ (l : List α) (i : Nat),
      (∀ m (hm : m < l.length), m ≠ i → P (l.get ⟨m, hm⟩) = false) →
      (l.filter P).length ≤ 1 := by
  intro l
  induction l with
  | nil => intro i _; simp
  | cons a l ih =>
    intro i h
    cases i with
    | zero =>
      have hl : l.filter P = [] := by
        rw [List.filter_eq_nil_iff]
        intro x hx
        obtain ⟨n, hn, hxn⟩ := List.getElem_of_mem hx
        have := h (n + 1) (by simp; omega) (by omega)
        simp only [List.get_eq_getElem, List.getElem_cons_succ] at this
        rw [hxn] at this
        simp [this]
      rw [List.filter_cons]
      split <;> simp [hl]
    | succ i =>
      have ha : P a = false := by
        have := h 0 (by simp) (by omega)
        simpa using this
      rw [List.filter_cons]
      simp only [ha]
      apply ih i
      intro m hm hne
      have := h (m + 1) (by simp; omega) (by omega)
      simpa using this

/-- In a game that is not over some roster index other than `i` holds a player
that is not eliminated. -/
theorem exists_other_active (w : World) (hno : Game.is_game_over w = false) (i : Nat) :
    ∃ m, m < w.game.players.length ∧ m ≠ i
      ∧ ∃ p, w.game.players[m]? = some p ∧ Player.is_eliminated w p = false := by
  by_contra hcon
  have h1 := filter_length_le_one (fun p => !Player.is_eliminated w p) w.game.players i
    (by
      intro m hm hne
      by_contra hP
      apply hcon
      refine ⟨m, hm, hne, w.game.players.get ⟨m, hm⟩, ?_, ?_⟩
      · simp [List.getElem?_eq_getElem hm]
      · simpa using hP)
  simp [Game.is_game_over, Game.active_players] at hno
  omega

/-! ## The turn pointer stays inside the roster -/

theorem advance_lt (w : World) :
    ∀ (fuel i j : Nat), Game.advance w fuel i = some j → j < w.game.players.length := by
  intro fuel
  induction fuel with
  | zero => intro i j h; simp [Game.advance] at h
  | succ fuel ih =>
    intro i j h
    unfold Game.advance at h
    simp only at h
    split at h
    · exact absurd h (by simp)
    · next p hp =>
      split_ifs at h
      · exact ih _ _ h
      · simp only [Option.some.injEq] at h
        rw [← h]
        exact (List.getElem?_eq_some_iff.mp hp).1

theorem next_turn_pointer (w : World) (o : Outcome) (h : Game.next_turn w = some o) :
    o.world.game.current_player_index = w.game.current_player_index
    ∨ o.world.game.current_player_index < w.game.players.length := by
  unfold Game.next_turn at h
  split_ifs at h
  · simp only [Option.some.injEq] at h
    subst h; exact Or.inl rfl
  · split at h
    · exact absurd h (by simp)
    · next cur _ =>
      obtain ⟨hr, hg, _⟩ := next_turn_prefix w cur
      simp only [hr, hg] at h
      split at h
      · exact absurd h (by simp)
      · next j hj =>
        simp only [Option.some.injEq] at h
        subst h
        right
        have := advance_lt _ _ _ _ hj
        rw [hg] at this
        exact this

theorem arrest_game (w : World) (self target : Nat) :
    (dispatch_arrest w self target).world.game.players = w.game.players
    ∧ (dispatch_arrest w self target).world.game.current_player_index
        = w.game.current_player_index := by
  unfold dispatch_arrest
  split
  · unfold Merchant.arrest Player.remove_coins Game.set_last_arrested
    split_ifs <;> simp [throw_, ret, Outcome.andThen]
  · unfold Player.arrest Player.remove_coins Player.add_coins Game.set_last_arrested
    split_ifs <;> simp [throw_, ret, Outcome.andThen]

/-- No call changes the roster, and a call moves the turn pointer only to an
index inside the roster. -/
theorem exec_roster_pointer (w : World) (c : Call) (o : Outcome) (h : exec w c = some o) :
    o.world.game.players = w.game.players
    ∧ (o.world.game.current_player_index = w.game.current_player_index
      ∨ o.world.game.current_player_index < w.game.players.length) := by
  cases c with
  | arrest x u =>
    simp only [exec, Option.some.injEq] at h
    subst h
    exact ⟨(arrest_game w x u).1, Or.inl (arrest_game w x u).2⟩
  | next_turn => exact ⟨(next_turn_game w o h).2, next_turn_pointer w o h⟩
  | gather a =>
    simp only [exec, Option.some.injEq] at h; subst h; rw [gather_game]; exact ⟨rfl, Or.inl rfl⟩
  | tax a =>
    simp only [exec, Option.some.injEq] at h; subst h; rw [tax_game]; exact ⟨rfl, Or.inl rfl⟩
  | bribe a =>
    simp only [exec, Option.some.injEq] at h; subst h; rw [bribe_game]; exact ⟨rfl, Or.inl rfl⟩
  | sanction a t =>
    simp only [exec, Option.some.injEq] at h; subst h; rw [sanction_game]
    exact ⟨rfl, Or.inl rfl⟩
  | coup a t =>
    simp only [exec, Option.some.injEq] at h; subst h; rw [coup_game]; exact ⟨rfl, Or.inl rfl⟩
  | add_coins a n =>
    simp only [exec, Option.some.injEq] at h; subst h; rw [add_coins_game]
    exact ⟨rfl, Or.inl rfl⟩
  | remove_coins a n =>
    simp only [exec, Option.some.injEq] at h; subst h; rw [remove_coins_game]
    exact ⟨rfl, Or.inl rfl⟩
  | eliminate_player a =>
    simp only [exec, Option.some.injEq] at h; subst h; rw [eliminate_player_game]
    exact ⟨rfl, Or.inl rfl⟩
  | block_tax a t => rw [guard_cls_some w a _ _ o h]; exact ⟨rfl, Or.inl rfl⟩
  | view_coins a t => rw [guard_cls_some w a _ _ o h]; exact ⟨rfl, Or.inl rfl⟩
  | block_arrest a t => rw [guard_cls_some w a _ _ o h]; exact ⟨rfl, Or.inl rfl⟩
  | block_bribe a t => rw [guard_cls_some w a _ _ o h]; exact ⟨rfl, Or.inl rfl⟩
  | invest a => rw [guard_cls_some w a _ _ o h, invest_game]; exact ⟨rfl, Or.inl rfl⟩
  | compensate a => rw [guard_cls_some w a _ _ o h, compensate_game]; exact ⟨rfl, Or.inl rfl⟩
  | protect a t => rw [guard_cls_some w a _ _ o h, protect_game]; exact ⟨rfl, Or.inl rfl⟩
  | recover_arrest a =>
    rw [guard_cls_some w a _ _ o h]
    unfold General.recover_arrest
    rw [add_coins_game]; exact ⟨rfl, Or.inl rfl⟩
  | penalize_sanction a t =>
    rw [guard_cls_some w a _ _ o h, penalize_game]; exact ⟨rfl, Or.inl rfl⟩
  | bonus a => rw [guard_cls_some w a _ _ o h, bonus_game]; exact ⟨rfl, Or.inl rfl⟩

theorem pointer_ok_new (heap : Nat → Player) : Game.pointer_ok (Game.new heap) := Or.inl rfl

theorem pointer_ok_add_player (w : World) (player : Nat) (h : Game.pointer_ok w) :
    Game.pointer_ok (Game.add_player w player).world := by
  rcases h with h | h
  · exact Or.inl h
  · right
    simp only [Game.add_player, ret, List.length_append, List.length_singleton]
    omega

theorem pointer_ok_exec (w : World) (c : Call) (o : Outcome) (h : Game.pointer_ok w)
    (hx : exec w c = some o) : Game.pointer_ok o.world := by
  obtain ⟨hp, hi⟩ := exec_roster_pointer w c o hx
  unfold Game.pointer_ok at *
  rw [hp]
  rcases hi with hi | hi
  · rw [hi]; exact h
  · exact Or.inr hi

/-- In a game that is not over, a turn pointer that is 0 or inside the roster
is inside the roster: such a game has at least two roster entries. -/
theorem pointer_in_range (w : World) (h : Game.pointer_ok w)
    (hno : Game.is_game_over w = false) :
    w.game.current_player_index < w.game.players.length := by
  have hlen : 2 ≤ w.game.players.length := by
    have h1 : (w.game.players.filter fun p => !Player.is_eliminated w p).length
        ≤ w.game.players.length := List.length_filter_le _ _
    simp [Game.is_game_over, Game.active_players] at hno
    omega
  rcases h with h | h
  · omega
  · exact h

/-- C19: in a game that is not over (the turn pointer being 0 or a roster
index, as in every game built by Game(), add_player and engine calls),
next_turn returns normally; the new pointer lies `d` steps after the old one in
cyclic roster order, with 1 ≤ d < n; the roster entries strictly between are
all eliminated; and the player at the new pointer is not eliminated. -/
theorem next_turn_advances (w : World) (hno : Game.is_game_over w = false)
    (hptr : Game.pointer_ok w) :
    ∃ o d, Game.next_turn w = some o ∧ o.result = .ok ()
      ∧ 1 ≤ d ∧ d < w.game.players.length
      ∧ o.world.game.current_player_index
          = (w.game.current_player_index + d) % w.game.players.length
      ∧ o.world.game.players = w.game.players
      ∧ (∀ k, 1 ≤ k → k < d → ∀ p,
          w.game.players[(w.game.current_player_index + k) % w.game.players.length]? = some p →
            Player.is_eliminated o.world p = true)
      ∧ ∃ p, o.world.game.players[o.world.game.current_player_index]? = some p
          ∧ Player.is_eliminated o.world p = false := by
  classical
  have hidx := pointer_in_range w hptr hno
  obtain ⟨m, hm, hmi, p0, hp0, hp0e⟩ := exists_other_active w hno w.game.current_player_index
  let Q : Nat → Prop := fun d => 1 ≤ d ∧ ∃ p,
    w.game.players[(w.game.current_player_index + d) % w.game.players.length]? = some p
      ∧ Player.is_eliminated w p = false
  have hex : ∃ d, Q d ∧ d < w.game.players.length := by
    rcases Nat.lt_or_gt_of_ne hmi with hlt | hgt
    · refine ⟨m + w.game.players.length - w.game.current_player_index, ⟨by omega, p0, ?_, hp0e⟩,
        by omega⟩
      have : (w.game.current_player_index
          + (m + w.game.players.length - w.game.current_player_index)) % w.game.players.length
          = m := by
        rw [show w.game.current_player_index
          + (m + w.game.players.length - w.game.current_player_index)
          = m + w.game.players.length by omega]
        rw [Nat.add_mod_right, Nat.mod_eq_of_lt hm]
      rw [this]; exact hp0
    · refine ⟨m - w.game.current_player_index, ⟨by omega, p0, ?_, hp0e⟩, by omega⟩
      have : (w.game.current_player_index + (m - w.game.current_player_index))
          % w.game.players.length = m := by
        rw [show w.game.current_player_index + (m - w.game.current_player_index) = m by omega]
        exact Nat.mod_eq_of_lt hm
      rw [this]; exact hp0
  obtain ⟨d0, hQ0, hd0⟩ := hex
  have hQ : ∃ d, Q d := ⟨d0, hQ0⟩
  have hspec : Q (Nat.find hQ) := Nat.find_spec hQ
  have hle : Nat.find hQ ≤ d0 := Nat.find_le hQ0
  have hbetween : ∀ k, 1 ≤ k → k < Nat.find hQ → ∀ p,
      w.game.players[(w.game.current_player_index + k) % w.game.players.length]? = some p →
        Player.is_eliminated w p = true := by
    intro k hk1 hk2 p hp
    have hnot : ¬ Q k := Nat.find_min hQ hk2
    cases he : Player.is_eliminated w p with
    | true => rfl
    | false => exact absurd ⟨hk1, p, hp, he⟩ hnot
  obtain ⟨o, ho, hr, hg, ha⟩ := next_turn_steps w (w.game.players[w.game.current_player_index])
    (Nat.find hQ) hno (List.getElem?_eq_getElem hidx) hspec.1 (by omega) hbetween hspec.2
  refine ⟨o, Nat.find hQ, ho, hr, hspec.1, by omega, by rw [hg], by rw [hg], ?_, ?_⟩
  · intro k hk1 hk2 p hp
    rw [ha p]
    exact hbetween k hk1 hk2 p hp
  · obtain ⟨p, hp, hpe⟩ := hspec.2
    refine ⟨p, ?_, ?_⟩
    · rw [hg]; exact hp
    · rw [ha p]; exact hpe

/-- C19 on a game of three with Bob eliminated and the turn at Alice: the turn
passes to Charlie at index 2. -/
theorem next_turn_advances_witness :
    Game.is_game_over bob_out_world = false
    ∧ Game.pointer_ok bob_out_world
    ∧ (∃ o d, Game.next_turn bob_out_world = some o ∧ o.result = .ok ()
      ∧ 1 ≤ d ∧ d < bob_out_world.game.players.length
      ∧ o.world.game.current_player_index
          = (bob_out_world.game.current_player_index + d) % bob_out_world.game.players.length
      ∧ o.world.game.players = bob_out_world.game.players
      ∧ (∀ k, 1 ≤ k → k < d → ∀ p,
          bob_out_world.game.players[(bob_out_world.game.current_player_index + k)
            % bob_out_world.game.players.length]? = some p →
            Player.is_eliminated o.world p = true)
      ∧ ∃ p, o.world.game.players[o.world.game.current_player_index]? = some p
          ∧ Player.is_eliminated o.world p = false)
    ∧ (Game.next_turn bob_out_world).map (fun o => o.world.game.current_player_index)
        = some 2 :=
  ⟨by decide, Or.inl rfl, next_turn_advances bob_out_world (by decide) (Or.inl rfl), by decide⟩

/-- C20: in a game of n ≥ 2 roster players none of whom is eliminated, with the
turn pointer at index i (0 or a roster index), k consecutive next_turn calls all return normally
and leave the pointer at (i + k) mod n, the roster being as before; so after n
calls the pointer is back at i. -/
theorem next_turn_round_robin (k : Nat) (w : World) (hn : 2 ≤ w.game.players.length)
    (hall : ∀ p ∈ w.game.players, Player.is_eliminated w p = false)
    (hptr : Game.pointer_ok w) :
    ∃ log w2, run w (List.replicate k .next_turn) = some (log, w2)
      ∧ (∀ e ∈ log, e.2 = .ok ())
      ∧ w2.game.current_player_index
          = (w.game.current_player_index + k) % w.game.players.length
      ∧ w2.game.players = w.game.players
      ∧ (k = w.game.players.length →
          w2.game.current_player_index = w.game.current_player_index) := by
  have main : ∀ (k : Nat) (w : World), 2 ≤ w.game.players.length →
      (∀ p ∈ w.game.players, Player.is_eliminated w p = false) →
      w.game.current_player_index < w.game.players.length →
      ∃ log w2, run w (List.replicate k .next_turn) = some (log, w2)
        ∧ (∀ e ∈ log, e.2 = .ok ())
        ∧ w2.game.current_player_index
            = (w.game.current_player_index + k) % w.game.players.length
        ∧ w2.game.players = w.game.players := by
    intro k
    induction k with
    | zero =>
      intro w _ _ hidx
      exact ⟨[], w, rfl, by simp, by simp [Nat.mod_eq_of_lt hidx], rfl⟩
    | succ k ih =>
      intro w hn hall hidx
      have hpos : 0 < w.game.players.length := by omega
      have hno : Game.is_game_over w = false := by
        have hf : (w.game.players.filter fun p => !Player.is_eliminated w p)
            = w.game.players := by
          rw [List.filter_eq_self]
          intro p hp
          simp [hall p hp]
        simp [Game.is_game_over, Game.active_players, hf]
        omega
      have hj : (w.game.current_player_index + 1) % w.game.players.length
          < w.game.players.length := Nat.mod_lt _ hpos
      obtain ⟨o, ho, hr, hg, ha⟩ := next_turn_steps w
        (w.game.players[w.game.current_player_index]) 1 hno
        (List.getElem?_eq_getElem hidx) le_rfl (by omega)
        (by intro k hk1 hk2; omega)
        ⟨w.game.players[(w.game.current_player_index + 1) % w.game.players.length],
          List.getElem?_eq_getElem hj, hall _ (List.getElem_mem _)⟩
      have hplayers : o.world.game.players = w.game.players := by rw [hg]
      have hptr : o.world.game.current_player_index
          = (w.game.current_player_index + 1) % w.game.players.length := by rw [hg]
      obtain ⟨log, w2, hrun, hlog, hfin, hros⟩ := ih o.world (by rw [hplayers]; exact hn)
        (by
          intro p hp
          rw [ha p]
          exact hall p (by rw [← hplayers]; exact hp))
        (by rw [hplayers, hptr]; exact hj)
      refine ⟨(Call.next_turn, o.result) :: log, w2, ?_, ?_, ?_, ?_⟩
      · rw [List.replicate_succ]
        simp only [run, exec, ho, hrun]
      · intro e he
        rcases List.mem_cons.mp he with h | h
        · rw [h]; exact hr
        · exact hlog e h
      · rw [hfin, hplayers, hptr, Nat.mod_add_mod]
        congr 1
        omega
      · rw [hros, hplayers]
  have hidx : w.game.current_player_index < w.game.players.length := by
    rcases hptr with h | h
    · omega
    · exact h
  obtain ⟨log, w2, hrun, hlog, hfin, hros⟩ := main k w hn hall hidx
  refine ⟨log, w2, hrun, hlog, hfin, hros, ?_⟩
  intro hk
  rw [hfin, hk, Nat.add_mod_right, Nat.mod_eq_of_lt hidx]

/-- C20 on the six players of the role tests: six next_turn calls bring the
turn back to the Governor, and two calls bring it to the Baron at index 2. -/
theorem next_turn_round_robin_witness :
    2 ≤ six_roles_world.game.players.length
    ∧ (∀ p ∈ six_roles_world.game.players, Player.is_eliminated six_roles_world p = false)
    ∧ Game.pointer_ok six_roles_world
    ∧ (∃ log w2, run six_roles_world (List.replicate 6 .next_turn) = some (log, w2)
      ∧ (∀ e ∈ log, e.2 = .ok ())
      ∧ w2.game.current_player_index
          = (six_roles_world.game.current_player_index + 6)
              % six_roles_world.game.players.length
      ∧ w2.game.players = six_roles_world.game.players
      ∧ (6 = six_roles_world.game.players.length →
          w2.game.current_player_index = six_roles_world.game.current_player_index))
    ∧ (run six_roles_world (List.replicate 2 .next_turn)).map
        (fun r => r.2.game.current_player_index) = some 2 :=
  ⟨by decide, by decide, Or.inl rfl,
    next_turn_round_robin 6 six_roles_world (by decide) (by decide) (Or.inl rfl), by decide⟩

/-! ## next_turn: what happens to the departing player -/

theorem ret_andThen (w : World) (k : World → Outcome) : (ret w).andThen k = k w := rfl

/-- On a player whose sanction is reset the Baron block of next_turn does
nothing, and the Merchant block is the bonus. -/
theorem role_effects_unsanctioned (w : World) (cur : Nat)
    (hs : (w.heap cur).sanctioned = false) :
    Game.role_effects w cur
      = ret (if (w.heap cur).role = "Merchant" ∧ (w.heap cur).cls = .Merchant
            ∧ 3 ≤ (w.heap cur).coins
          then w.store cur { w.heap cur with coins := w.fit ((w.heap cur).coins + 1) } else w) := by
  unfold Game.role_effects Merchant.bonus
  by_cases h1 : Player.get_role w cur = "Merchant" ∧ (w.heap cur).cls = .Merchant
  · by_cases h2 : Player.get_coins w cur ≥ 3
    · have h3 : (w.heap cur).role = "Merchant" ∧ (w.heap cur).cls = .Merchant
          ∧ 3 ≤ (w.heap cur).coins := ⟨h1.1, h1.2, h2⟩
      rw [if_pos h1, if_pos h2, if_pos h3, add_coins_nonneg w cur 1 (by decide), ret_andThen]
      have hs2 : ¬ (Player.get_role (w.store cur { w.heap cur with
          coins := w.fit ((w.heap cur).coins + 1) }) cur = "Baron"
          ∧ Player.is_sanctioned (w.store cur { w.heap cur with
            coins := w.fit ((w.heap cur).coins + 1) }) cur = true
          ∧ ((w.store cur { w.heap cur with
            coins := w.fit ((w.heap cur).coins + 1) }).heap cur).cls = .Baron) := by
        intro h
        have := h.2.1
        simp [Player.is_sanctioned, hs] at this
      rw [if_neg hs2]
    · have h3 : ¬ ((w.heap cur).role = "Merchant" ∧ (w.heap cur).cls = .Merchant
          ∧ 3 ≤ (w.heap cur).coins) := fun h => h2 h.2.2
      rw [if_pos h1, if_neg h2, if_neg h3, ret_andThen]
      have hs2 : ¬ (Player.get_role w cur = "Baron" ∧ Player.is_sanctioned w cur = true
          ∧ (w.heap cur).cls = .Baron) := by
        intro h
        have := h.2.1
        simp [Player.is_sanctioned, hs] at this
      rw [if_neg hs2]
  · have h3 : ¬ ((w.heap cur).role = "Merchant" ∧ (w.heap cur).cls = .Merchant
        ∧ 3 ≤ (w.heap cur).coins) := fun h => h1 ⟨h.1, h.2.1⟩
    rw [if_neg h1, if_neg h3, ret_andThen]
    have hs2 : ¬ (Player.get_role w cur = "Baron" ∧ Player.is_sanctioned w cur = true
        ∧ (w.heap cur).cls = .Baron) := by
      intro h
      have := h.2.1
      simp [Player.is_sanctioned, hs] at this
    rw [if_neg hs2]

theorem next_turn_prefix_eq (w : World) (cur : Nat) :
    (Player.set_sanctioned w cur false).andThen (fun w1 => Game.role_effects w1 cur)
      = ret (next_turn_prefix_world w cur) := by
  unfold Player.set_sanctioned
  rw [ret_andThen, role_effects_unsanctioned _ _ (by simp)]
  congr 1
  simp only [store_heap_same, next_turn_prefix_world, store_fit]
  split_ifs
  · simp [World.store]
  · simp [World.store]

/-- The store after a next_turn that returned normally. -/
theorem next_turn_heap (w : World) (o : Outcome) (cur : Nat)
    (h : Game.next_turn w = some o) (hr : o.result = .ok ())
    (hcur : w.game.players[w.game.current_player_index]? = some cur) :
    o.world.heap = (next_turn_prefix_world w cur).heap := by
  unfold Game.next_turn at h
  split_ifs at h
  · simp only [Option.some.injEq] at h
    subst h
    simp [throw_] at hr
  · rw [hcur] at h
    simp only [next_turn_prefix_eq] at h
    simp only [ret] at h
    split at h
    · exact absurd h (by simp)
    · simp only [Option.some.injEq] at h
      subst h
      rfl

/-- C21: a next_turn that returns normally leaves the player that held the turn
with its sanctioned flag clear and every other player with the sanctioned flag
it had. -/
theorem next_turn_clears_departing_sanction (w : World) (o : Outcome) (cur : Nat)
    (h : Game.next_turn w = some o) (hr : o.result = .ok ())
    (hcur : w.game.players[w.game.current_player_index]? = some cur) :
    (o.world.heap cur).sanctioned = false
    ∧ ∀ p, p ≠ cur → (o.world.heap p).sanctioned = (w.heap p).sanctioned := by
  rw [next_turn_heap w o cur h hr hcur]
  refine ⟨by simp [next_turn_prefix_world], ?_⟩
  intro p hp
  simp [next_turn_prefix_world, hp]

/-- C21 on a game of a sanctioned Merchant, who has the turn, and a sanctioned
Spy: after next_turn the Merchant is no longer sanctioned, the Spy still is. -/
theorem next_turn_clears_departing_sanction_witness :
    ∃ o, Game.next_turn merchant_turn_world = some o ∧ o.result = .ok ()
      ∧ merchant_turn_world.game.players[merchant_turn_world.game.current_player_index]?
          = some 0
      ∧ (merchant_turn_world.heap 0).sanctioned = true
      ∧ (merchant_turn_world.heap 1).sanctioned = true
      ∧ (o.world.heap 0).sanctioned = false
      ∧ (o.world.heap 1).sanctioned = true := by
  have hsome : (Game.next_turn merchant_turn_world).isSome = true := by decide
  obtain ⟨o, ho⟩ := Option.isSome_iff_exists.mp hsome
  have hr : o.result = .ok () := by
    have h : (Game.next_turn merchant_turn_world).map (fun o => o.result) = some (.ok ()) := by
      decide
    rw [ho] at h
    simpa using h
  have hc := next_turn_clears_departing_sanction merchant_turn_world o 0 ho hr (by decide)
  refine ⟨o, ho, hr, by decide, by decide, by decide, hc.1, ?_⟩
  rw [hc.2 1 (by decide)]
  decide

/-- C22 fails at the largest balance: on a 32-bit platform a Merchant holding
INT_MAX = 2147483647 coins has the turn; next_turn returns normally and the
Merchant's balance is not one higher (2147483648 is not a value of `int`): it
has wrapped to INT_MIN. -/
theorem next_turn_bonus_at_int_max_overflows :
    ∃ o, Game.next_turn int_max_world = some o ∧ o.result = .ok ()
      ∧ int_max_world.game.players[int_max_world.game.current_player_index]? = some 1
      ∧ (int_max_world.heap 1).cls = .Merchant ∧ (int_max_world.heap 1).role = "Merchant"
      ∧ (int_max_world.heap 1).coins = 2147483647
      ∧ (o.world.heap 1).coins = -2147483648
      ∧ (o.world.heap 1).coins ≠ (int_max_world.heap 1).coins + 1 := by
  have hsome : (Game.next_turn int_max_world).isSome = true := by decide
  obtain ⟨o, ho⟩ := Option.isSome_iff_exists.mp hsome
  have h : (Game.next_turn int_max_world).map (fun o => (o.result, (o.world.heap 1).coins))
      = some (.ok (), -2147483648) := by decide
  rw [ho] at h
  simp only [Option.map_some', Option.some.injEq, Prod.mk.injEq] at h
  refine ⟨o, ho, h.1, by decide, by decide, by decide, by decide, h.2, ?_⟩
  rw [h.2]
  decide

/-- C22, amended: in a next_turn that returns normally with a Merchant (an
object built by the Merchant constructor) holding the turn, that Merchant's
balance is one higher when it held at least 3 coins and less than INT_MAX (its
balance + 1 is a value of `int`), and as before when it held fewer than 3; the
balance of every other player is as before. -/
theorem next_turn_merchant_bonus (w : World) (o : Outcome) (cur : Nat)
    (h : Game.next_turn w = some o) (hr : o.result = .ok ())
    (hcur : w.game.players[w.game.current_player_index]? = some cur)
    (hcls : (w.heap cur).cls = .Merchant) (hrole : (w.heap cur).role = "Merchant") :
    (3 ≤ (w.heap cur).coins → w.fits ((w.heap cur).coins + 1) = true →
      (o.world.heap cur).coins = (w.heap cur).coins + 1)
    ∧ ((w.heap cur).coins < 3 → (o.world.heap cur).coins = (w.heap cur).coins)
    ∧ ∀ p, p ≠ cur → (o.world.heap p).coins = (w.heap p).coins := by
  rw [next_turn_heap w o cur h hr hcur]
  refine ⟨?_, ?_, ?_⟩
  · intro h3 hfit
    simp [next_turn_prefix_world, hcls, hrole, h3, (fits_iff w _).mp hfit]
  · intro h3
    have : ¬ 3 ≤ (w.heap cur).coins := by omega
    simp [next_turn_prefix_world, this]
  · intro p hp
    simp [next_turn_prefix_world, hp]

/-- C22 at the scenario of the spec: a Merchant with 3 coins ends its turn with
4 coins and the waiting Spy keeps its 4; a Merchant with 2 coins keeps its 2. -/
theorem next_turn_merchant_bonus_witness :
    (∃ o, Game.next_turn merchant_turn_world = some o ∧ o.result = .ok ()
      ∧ (merchant_turn_world.heap 0).cls = .Merchant
      ∧ (merchant_turn_world.heap 0).coins = 3
      ∧ (o.world.heap 0).coins = 3 + 1
      ∧ (o.world.heap 1).coins = 4)
    ∧ ∃ o, Game.next_turn poor_merchant_turn_world = some o ∧ o.result = .ok ()
      ∧ (poor_merchant_turn_world.heap 0).coins = 2
      ∧ (o.world.heap 0).coins = 2 := by
  constructor
  · have hsome : (Game.next_turn merchant_turn_world).isSome = true := by decide
    obtain ⟨o, ho⟩ := Option.isSome_iff_exists.mp hsome
    have hr : o.result = .ok () := by
      have h : (Game.next_turn merchant_turn_world).map (fun o => o.result)
          = some (.ok ()) := by decide
      rw [ho] at h
      simpa using h
    have hc := next_turn_merchant_bonus merchant_turn_world o 0 ho hr (by decide) (by decide)
      (by decide)
    refine ⟨o, ho, hr, by decide, by decide, hc.1 (by decide) (by decide), ?_⟩
    rw [hc.2.2 1 (by decide)]
    decide
  · have hsome : (Game.next_turn poor_merchant_turn_world).isSome = true := by decide
    obtain ⟨o, ho⟩ := Option.isSome_iff_exists.mp hsome
    have hr : o.result = .ok () := by
      have h : (Game.next_turn poor_merchant_turn_world).map (fun o => o.result)
          = some (.ok ()) := by decide
      rw [ho] at h
      simpa using h
    have hc := next_turn_merchant_bonus poor_merchant_turn_world o 0 ho hr (by decide)
      (by decide) (by decide)
    refine ⟨o, ho, hr, by decide, ?_⟩
    rw [hc.2.1 (by decide)]
    decide

/-- No next_turn that returns normally changes the balance of a player whose
role string is not "Merchant": the Baron block never runs, because the sanction
of the player holding the turn is reset before the block tests it. -/
theorem next_turn_no_compensation (w : World) (o : Outcome) (cur : Nat)
    (h : Game.next_turn w = some o) (hr : o.result = .ok ())
    (hcur : w.game.players[w.game.current_player_index]? = some cur)
    (hrole : (w.heap cur).role ≠ "Merchant") :
    ∀ p, (o.world.heap p).coins = (w.heap p).coins := by
  rw [next_turn_heap w o cur h hr hcur]
  intro p
  by_cases hp : p = cur
  · subst hp
    simp [next_turn_prefix_world, hrole]
  · simp [next_turn_prefix_world, hp]

/-- C23, evaluated at the failing input: a sanctioned Baron holding 5 coins has
the turn; next_turn returns normally, the Baron is no longer sanctioned and
still holds 5 coins, not 6. -/
theorem next_turn_sanctioned_baron_gets_nothing :
    (sanctioned_baron_world.heap 0).cls = .Baron
    ∧ (sanctioned_baron_world.heap 0).role = "Baron"
    ∧ (sanctioned_baron_world.heap 0).sanctioned = true
    ∧ (sanctioned_baron_world.heap 0).coins = 5
    ∧ sanctioned_baron_world.game.players[sanctioned_baron_world.game.current_player_index]?
        = some 0
    ∧ (Game.next_turn sanctioned_baron_world).map
        (fun o => (o.result, (o.world.heap 0).coins, (o.world.heap 0).sanctioned))
        = some (.ok (), 5, false) := by
  decide

/-! ## Role abilities: invest, protect, penalize_sanction -/

theorem store_store (w : World) (a : Nat) (p q : Player) :
    (w.store a p).store a q = w.store a q := by
  simp [World.store]

theorem invest_ok (w : World) (self : Nat) (h : 3 ≤ (w.heap self).coins) :
    Baron.invest w self
      = ret (w.store self { w.heap self with coins := w.fit ((w.heap self).coins + 3) }) := by
  have h1 : ¬ (w.heap self).coins < 3 := by omega
  have h2 : (w.heap self).coins - 3 + 6 = (w.heap self).coins + 3 := by omega
  simp [Baron.invest, Player.get_coins, h1, Player.remove_coins, Player.add_coins,
    Outcome.andThen, ret, store_store, h2]

theorem invest_fail (w : World) (self : Nat) (h : (w.heap self).coins < 3) :
    Baron.invest w self = throw_ .InsufficientCoinsException w := by
  simp [Baron.invest, Player.get_coins, h]

theorem invest_run (self : Nat) (k : Nat) :
    ∀ w : World, (w.heap self).cls = .Baron → 3 ≤ (w.heap self).coins →
      w.fits ((w.heap self).coins + 3 * k) = true →
      ∃ log w2, run w (List.replicate k (.invest self)) = some (log, w2)
        ∧ (∀ e ∈ log, e.2 = .ok ())
        ∧ (w2.heap self).coins = (w.heap self).coins + 3 * k := by
  induction k with
  | zero =>
    intro w _ _ _
    exact ⟨[], w, rfl, by simp, by simp⟩
  | succ k ih =>
    intro w hcls hc hfit
    have hf3 : w.fit ((w.heap self).coins + 3) = (w.heap self).coins + 3 :=
      (fits_iff w _).mp
        (fits_mono w _ _ (by omega) (by push_cast; omega) hfit)
    have hx : exec w (.invest self)
        = some (ret (w.store self { w.heap self with coins := (w.heap self).coins + 3 })) := by
      simp [exec, guard_cls, hcls, invest_ok w self hc, hf3]
    obtain ⟨log, w2, hrun, hlog, hfin⟩ :=
      ih (w.store self { w.heap self with coins := (w.heap self).coins + 3 })
        (by simp [hcls]) (by simp; omega)
        (by
          rw [fits_iff] at hfit ⊢
          simp only [store_heap_same, store_fit]
          have he : (w.heap self).coins + 3 + 3 * (k : Int)
              = (w.heap self).coins + 3 * ((k + 1 : Nat) : Int) := by push_cast; ring
          rw [he]
          exact hfit)
    refine ⟨(.invest self, .ok ()) :: log, w2, ?_, ?_, ?_⟩
    · rw [List.replicate_succ]
      simp only [run, hx]
      simp only [ret] at hrun ⊢
      rw [hrun]
    · intro e he
      rcases List.mem_cons.mp he with h | h
      · rw [h]
      · exact hlog e h
    · rw [hfin]
      simp only [store_heap_same]
      push_cast
      ring

/-- C24 fails at large balances: on a 32-bit platform a Baron holding INT_MAX =
2147483647 coins invests; the call returns normally and the balance it leaves
is not c + 3 (2147483650 is not a value of `int`): the sum has wrapped to
INT_MIN + 2. -/
theorem invest_at_int_max_overflows :
    (int_max_world.heap 2).cls = .Baron
    ∧ (int_max_world.heap 2).coins = 2147483647
    ∧ (Baron.invest int_max_world 2).result = .ok ()
    ∧ ((Baron.invest int_max_world 2).world.heap 2).coins
        ≠ (int_max_world.heap 2).coins + 3
    ∧ ((Baron.invest int_max_world 2).world.heap 2).coins = -2147483646 := by
  decide

/-- C24, amended: for a Baron with balance c ≥ 3 for which c + 3 is a value of
`int` (does not exceed INT_MAX) invest returns normally and leaves the balance
at c + 3, nothing else changing; k successive invests starting from c ≥ 3, with
c + 3k a value of `int`, all return normally and leave c + 3k; with c < 3 invest
throws InsufficientCoinsException and the world, so the balance, is as
before. -/
theorem invest_spec (w : World) (self : Nat) (hcls : (w.heap self).cls = .Baron) :
    (3 ≤ (w.heap self).coins → w.fits ((w.heap self).coins + 3) = true →
      Baron.invest w self
        = ret (w.store self { w.heap self with coins := (w.heap self).coins + 3 }))
    ∧ (3 ≤ (w.heap self).coins → ∀ k : Nat, w.fits ((w.heap self).coins + 3 * k) = true →
        ∃ log w2, run w (List.replicate k (.invest self)) = some (log, w2)
          ∧ (∀ e ∈ log, e.2 = .ok ())
          ∧ (w2.heap self).coins = (w.heap self).coins + 3 * k)
    ∧ ((w.heap self).coins < 3 →
        Baron.invest w self = throw_ .InsufficientCoinsException w) :=
  ⟨fun hc hfit => by rw [invest_ok w self hc, (fits_iff w _).mp hfit],
    fun hc k hfit => invest_run self k w hcls hc hfit, invest_fail w self⟩

/-- C24 at the scenario of the spec: a Baron with 3 coins invests twice and
holds 9; a Baron with 2 coins is rejected. -/
theorem invest_spec_witness :
    (two_barons_world.heap 0).cls = .Baron
    ∧ (two_barons_world.heap 0).coins = 3
    ∧ two_barons_world.fits ((two_barons_world.heap 0).coins + 3 * (2 : Nat)) = true
    ∧ (∃ log w2, run two_barons_world (List.replicate 2 (.invest 0)) = some (log, w2)
        ∧ (∀ e ∈ log, e.2 = .ok ())
        ∧ (w2.heap 0).coins = 3 + 3 * (2 : Nat))
    ∧ (two_barons_world.heap 1).coins = 2
    ∧ Baron.invest two_barons_world 1
        = throw_ .InsufficientCoinsException two_barons_world :=
  ⟨by decide, by decide, by decide,
    (invest_spec two_barons_world 0 (by decide)).2.1 (by decide) 2 (by decide),
    by decide, (invest_spec two_barons_world 1 (by decide)).2.2 (by decide)⟩

/-- C25 as stated fails when the General protects itself: the call returns
normally and the state of the target, which is the General, changes from 5
coins to 0. -/
theorem self_protect_changes_target :
    (general_spy_world.heap 0).cls = .General
    ∧ 5 ≤ Player.get_coins general_spy_world 0
    ∧ (General.protect general_spy_world 0 0).result = .ok ()
    ∧ Player.get_coins (General.protect general_spy_world 0 0).world 0 = 0
    ∧ (General.protect general_spy_world 0 0).world.heap 0 ≠ general_spy_world.heap 0 := by
  decide

/-- C25 amended: protect returns normally exactly when the General holds at
least 5 coins, and then the General object differs only by a balance 5 lower;
with fewer than 5 coins it throws InsufficientCoinsException and the world is
as before.  In both cases every player object other than the General, so the
target when it is not the General itself, and the game are as before, no
eliminated flag changes, and a later coup against a target that is not
eliminated, by an actor holding at least 7 coins, returns normally and
eliminates the target. -/
theorem protect_spec (w : World) (self target : Nat) :
    ((General.protect w self target).result = .ok () ↔ 5 ≤ (w.heap self).coins)
    ∧ (5 ≤ (w.heap self).coins →
        General.protect w self target
          = ret (w.store self { w.heap self with coins := (w.heap self).coins - 5 }))
    ∧ ((w.heap self).coins < 5 →
        General.protect w self target = throw_ .InsufficientCoinsException w)
    ∧ (∀ p, p ≠ self → (General.protect w self target).world.heap p = w.heap p)
    ∧ (General.protect w self target).world.game = w.game
    ∧ (∀ p, Player.is_eliminated (General.protect w self target).world p
        = Player.is_eliminated w p)
    ∧ (∀ actor, Player.is_eliminated w target = false →
        7 ≤ Player.get_coins (General.protect w self target).world actor →
        (Player.coup (General.protect w self target).world actor target).result = .ok ()
        ∧ Player.is_eliminated
            (Player.coup (General.protect w self target).world actor target).world target
              = true) := by
  have hok : 5 ≤ (w.heap self).coins →
      General.protect w self target
        = ret (w.store self { w.heap self with coins := (w.heap self).coins - 5 }) := by
    intro h
    have h1 : ¬ (w.heap self).coins < 5 := by omega
    simp [General.protect, Player.get_coins, h1, Player.remove_coins]
  have hfail : (w.heap self).coins < 5 →
      General.protect w self target = throw_ .InsufficientCoinsException w := by
    intro h
    simp [General.protect, Player.get_coins, h]
  have hother : ∀ p, p ≠ self → (General.protect w self target).world.heap p = w.heap p := by
    intro p hp
    rcases le_or_lt 5 (w.heap self).coins with h | h
    · rw [hok h]; simp [ret, hp]
    · rw [hfail h]; rfl
  have hel : ∀ p, Player.is_eliminated (General.protect w self target).world p
      = Player.is_eliminated w p := by
    intro p
    rcases le_or_lt 5 (w.heap self).coins with h | h
    · rw [hok h]
      by_cases hp : p = self
      · subst hp; simp [ret, Player.is_eliminated]
      · simp [ret, Player.is_eliminated, hp]
    · rw [hfail h]; rfl
  refine ⟨⟨?_, fun h => by rw [hok h]; rfl⟩, hok, hfail, hother, protect_game w self target,
    hel, ?_⟩
  · intro h
    by_contra hlt
    rw [hfail (by omega)] at h
    simp [throw_] at h
  · intro actor ht hc
    have hact : ((General.protect w self target).world.heap target).active = true := by
      have := hel target
      rw [ht] at this
      simpa [Player.is_eliminated] using this
    rw [coup_ok _ actor target hc hact]
    exact ⟨rfl, by simp [ret, coup_result, Player.is_eliminated]⟩

/-- C25 amended, on a General with 5 coins, a Spy and a Governor with 7 coins:
the General protects the Spy and pays 5; the Spy is as before; the Governor's
coup against the Spy afterwards still eliminates it. -/
theorem protect_spec_witness :
    (General.protect general_spy_world 0 1).result = .ok ()
    ∧ ((General.protect general_spy_world 0 1).world.heap 0).coins = 0
    ∧ (General.protect general_spy_world 0 1).world.heap 1 = general_spy_world.heap 1
    ∧ (Player.coup (General.protect general_spy_world 0 1).world 2 1).result = .ok ()
    ∧ Player.is_eliminated
        (Player.coup (General.protect general_spy_world 0 1).world 2 1).world 1 = true := by
  have h := protect_spec general_spy_world 0 1
  refine ⟨h.1.2 (by decide), ?_, h.2.2.2.1 1 (by decide),
    h.2.2.2.2.2.2 2 (by decide) (by decide)⟩
  rw [h.2.1 (by decide)]
  decide

/-- C26 as stated fails when the Judge is the target: the call returns normally
and the Judge's balance goes from 2 to 1. -/
theorem self_penalize_changes_judge_coins :
    (judge_baron_world.heap 0).cls = .Judge
    ∧ 1 ≤ Player.get_coins judge_baron_world 0
    ∧ (Judge.penalize_sanction judge_baron_world 0 0).result = .ok ()
    ∧ Player.get_coins (Judge.penalize_sanction judge_baron_world 0 0).world 0 = 1
    ∧ Player.get_coins (Judge.penalize_sanction judge_baron_world 0 0).world 0
        ≠ Player.get_coins judge_baron_world 0 := by
  decide

/-- C26 amended: when the target holds at least 1 coin penalize_sanction
returns normally, the target object differs only by a balance 1 lower, and
every other player object, so the Judge when it is not the target, is as
before; when the target holds no coin it throws InvalidActionException and the
world, so the target's balance, is as before. -/
theorem penalize_spec (w : World) (self target : Nat) :
    (1 ≤ (w.heap target).coins →
      Judge.penalize_sanction w self target
        = ret (w.store target { w.heap target with coins := (w.heap target).coins - 1 }))
    ∧ (1 ≤ (w.heap target).coins → self ≠ target →
        ((Judge.penalize_sanction w self target).world.heap self).coins = (w.heap self).coins)
    ∧ ((w.heap target).coins < 1 →
        Judge.penalize_sanction w self target = throw_ .InvalidActionException w) := by
  have hok : 1 ≤ (w.heap target).coins →
      Judge.penalize_sanction w self target
        = ret (w.store target { w.heap target with coins := (w.heap target).coins - 1 }) := by
    intro h
    have h1 : ¬ (w.heap target).coins < 1 := by omega
    simp [Judge.penalize_sanction, Player.get_coins, h1, Player.remove_coins]
  refine ⟨hok, ?_, ?_⟩
  · intro h hne
    rw [hok h]
    simp [ret, hne]
  · intro h
    simp [Judge.penalize_sanction, Player.get_coins, h]

/-- C26 amended, on a Judge with 2 coins and a Baron with 1: the first
penalize_sanction takes the Baron's coin and leaves the Judge's 2; the second
is rejected. -/
theorem penalize_spec_witness :
    (Judge.penalize_sanction judge_baron_world 0 1).result = .ok ()
    ∧ ((Judge.penalize_sanction judge_baron_world 0 1).world.heap 1).coins = 0
    ∧ ((Judge.penalize_sanction judge_baron_world 0 1).world.heap 0).coins = 2
    ∧ Judge.penalize_sanction (Judge.penalize_sanction judge_baron_world 0 1).world 0 1
        = throw_ .InvalidActionException
            (Judge.penalize_sanction judge_baron_world 0 1).world := by
  have h := penalize_spec judge_baron_world 0 1
  have h2 := penalize_spec (Judge.penalize_sanction judge_baron_world 0 1).world 0 1
  refine ⟨?_, ?_, h.2.1 (by decide) (by decide), h2.2.2 (by decide)⟩
  · rw [h.1 (by decide)]; rfl
  · rw [h.1 (by decide)]; decide

/-! ## players_list and get_player_by_name -/

theorem eliminate_player_ok (w : World) (player : Nat)
    (h : Player.is_eliminated w player = false) :
    Game.eliminate_player w player
      = ret (w.store player { w.heap player with active := false }) := by
  simp [Game.eliminate_player, h, Player.eliminate]

theorem players_list_eq (w : World) :
    Game.players_list w
      = (w.game.players.filter fun p => (w.heap p).active).map fun p => (w.heap p).name := by
  unfold Game.players_list
  have hf : (fun p => !Player.is_eliminated w p) = fun p => (w.heap p).active := by
    funext p
    simp [Player.is_eliminated]
  rw [hf]
  rfl

/-- C27: players_list is the list of names of the roster entries whose
eliminated flag is clear, in roster order.  After eliminate_player on a player
t that was not eliminated it is the same list with the entries of t left out,
the others keeping their order; when t is in the roster, once, that is the
list with the one entry of t erased. -/
theorem players_list_spec (w : World) :
    Game.players_list w
      = ((w.game.players.filter fun p => (w.heap p).active).map fun p => (w.heap p).name)
    ∧ ∀ t, Player.is_eliminated w t = false →
        Game.players_list (Game.eliminate_player w t).world
          = (((w.game.players.filter fun p => (w.heap p).active).filter
              fun p => decide (p ≠ t)).map fun p => (w.heap p).name)
        ∧ (Game.players_list (Game.eliminate_player w t).world).Sublist (Game.players_list w)
        ∧ (w.game.players.Nodup →
            Game.players_list (Game.eliminate_player w t).world
              = (((w.game.players.filter fun p => (w.heap p).active).erase t).map
                  fun p => (w.heap p).name)) := by
  refine ⟨players_list_eq w, ?_⟩
  intro t ht
  have h1 : Game.players_list (Game.eliminate_player w t).world
      = (((w.game.players.filter fun p => (w.heap p).active).filter
          fun p => decide (p ≠ t)).map fun p => (w.heap p).name) := by
    rw [eliminate_player_ok w t ht, players_list_eq]
    simp only [ret, store_game, List.filter_filter]
    have hf : (fun p => ((w.store t { w.heap t with active := false }).heap p).active)
        = fun p => (decide (p ≠ t) && (w.heap p).active) := by
      funext p
      by_cases hp : p = t
      · subst hp; simp
      · simp [hp]
    rw [hf]
    apply List.map_congr_left
    intro p hp
    have hpt : p ≠ t := by
      have := (List.mem_filter.mp hp).2
      simp at this
      exact this.1
    simp [hpt]
  refine ⟨h1, ?_, ?_⟩
  · rw [h1, players_list_eq]
    exact (List.filter_sublist _).map _
  · intro hnd
    rw [h1, (hnd.filter _).erase_eq_filter t]
    congr 2
    funext p
    by_cases hp : p = t <;> simp [hp]

/-- C27 at the test "Game mechanics" with three players: eliminating Bob
leaves Alice and Charlie, in that order. -/
theorem players_list_spec_witness :
    Game.players_list three_players_world = ["Alice", "Bob", "Charlie"]
    ∧ Player.is_eliminated three_players_world 1 = false
    ∧ three_players_world.game.players.Nodup
    ∧ Game.players_list (Game.eliminate_player three_players_world 1).world
        = ["Alice", "Charlie"] := by
  have h := players_list_spec three_players_world
  refine ⟨by decide, by decide, by decide, ?_⟩
  rw [(h.2 1 (by decide)).2.2 (by decide)]
  decide

/-- C28: get_player_by_name returns null exactly when no roster entry, whether
eliminated or not, has the name; otherwise it returns a roster entry that has
the name and comes before every other roster entry that has it. -/
theorem get_player_by_name_spec (w : World) (name : String) :
    (Game.get_player_by_name w name = none
        ↔ ∀ p ∈ w.game.players, (w.heap p).name ≠ name)
    ∧ ∀ p, Game.get_player_by_name w name = some p →
        (w.heap p).name = name
        ∧ ∃ i : Nat, w.game.players[i]? = some p
          ∧ ∀ j : Nat, j < i → ∀ q, w.game.players[j]? = some q → (w.heap q).name ≠ name := by
  constructor
  · simp [Game.get_player_by_name, Player.get_name]
  · intro p hp
    unfold Game.get_player_by_name at hp
    rw [List.find?_eq_some] at hp
    obtain ⟨hname, as, bs, hl, hbefore⟩ := hp
    refine ⟨by simpa [Player.get_name] using hname, as.length, ?_, ?_⟩
    · rw [hl, List.getElem?_append_right (le_refl _)]
      simp
    · intro j hj q hq
      rw [hl, List.getElem?_append_left hj] at hq
      have hmem : q ∈ as := List.getElem?_mem hq
      have := hbefore q hmem
      simpa [Player.get_name] using this

/-- C28 on a roster Ann, Bob, Ann whose second Ann is eliminated: "Ann" is
found at address 0, "Bob" at address 1, "Eve" is not found. -/
theorem get_player_by_name_spec_witness :
    Game.get_player_by_name same_name_world "Ann" = some 0
    ∧ Game.get_player_by_name same_name_world "Bob" = some 1
    ∧ Game.get_player_by_name same_name_world "Eve" = none
    ∧ (same_name_world.heap 0).name = "Ann" := by
  have h := get_player_by_name_spec same_name_world "Ann"
  have h3 := get_player_by_name_spec same_name_world "Eve"
  refine ⟨by decide, by decide, h3.1.mpr (by decide), (h.2 0 (by decide)).1⟩

/-! ## Ledger primitives and eliminate_player -/

/-- C29 fails at the largest balance: on a 32-bit platform add_coins(1) on a
player holding INT_MAX = 2147483647 coins returns normally and does not leave
balance + 1 (2147483648 is not a value of `int`): the sum has wrapped to
INT_MIN. -/
theorem add_coins_at_int_max_overflows :
    (int_max_world.heap 0).coins = 2147483647
    ∧ (Player.add_coins int_max_world 0 1).result = .ok ()
    ∧ ((Player.add_coins int_max_world 0 1).world.heap 0).coins
        ≠ (int_max_world.heap 0).coins + 1
    ∧ ((Player.add_coins int_max_world 0 1).world.heap 0).coins = -2147483648 := by
  decide

/-- C29, amended: add_coins and remove_coins throw invalid_argument for every
negative amount, whatever the balance; for an amount n ≥ 0 remove_coins throws
InsufficientCoinsException exactly when the balance is below n; every throw
leaves the world, so the balance, as before; otherwise add_coins leaves
balance + n, provided n and balance + n are values of `int` (the sum does not
exceed INT_MAX), and remove_coins leaves balance - n, nothing else changing. -/
theorem ledger_spec (w : World) (self : Nat) (n : Int) :
    (n < 0 → Player.add_coins w self n = throw_ .invalid_argument w
        ∧ Player.remove_coins w self n = throw_ .invalid_argument w)
    ∧ (0 ≤ n → w.fits n = true → w.fits ((w.heap self).coins + n) = true →
        Player.add_coins w self n
          = ret (w.store self { w.heap self with coins := (w.heap self).coins + n }))
    ∧ (0 ≤ n → ((Player.remove_coins w self n).result = .error .InsufficientCoinsException
        ↔ (w.heap self).coins < n))
    ∧ (0 ≤ n → (w.heap self).coins < n →
        Player.remove_coins w self n = throw_ .InsufficientCoinsException w)
    ∧ (0 ≤ n → n ≤ (w.heap self).coins → Player.remove_coins w self n
        = ret (w.store self { w.heap self with coins := (w.heap self).coins - n })) := by
  have hfail : 0 ≤ n → (w.heap self).coins < n →
      Player.remove_coins w self n = throw_ .InsufficientCoinsException w := by
    intro h0 h
    have h1 : ¬ n < 0 := by omega
    simp [Player.remove_coins, h1, h]
  have hok : 0 ≤ n → n ≤ (w.heap self).coins → Player.remove_coins w self n
      = ret (w.store self { w.heap self with coins := (w.heap self).coins - n }) := by
    intro h0 h
    have h1 : ¬ n < 0 := by omega
    have h2 : ¬ (w.heap self).coins < n := by omega
    simp [Player.remove_coins, h1, h2]
  refine ⟨?_, fun h0 _ hfit => by rw [add_coins_nonneg w self n h0, (fits_iff w _).mp hfit],
    ?_, hfail, hok⟩
  · intro h
    simp [Player.add_coins, Player.remove_coins, h]
  · intro h0
    constructor
    · intro hr
      by_contra hlt
      rw [hok h0 (by omega)] at hr
      simp [ret] at hr
    · intro hlt
      rw [hfail h0 hlt]
      rfl

/-- C29 at the test "Player coin operations exceptions": removing 3 from a
balance of 1 and adding or removing -1 are rejected; adding 5 to 4 gives 9 and
removing 3 from 4 gives 1. -/
theorem ledger_spec_witness :
    Player.remove_coins four_coin_world 1 3 = throw_ .InsufficientCoinsException four_coin_world
    ∧ Player.add_coins four_coin_world 0 (-1) = throw_ .invalid_argument four_coin_world
    ∧ Player.remove_coins four_coin_world 0 (-1) = throw_ .invalid_argument four_coin_world
    ∧ ((Player.add_coins four_coin_world 0 5).world.heap 0).coins = 9
    ∧ ((Player.remove_coins four_coin_world 0 3).world.heap 0).coins = 1 := by
  have h3 := ledger_spec four_coin_world 1 3
  have hneg := ledger_spec four_coin_world 0 (-1)
  have h5 := ledger_spec four_coin_world 0 5
  have h03 := ledger_spec four_coin_world 0 3
  refine ⟨h3.2.2.2.1 (by decide) (by decide), (hneg.1 (by decide)).1, (hneg.1 (by decide)).2,
    ?_, ?_⟩
  · rw [h5.2.1 (by decide) (by decide) (by decide)]; decide
  · rw [h03.2.2.2.2 (by decide) (by decide)]; decide

/-- C30 as stated fails: eliminate_player on an already eliminated player
throws std::runtime_error, which no handler for InvalidActionException
catches. -/
theorem eliminate_player_throws_runtime_error :
    Player.is_eliminated coup_eliminated_world 1 = true
    ∧ (Game.eliminate_player coup_eliminated_world 1).result = .error .runtime_error
    ∧ Exn.is_invalid_action .runtime_error = false
    ∧ ¬ ∃ e, (Game.eliminate_player coup_eliminated_world 1).result = .error e
        ∧ e.is_invalid_action = true := by
  refine ⟨by decide, by decide, by decide, ?_⟩
  rintro ⟨e, he, hk⟩
  have h : (Game.eliminate_player coup_eliminated_world 1).result = .error .runtime_error := by
    decide
  rw [h] at he
  cases he
  exact absurd hk (by decide)

/-- C30 amended: eliminate_player on an already eliminated player throws
std::runtime_error and the world is as before; on a player that is not
eliminated it returns normally and the world differs only by the eliminated
flag of that player, now set: its coins and sanctioned flag, every other player
object, the turn pointer and last-arrested are as before. -/
theorem eliminate_player_spec (w : World) (player : Nat) :
    (Player.is_eliminated w player = true →
      Game.eliminate_player w player = throw_ .runtime_error w)
    ∧ (Player.is_eliminated w player = false →
      Game.eliminate_player w player
        = ret (w.store player { w.heap player with active := false })
      ∧ Player.is_eliminated (Game.eliminate_player w player).world player = true
      ∧ (∀ p, p ≠ player → (Game.eliminate_player w player).world.heap p = w.heap p)
      ∧ (Game.eliminate_player w player).world.game = w.game) := by
  constructor
  · intro h
    simp [Game.eliminate_player, h]
  · intro h
    rw [eliminate_player_ok w player h]
    refine ⟨rfl, by simp [ret, Player.is_eliminated], ?_, rfl⟩
    intro p hp
    simp [ret, hp]

/-- C30 amended, on three players: eliminating Bob returns normally and sets
his flag; eliminating him again throws std::runtime_error and changes
nothing. -/
theorem eliminate_player_spec_witness :
    Player.is_eliminated three_players_world 1 = false
    ∧ (Game.eliminate_player three_players_world 1).result = .ok ()
    ∧ Player.is_eliminated (Game.eliminate_player three_players_world 1).world 1 = true
    ∧ Game.eliminate_player (Game.eliminate_player three_players_world 1).world 1
        = throw_ .runtime_error (Game.eliminate_player three_players_world 1).world := by
  have h := (eliminate_player_spec three_players_world 1).2 (by decide)
  refine ⟨by decide, ?_, h.2.1,
    (eliminate_player_spec (Game.eliminate_player three_players_world 1).world 1).1 h.2.1⟩
  rw [h.1]; rfl

/-! ## The footprint of a call on the store -/

theorem foot_refl (T : Option Nat) (w : World) : Foot T w w :=
  ⟨rfl, fun _ => ⟨fun _ h => h, Or.inl rfl, id⟩⟩

theorem foot_trans {T : Option Nat} {w1 w2 w3 : World} (h12 : Foot T w1 w2)
    (h23 : Foot T w2 w3) : Foot T w1 w3 := by
  obtain ⟨b1, f1⟩ := h12
  obtain ⟨b2, f2⟩ := h23
  refine ⟨b2.trans b1, ?_⟩
  intro p
  obtain ⟨c1, a1, s1⟩ := f1 p
  obtain ⟨c2, a2, s2⟩ := f2 p
  refine ⟨fun hb h => c2 (b1.trans hb) (c1 hb h), ?_, fun h => s2 (s1 h)⟩
  rcases a2 with a2 | a2
  · rcases a1 with a1 | a1
    · exact Or.inl (a2.trans a1)
    · exact Or.inr ⟨a2.trans a1.1, a1.2⟩
  · exact Or.inr a2

theorem foot_andThen {T : Option Nat} {w : World} {o : Outcome} {k : World → Outcome}
    (ho : Foot T w o.world) (hk : ∀ w1, Foot T w1 (k w1).world) :
    Foot T w (o.andThen k).world := by
  unfold Outcome.andThen
  split
  · exact foot_trans ho (hk _)
  · exact ho

theorem foot_store {T : Option Nat} (w : World) (a : Nat) (q : Player)
    (hc : w.int_bits = none → 0 ≤ (w.heap a).coins → 0 ≤ q.coins)
    (ha : q.active = (w.heap a).active ∨ (q.active = false ∧ T = some a))
    (hs : (w.heap a).sanctioned = true → q.sanctioned = true) :
    Foot T w (w.store a q) := by
  refine ⟨rfl, ?_⟩
  intro p
  rw [store_heap]
  split_ifs with hp
  · subst hp; exact ⟨hc, ha, hs⟩
  · exact ⟨fun _ h => h, Or.inl rfl, id⟩

theorem foot_add_coins (T : Option Nat) (w : World) (a : Nat) (n : Int) :
    Foot T w (Player.add_coins w a n).world := by
  unfold Player.add_coins
  split_ifs with h
  · exact foot_refl T w
  · exact foot_store w a _ (fun hb h0 => by simp only [fit_unbounded w _ hb]; omega)
      (Or.inl rfl) id

theorem foot_remove_coins (T : Option Nat) (w : World) (a : Nat) (n : Int) :
    Foot T w (Player.remove_coins w a n).world := by
  unfold Player.remove_coins
  split_ifs with h1 h2
  · exact foot_refl T w
  · exact foot_refl T w
  · exact foot_store w a _ (fun _ h0 => by simp only; omega) (Or.inl rfl) id

theorem foot_set_sanctioned_true (T : Option Nat) (w : World) (a : Nat) :
    Foot T w (Player.set_sanctioned w a true).world :=
  foot_store w a _ (fun _ h => h) (Or.inl rfl) (fun _ => rfl)

theorem foot_set_last_arrested (T : Option Nat) (w : World) (t : Option Nat) :
    Foot T w (Game.set_last_arrested w t).world :=
  ⟨rfl, fun _ => ⟨fun _ h => h, Or.inl rfl, id⟩⟩

theorem foot_eliminate_player (w : World) (t : Nat) :
    Foot (some t) w (Game.eliminate_player w t).world := by
  unfold Game.eliminate_player Player.eliminate
  split_ifs
  · exact foot_refl _ w
  · exact foot_store w t _ (fun _ h => h) (Or.inr ⟨rfl, rfl⟩) id

theorem foot_gather (T : Option Nat) (w : World) (a : Nat) :
    Foot T w (Player.gather w a).world := by
  unfold Player.gather
  split_ifs
  · exact foot_refl T w
  · exact foot_add_coins T w a 1

theorem foot_tax (T : Option Nat) (w : World) (a : Nat) :
    Foot T w (dispatch_tax w a).world := by
  unfold dispatch_tax Governor.tax Player.tax
  split <;> split_ifs <;> first | exact foot_refl T w | exact foot_add_coins T w a _

theorem foot_bribe (T : Option Nat) (w : World) (a : Nat) :
    Foot T w (Player.bribe w a).world := by
  unfold Player.bribe
  split_ifs
  · exact foot_refl T w
  · exact foot_remove_coins T w a 4

theorem foot_arrest (T : Option Nat) (w : World) (a t : Nat) :
    Foot T w (dispatch_arrest w a t).world := by
  unfold dispatch_arrest
  split
  · unfold Merchant.arrest
    split_ifs
    · exact foot_refl T w
    · exact foot_refl T w
    · exact foot_andThen (foot_remove_coins T w a 2) fun w1 => foot_set_last_arrested T w1 _
  · unfold Player.arrest
    split_ifs
    · exact foot_refl T w
    · exact foot_refl T w
    · exact foot_refl T w
    · exact foot_andThen (foot_remove_coins T w t 1) fun w1 =>
        foot_andThen (foot_add_coins T w1 a 1) fun w2 => foot_set_last_arrested T w2 _

theorem foot_sanction (T : Option Nat) (w : World) (a t : Nat) :
    Foot T w (Player.sanction w a t).world := by
  unfold Player.sanction
  split_ifs
  · exact foot_refl T w
  · exact foot_andThen (foot_remove_coins T w a 3) fun w1 => foot_set_sanctioned_true T w1 t

theorem foot_coup (w : World) (a t : Nat) :
    Foot (some t) w (Player.coup w a t).world := by
  unfold Player.coup
  split_ifs
  · exact foot_refl _ w
  · exact foot_andThen (foot_remove_coins _ w a 7) fun w1 => foot_eliminate_player w1 t

theorem foot_invest (T : Option Nat) (w : World) (a : Nat) :
    Foot T w (Baron.invest w a).world := by
  unfold Baron.invest
  split_ifs
  · exact foot_refl T w
  · exact foot_andThen (foot_remove_coins T w a 3) fun w1 => foot_add_coins T w1 a 6

theorem foot_compensate (T : Option Nat) (w : World) (a : Nat) :
    Foot T w (Baron.compensate w a).world := by
  unfold Baron.compensate
  split_ifs
  · exact foot_add_coins T w a 1
  · exact foot_refl T w

theorem foot_protect (T : Option Nat) (w : World) (a t : Nat) :
    Foot T w (General.protect w a t).world := by
  unfold General.protect
  split_ifs
  · exact foot_refl T w
  · exact foot_remove_coins T w a 5

theorem foot_penalize (T : Option Nat) (w : World) (a t : Nat) :
    Foot T w (Judge.penalize_sanction w a t).world := by
  unfold Judge.penalize_sanction
  split_ifs
  · exact foot_refl T w
  · exact foot_remove_coins T w t 1

theorem foot_bonus (T : Option Nat) (w : World) (a : Nat) :
    Foot T w (Merchant.bonus w a).world := by
  unfold Merchant.bonus
  split_ifs
  · exact foot_add_coins T w a 1
  · exact foot_refl T w

/-- Every call other than next_turn stays within the footprint. -/
theorem exec_foot (w : World) (c : Call) (o : Outcome) (hc : c ≠ .next_turn)
    (h : exec w c = some o) : Foot c.victim w o.world := by
  cases c with
  | next_turn => exact absurd rfl hc
  | gather a => simp only [exec, Option.some.injEq] at h; subst h; exact foot_gather _ w a
  | tax a => simp only [exec, Option.some.injEq] at h; subst h; exact foot_tax _ w a
  | bribe a => simp only [exec, Option.some.injEq] at h; subst h; exact foot_bribe _ w a
  | arrest a t => simp only [exec, Option.some.injEq] at h; subst h; exact foot_arrest _ w a t
  | sanction a t =>
    simp only [exec, Option.some.injEq] at h; subst h; exact foot_sanction _ w a t
  | coup a t => simp only [exec, Option.some.injEq] at h; subst h; exact foot_coup w a t
  | add_coins a n =>
    simp only [exec, Option.some.injEq] at h; subst h; exact foot_add_coins _ w a n
  | remove_coins a n =>
    simp only [exec, Option.some.injEq] at h; subst h; exact foot_remove_coins _ w a n
  | eliminate_player a =>
    simp only [exec, Option.some.injEq] at h; subst h; exact foot_eliminate_player w a
  | block_tax a t => rw [guard_cls_some w a _ _ o h]; exact foot_refl _ w
  | view_coins a t => rw [guard_cls_some w a _ _ o h]; exact foot_refl _ w
  | block_arrest a t => rw [guard_cls_some w a _ _ o h]; exact foot_refl _ w
  | block_bribe a t => rw [guard_cls_some w a _ _ o h]; exact foot_refl _ w
  | invest a => rw [guard_cls_some w a _ _ o h]; exact foot_invest _ w a
  | compensate a => rw [guard_cls_some w a _ _ o h]; exact foot_compensate _ w a
  | protect a t => rw [guard_cls_some w a _ _ o h]; exact foot_protect _ w a t
  | recover_arrest a => rw [guard_cls_some w a _ _ o h]; exact foot_add_coins _ w a 1
  | penalize_sanction a t => rw [guard_cls_some w a _ _ o h]; exact foot_penalize _ w a t
  | bonus a => rw [guard_cls_some w a _ _ o h]; exact foot_bonus _ w a

/-- A call other than next_turn leaves the roster and the turn pointer alone. -/
theorem exec_game_frame (w : World) (c : Call) (o : Outcome) (hc : c ≠ .next_turn)
    (h : exec w c = some o) :
    o.world.game.players = w.game.players
    ∧ o.world.game.current_player_index = w.game.current_player_index := by
  cases c with
  | next_turn => exact absurd rfl hc
  | arrest x u =>
    simp only [exec, Option.some.injEq] at h
    subst h
    exact arrest_game w x u
  | gather a => simp only [exec, Option.some.injEq] at h; subst h; rw [gather_game]; simp
  | tax a => simp only [exec, Option.some.injEq] at h; subst h; rw [tax_game]; simp
  | bribe a => simp only [exec, Option.some.injEq] at h; subst h; rw [bribe_game]; simp
  | sanction a t => simp only [exec, Option.some.injEq] at h; subst h; rw [sanction_game]; simp
  | coup a t => simp only [exec, Option.some.injEq] at h; subst h; rw [coup_game]; simp
  | add_coins a n =>
    simp only [exec, Option.some.injEq] at h; subst h; rw [add_coins_game]; simp
  | remove_coins a n =>
    simp only [exec, Option.some.injEq] at h; subst h; rw [remove_coins_game]; simp
  | eliminate_player a =>
    simp only [exec, Option.some.injEq] at h; subst h; rw [eliminate_player_game]; simp
  | block_tax a t => rw [guard_cls_some w a _ _ o h]; exact ⟨rfl, rfl⟩
  | view_coins a t => rw [guard_cls_some w a _ _ o h]; exact ⟨rfl, rfl⟩
  | block_arrest a t => rw [guard_cls_some w a _ _ o h]; exact ⟨rfl, rfl⟩
  | block_bribe a t => rw [guard_cls_some w a _ _ o h]; exact ⟨rfl, rfl⟩
  | invest a => rw [guard_cls_some w a _ _ o h, invest_game]; simp
  | compensate a => rw [guard_cls_some w a _ _ o h, compensate_game]; simp
  | protect a t => rw [guard_cls_some w a _ _ o h, protect_game]; simp
  | recover_arrest a =>
    rw [guard_cls_some w a _ _ o h]
    unfold General.recover_arrest
    rw [add_coins_game]; simp
  | penalize_sanction a t => rw [guard_cls_some w a _ _ o h, penalize_game]; simp
  | bonus a => rw [guard_cls_some w a _ _ o h, bonus_game]; simp

theorem advance_sound (w : World) :
    ∀ (fuel i j : Nat), Game.advance w fuel i = some j →
      ∃ p, w.game.players[j]? = some p ∧ Player.is_eliminated w p = false := by
  intro fuel
  induction fuel with
  | zero => intro i j h; simp [Game.advance] at h
  | succ fuel ih =>
    intro i j h
    unfold Game.advance at h
    simp only at h
    split at h
    · exact absurd h (by simp)
    · next p hp =>
      split_ifs at h with he
      · exact ih _ _ h
      · simp only [Option.some.injEq] at h
        subst h
        exact ⟨p, hp, by simpa using he⟩

/-- The two ways next_turn returns: the game is over and it throws, the world
being as before; or it returns normally, the store is the one built before the
loop, and the turn pointer is at a roster entry that is not eliminated. -/
theorem next_turn_cases (w : World) (o : Outcome) (h : Game.next_turn w = some o) :
    (Game.is_game_over w = true ∧ o = throw_ .GameOverException w)
    ∨ (Game.is_game_over w = false ∧ o.result = .ok ()
      ∧ ∃ cur j, w.game.players[w.game.current_player_index]? = some cur
        ∧ o.world.heap = (next_turn_prefix_world w cur).heap
        ∧ o.world.game = { w.game with current_player_index := j }
        ∧ ∃ p, w.game.players[j]? = some p ∧ Player.is_eliminated o.world p = false) := by
  unfold Game.next_turn at h
  split_ifs at h with hover
  · left
    simp only [Option.some.injEq] at h
    exact ⟨hover, h.symm⟩
  · right
    split at h
    · exact absurd h (by simp)
    · next cur hcur =>
      simp only [next_turn_prefix_eq, ret] at h
      split at h
      · exact absurd h (by simp)
      · next j hj =>
        simp only [Option.some.injEq] at h
        subst h
        obtain ⟨p, hp, hpe⟩ := advance_sound _ _ _ _ hj
        refine ⟨by simpa using hover, rfl, cur, j, hcur, rfl, rfl, p, hp, hpe⟩

/-! ## Invariants: balances and elimination -/

theorem next_turn_int_bits (w : World) (o : Outcome) (h : Game.next_turn w = some o) :
    o.world.int_bits = w.int_bits := by
  unfold Game.next_turn at h
  split_ifs at h
  · simp only [Option.some.injEq] at h
    subst h
    rfl
  · split at h
    · exact absurd h (by simp)
    · simp only [next_turn_prefix_eq] at h
      simp only [ret] at h
      split at h
      · exact absurd h (by simp)
      · simp only [Option.some.injEq] at h
        subst h
        rfl

/-- No call changes the platform. -/
theorem exec_int_bits (w : World) (c : Call) (o : Outcome) (h : exec w c = some o) :
    o.world.int_bits = w.int_bits := by
  by_cases hc : c = .next_turn
  · subst hc
    exact next_turn_int_bits w o h
  · exact (exec_foot w c o hc h).1

theorem exec_coins_nonneg (w : World) (c : Call) (o : Outcome) (hb : w.int_bits = none)
    (h0 : coins_nonneg w) (h : exec w c = some o) : coins_nonneg o.world := by
  by_cases hc : c = .next_turn
  · subst hc
    rcases next_turn_cases w o h with ⟨_, ho⟩ | ⟨_, _, cur, j, _, hheap, _, _⟩
    · rw [ho]; exact h0
    · intro p
      rw [hheap]
      simp only [next_turn_prefix_world, store_heap, fit_unbounded w _ hb]
      have := h0 cur
      have := h0 p
      split_ifs <;> first | omega | (simp only; omega)
  · intro p
    exact ((exec_foot w c o hc h).2 p).1 hb (h0 p)

theorem run_coins_nonneg (cs : List Call) :
    ∀ (w w2 : World) (log : List (Call × Except Exn Unit)), w.int_bits = none →
      coins_nonneg w → run w cs = some (log, w2) → coins_nonneg w2 := by
  induction cs with
  | nil =>
    intro w w2 log _ h0 hrun
    simp only [run, Option.some.injEq, Prod.mk.injEq] at hrun
    rw [← hrun.2]; exact h0
  | cons c cs ih =>
    intro w w2 log hb h0 hrun
    unfold run at hrun
    split at hrun
    · exact absurd hrun (by simp)
    · next o ho =>
      split at hrun
      · exact absurd hrun (by simp)
      · next log2 w3 hrun2 =>
        simp only [Option.some.injEq, Prod.mk.injEq] at hrun
        rw [← hrun.2]
        exact ih o.world w3 log2 ((exec_int_bits w c o ho).trans hb)
          (exec_coins_nonneg w c o hb h0 ho) hrun2

/-- C31: taking coins as unbounded integers, every constructor leaves the new
player with 0 coins, and along any trace of engine calls (base actions, role
abilities, ledger primitives, next_turn, eliminate_player), whichever of them
return normally and whichever throw, balances that were all non-negative stay
all non-negative. -/
theorem coins_never_negative (w w2 : World) (cs : List Call)
    (log : List (Call × Except Exn Unit)) (name role : String)
    (hb : w.int_bits = none) (h0 : coins_nonneg w) (hrun : run w cs = some (log, w2)) :
    coins_nonneg w2
    ∧ (Player.new name role).coins = 0 ∧ (Governor.new name).coins = 0
    ∧ (Spy.new name).coins = 0 ∧ (Baron.new name).coins = 0 ∧ (General.new name).coins = 0
    ∧ (Judge.new name).coins = 0 ∧ (Merchant.new name).coins = 0 :=
  ⟨run_coins_nonneg cs w w2 log hb h0 hrun, rfl, rfl, rfl, rfl, rfl, rfl, rfl⟩

theorem six_rich_unbounded_nonneg : coins_nonneg six_rich_unbounded_world := by
  intro p
  simp only [six_rich_unbounded_world, six_rich_world]
  split_ifs <;> decide

/-- C31 on the six players with 7 coins each and the trace `mixed_trace`, five
calls of which return normally and three of which throw. -/
theorem coins_never_negative_witness :
    six_rich_unbounded_world.int_bits = none
    ∧ coins_nonneg six_rich_unbounded_world
    ∧ ∃ log w2, run six_rich_unbounded_world mixed_trace = some (log, w2)
      ∧ log.map (fun e => e.2)
          = [.ok (), .ok (), .ok (), .error .InsufficientCoinsException, .ok (),
              .error .InsufficientCoinsException, .error .InvalidActionException, .ok ()]
      ∧ coins_nonneg w2 := by
  refine ⟨rfl, six_rich_unbounded_nonneg, ?_⟩
  have hsome : (run six_rich_unbounded_world mixed_trace).isSome = true := by decide
  obtain ⟨r, hr⟩ := Option.isSome_iff_exists.mp hsome
  have hlog : r.1.map (fun e => e.2)
      = [.ok (), .ok (), .ok (), .error .InsufficientCoinsException, .ok (),
          .error .InsufficientCoinsException, .error .InvalidActionException, .ok ()] := by
    have h : (run six_rich_unbounded_world mixed_trace).map (fun r => r.1.map fun e => e.2)
        = some [.ok (), .ok (), .ok (), .error .InsufficientCoinsException, .ok (),
            .error .InsufficientCoinsException, .error .InvalidActionException, .ok ()] := by
      decide
    rw [hr] at h
    simpa using h
  exact ⟨r.1, r.2, hr, hlog,
    (coins_never_negative six_rich_unbounded_world r.2 mixed_trace r.1 "" "" rfl
      six_rich_unbounded_nonneg hr).1⟩

theorem prefix_world_active (w : World) (cur p : Nat) :
    ((next_turn_prefix_world w cur).heap p).active = (w.heap p).active := by
  by_cases h : p = cur
  · subst h; simp [next_turn_prefix_world]
  · simp [next_turn_prefix_world, h]

theorem prefix_world_sanctioned (w : World) (cur p : Nat) :
    ((next_turn_prefix_world w cur).heap p).sanctioned
      = if p = cur then false else (w.heap p).sanctioned := by
  by_cases h : p = cur
  · subst h; simp [next_turn_prefix_world]
  · simp [next_turn_prefix_world, h]

theorem exec_keeps_eliminated (w : World) (c : Call) (o : Outcome) (h : exec w c = some o)
    (p : Nat) (hp : Player.is_eliminated w p = true) : Player.is_eliminated o.world p = true := by
  have hact : (w.heap p).active = false := by simpa [Player.is_eliminated] using hp
  by_cases hc : c = .next_turn
  · subst hc
    rcases next_turn_cases w o h with ⟨_, ho⟩ | ⟨_, _, cur, j, _, hheap, _, _⟩
    · rw [ho]; exact hp
    · simp only [Player.is_eliminated, hheap, prefix_world_active, hact]
      rfl
  · rcases ((exec_foot w c o hc h).2 p).2.1 with ha | ha
    · simp [Player.is_eliminated, ha, hact]
    · simp [Player.is_eliminated, ha.1]

theorem exec_active_players_le (w : World) (c : Call) (o : Outcome) (h : exec w c = some o) :
    Game.active_players o.world ≤ Game.active_players w := by
  rw [active_players_eq_countP, active_players_eq_countP, (exec_roster_pointer w c o h).1]
  apply List.countP_mono_left
  intro p _ hp
  by_contra hn
  have h1 : Player.is_eliminated w p = true := by simpa [Player.is_eliminated] using hn
  have h2 := exec_keeps_eliminated w c o h p h1
  simp [Player.is_eliminated] at h2
  simp [h2] at hp

theorem run_active_players_le (cs : List Call) :
    ∀ (w w2 : World) (log : List (Call × Except Exn Unit)),
      run w cs = some (log, w2) → Game.active_players w2 ≤ Game.active_players w := by
  induction cs with
  | nil =>
    intro w w2 log hrun
    simp only [run, Option.some.injEq, Prod.mk.injEq] at hrun
    rw [← hrun.2]
  | cons c cs ih =>
    intro w w2 log hrun
    unfold run at hrun
    split at hrun
    · exact absurd hrun (by simp)
    · next o ho =>
      split at hrun
      · exact absurd hrun (by simp)
      · next log2 w3 hrun2 =>
        simp only [Option.some.injEq, Prod.mk.injEq] at hrun
        rw [← hrun.2]
        exact le_trans (ih o.world w3 log2 hrun2) (exec_active_players_le w c o ho)

/-- A coup returns normally exactly when the actor holds at least 7 coins and
the target is not eliminated. -/
theorem coup_ok_iff (w : World) (a t : Nat) :
    (Player.coup w a t).result = .ok ()
      ↔ 7 ≤ (w.heap a).coins ∧ (w.heap t).active = true := by
  constructor
  · intro h
    rcases lt_or_le (w.heap a).coins 7 with hlt | hge
    · rw [coup_insufficient_unchanged w a t hlt] at h
      simp [throw_] at h
    · refine ⟨hge, ?_⟩
      by_contra hact
      have hact2 : (w.heap t).active = false := by simpa using hact
      have h1 : ¬ (w.heap a).coins < 7 := by omega
      have h2 : ((w.store a { w.heap a with coins := (w.heap a).coins - 7 }).heap t).active
          = false := by
        rw [store_heap]
        split_ifs with hta
        · subst hta; exact hact2
        · exact hact2
      simp [Player.coup, Player.get_coins, h1, Player.remove_coins, Outcome.andThen, ret,
        Game.eliminate_player, Player.is_eliminated, h2, throw_] at h
  · intro h
    rw [coup_ok w a t h.1 h.2]
    rfl

theorem filter_ne_length (t : Nat) (l : List Nat) :
    (l.filter fun p => decide (p ≠ t)).length + l.count t = l.length := by
  induction l with
  | nil => simp
  | cons x l ih =>
    by_cases hx : x = t
    · subst hx
      simp at ih ⊢
      omega
    · have hx2 : (x == t) = false := by simpa using hx
      simp [List.filter_cons, hx, List.count_cons, hx2] at ih ⊢
      omega

/-- A coup that returns normally against a target that is in the roster once
lowers the number of roster players that are not eliminated by one. -/
theorem coup_active_players (w : World) (a t : Nat)
    (h : (Player.coup w a t).result = .ok ()) (hcount : w.game.players.count t = 1) :
    Game.active_players (Player.coup w a t).world + 1 = Game.active_players w := by
  obtain ⟨hc, hact⟩ := (coup_ok_iff w a t).mp h
  rw [coup_ok w a t hc hact]
  simp only [ret]
  unfold Game.active_players
  rw [coup_result_roster]
  have h1 := filter_ne_length t (w.game.players.filter fun p => !Player.is_eliminated w p)
  have h2 : (w.game.players.filter fun p => !Player.is_eliminated w p).count t = 1 := by
    rw [List.count_filter (by simp [Player.is_eliminated, hact])]
    exact hcount
  omega

theorem run_keeps_eliminated (cs : List Call) :
    ∀ (w w2 : World) (log : List (Call × Except Exn Unit)),
      run w cs = some (log, w2) →
      ∀ p, Player.is_eliminated w p = true → Player.is_eliminated w2 p = true := by
  induction cs with
  | nil =>
    intro w w2 log hrun p hp
    simp only [run, Option.some.injEq, Prod.mk.injEq] at hrun
    rw [← hrun.2]; exact hp
  | cons c cs ih =>
    intro w w2 log hrun p hp
    unfold run at hrun
    split at hrun
    · exact absurd hrun (by simp)
    · next o ho =>
      split at hrun
      · exact absurd hrun (by simp)
      · next log2 w3 hrun2 =>
        simp only [Option.some.injEq, Prod.mk.injEq] at hrun
        rw [← hrun.2]
        exact ih o.world w3 log2 hrun2 p (exec_keeps_eliminated w c o ho p hp)

/-- C32 as stated fails: a coup that returns normally need not lower the number
of roster players that are not eliminated by exactly 1.  Against a player that
was never added to the roster the number stays at 3; against a player that was
added to the roster twice it falls from 3 to 1. -/
theorem coup_need_not_lower_count_by_one :
    (Player.coup general_spy_world 2 3).result = .ok ()
    ∧ general_spy_world.game.players.count 3 = 0
    ∧ Game.active_players general_spy_world = 3
    ∧ Game.active_players (Player.coup general_spy_world 2 3).world = 3
    ∧ (Player.coup twice_added_world 2 1).result = .ok ()
    ∧ twice_added_world.game.players.count 1 = 2
    ∧ Game.active_players twice_added_world = 3
    ∧ Game.active_players (Player.coup twice_added_world 2 1).world = 1 := by
  decide

/-- C32, amended: along any trace of engine calls a player that is eliminated
stays eliminated and the number of roster players that are not eliminated does
not grow; a coup that returns normally against a player that is in the roster
exactly once lowers that number by exactly 1; is_game_over is true exactly when
the number is at most 1, so such a coup in a game that is not over ends the
game exactly when it brings the number to 1. -/
theorem elimination_one_way (w w2 : World) (cs : List Call)
    (log : List (Call × Except Exn Unit)) (hrun : run w cs = some (log, w2)) :
    (∀ p, Player.is_eliminated w p = true → Player.is_eliminated w2 p = true)
    ∧ Game.active_players w2 ≤ Game.active_players w
    ∧ (Game.is_game_over w2 = true ↔ Game.active_players w2 ≤ 1)
    ∧ ∀ a t, (Player.coup w2 a t).result = .ok () → w2.game.players.count t = 1 →
        Game.active_players (Player.coup w2 a t).world + 1 = Game.active_players w2
        ∧ (Game.is_game_over w2 = false →
            (Game.is_game_over (Player.coup w2 a t).world = true
              ↔ Game.active_players (Player.coup w2 a t).world = 1)) := by
  refine ⟨run_keeps_eliminated cs w w2 log hrun, run_active_players_le cs w w2 log hrun,
    by simp [Game.is_game_over], ?_⟩
  intro a t hok hcount
  have h1 := coup_active_players w2 a t hok hcount
  refine ⟨h1, ?_⟩
  intro hno
  have h2 : ¬ Game.active_players w2 ≤ 1 := by
    simpa [Game.is_game_over] using hno
  simp only [Game.is_game_over, decide_eq_true_eq]
  omega

/-- C32 on the six players with 7 coins each: after the trace `mixed_trace`,
with its two coups, four players are left; the General, given 4 more coins,
coups the Merchant and three are left. -/
theorem elimination_one_way_witness :
    Game.active_players six_rich_world = 6
    ∧ ∃ log w2, run six_rich_world (mixed_trace ++ [.add_coins 3 4]) = some (log, w2)
      ∧ Game.active_players w2 = 4
      ∧ (Player.coup w2 3 5).result = .ok ()
      ∧ w2.game.players.count 5 = 1
      ∧ Game.active_players (Player.coup w2 3 5).world + 1 = Game.active_players w2 := by
  refine ⟨by decide, ?_⟩
  have hsome : (run six_rich_world (mixed_trace ++ [.add_coins 3 4])).isSome = true := by
    decide
  obtain ⟨r, hr⟩ := Option.isSome_iff_exists.mp hsome
  have h4 : Game.active_players r.2 = 4 := by
    have h : (run six_rich_world (mixed_trace ++ [.add_coins 3 4])).map
        (fun r => Game.active_players r.2) = some 4 := by decide
    rw [hr] at h
    simpa using h
  have hok : (Player.coup r.2 3 5).result = .ok () := by
    have h : (run six_rich_world (mixed_trace ++ [.add_coins 3 4])).map
        (fun r => (Player.coup r.2 3 5).result) = some (.ok ()) := by decide
    rw [hr] at h
    simpa using h
  have hcount : r.2.game.players.count 5 = 1 := by
    have h : (run six_rich_world (mixed_trace ++ [.add_coins 3 4])).map
        (fun r => r.2.game.players.count 5) = some 1 := by decide
    rw [hr] at h
    simpa using h
  exact ⟨r.1, r.2, hr, h4, hok, hcount,
    ((elimination_one_way six_rich_world r.2 _ r.1 hr).2.2.2 3 5 hok hcount).1⟩

/-! ## The player at the turn pointer -/

theorem exec_current_active (w : World) (c : Call) (o : Outcome) (hinv : current_active w)
    (hchk : spares_current w c = true) (h : exec w c = some o) : current_active o.world := by
  by_cases hc : c = .next_turn
  · subst hc
    rcases next_turn_cases w o h with ⟨_, ho⟩ | ⟨_, _, cur, j, _, _, hg, p, hp, hpe⟩
    · rw [ho]; exact hinv
    · intro _
      refine ⟨p, ?_, hpe⟩
      rw [hg]; exact hp
  · intro hno
    obtain ⟨hpl, hidx⟩ := exec_game_frame w c o hc h
    have hle := exec_active_players_le w c o h
    have hno0 : Game.is_game_over w = false := by
      simp only [Game.is_game_over, decide_eq_false_iff_not] at hno ⊢
      omega
    obtain ⟨p, hp, hpe⟩ := hinv hno0
    refine ⟨p, by rw [hpl, hidx]; exact hp, ?_⟩
    have hact : (w.heap p).active = true := by simpa [Player.is_eliminated] using hpe
    rcases ((exec_foot w c o hc h).2 p).2.1 with ha | ha
    · simp [Player.is_eliminated, ha, hact]
    · exfalso
      simp only [spares_current, ha.2, hp] at hchk
      simp at hchk

theorem run_if_current_active (chk : World → Call → Bool)
    (hchk : ∀ w c, chk w c = true → spares_current w c = true) (cs : List Call) :
    ∀ w w2 : World, current_active w → run_if chk w cs = some w2 → current_active w2 := by
  induction cs with
  | nil =>
    intro w w2 hinv hrun
    simp only [run_if, Option.some.injEq] at hrun
    rw [← hrun]; exact hinv
  | cons c cs ih =>
    intro w w2 hinv hrun
    unfold run_if at hrun
    split_ifs at hrun with hc
    split at hrun
    · exact absurd hrun (by simp)
    · next o ho =>
      exact ih o.world w2 (exec_current_active w c o hinv (hchk w c hc) ho) hrun

/-- With the turn pointer at 0 and no roster player eliminated, the game is
over or the player at the pointer is not eliminated. -/
theorem start_current_active (w : World) (hidx : w.game.current_player_index = 0)
    (hall : ∀ p ∈ w.game.players, Player.is_eliminated w p = false) : current_active w := by
  intro hno
  have hlen : 2 ≤ w.game.players.length := by
    have h1 : (w.game.players.filter fun p => !Player.is_eliminated w p).length
        ≤ w.game.players.length := List.length_filter_le _ _
    simp [Game.is_game_over, Game.active_players] at hno
    omega
  have h0 : 0 < w.game.players.length := by omega
  refine ⟨w.game.players[0], ?_, hall _ (List.getElem_mem _)⟩
  rw [hidx]
  exact List.getElem?_eq_getElem h0

theorem setup_spec (heap : Nat → Player) (ps : List Nat) :
    (setup heap ps).heap = heap ∧ (setup heap ps).game.players = ps
    ∧ (setup heap ps).game.current_player_index = 0 := by
  have key : ∀ (ps : List Nat) (w : World),
      (ps.foldl (fun w p => (Game.add_player w p).world) w).heap = w.heap
      ∧ (ps.foldl (fun w p => (Game.add_player w p).world) w).game.players
          = w.game.players ++ ps
      ∧ (ps.foldl (fun w p => (Game.add_player w p).world) w).game.current_player_index
          = w.game.current_player_index := by
    intro ps
    induction ps with
    | nil => intro w; simp
    | cons p ps ih =>
      intro w
      obtain ⟨h1, h2, h3⟩ := ih (Game.add_player w p).world
      simp only [List.foldl_cons]
      refine ⟨h1, ?_, h3⟩
      rw [h2]
      simp [Game.add_player, ret]
  obtain ⟨h1, h2, h3⟩ := key ps (Game.new heap)
  exact ⟨h1, by simpa [Game.new] using h2, h3⟩

theorem turn_discipline_spares (w : World) (c : Call) (h : turn_discipline w c = true) :
    spares_current w c = true := by
  cases c <;> simp [turn_discipline, spares_current, Call.victim] at h ⊢
  rw [h.1]
  intro heq
  exact h.2 (Option.some.inj heq).symm

/-- C33 as stated fails: in the game set up with three fresh players, Bob taxes
four times and coups Alice, who holds the turn; every call returns normally,
the game is not over, and the turn pointer still refers to Alice, who is
eliminated. -/
theorem coup_leaves_pointer_on_eliminated :
    (run (setup three_fresh_heap [0, 1, 2]) coup_out_of_turn).map
        (fun r => (r.1.map (fun e => e.2), Game.is_game_over r.2,
          r.2.game.players[r.2.game.current_player_index]?, Player.is_eliminated r.2 0))
      = some ([.ok (), .ok (), .ok (), .ok (), .ok ()], false, some 0, true) := by
  decide

/-- C33 amended: in every state reached from a game set up with players none
of whom is eliminated, by engine calls none of which is a coup or an
eliminate_player aimed at the player that holds the turn at that moment, if the
game is not over then the player at the turn pointer is not eliminated. -/
theorem current_player_active_if_spared (heap : Nat → Player) (ps : List Nat)
    (cs : List Call) (w : World) (hfresh : ∀ p ∈ ps, (heap p).active = true)
    (hrun : run_if spares_current (setup heap ps) cs = some w)
    (hno : Game.is_game_over w = false) :
    ∃ p, w.game.players[w.game.current_player_index]? = some p
      ∧ Player.is_eliminated w p = false := by
  obtain ⟨hh, hp, hi⟩ := setup_spec heap ps
  have hstart : current_active (setup heap ps) := by
    apply start_current_active _ hi
    intro p hmem
    rw [hp] at hmem
    simp [Player.is_eliminated, hh, hfresh p hmem]
  exact run_if_current_active spares_current (fun _ _ h => h) cs _ w hstart hrun hno

/-- C33 amended, on the game of three fresh players and the trace
`disciplined_trace`: Alice coups Bob, the turn passes, and Charlie at index 2
holds the turn. -/
theorem current_player_active_if_spared_witness :
    (∀ p ∈ [0, 1, 2], (three_fresh_heap p).active = true)
    ∧ ∃ w, run_if spares_current (setup three_fresh_heap [0, 1, 2]) disciplined_trace = some w
      ∧ Game.is_game_over w = false
      ∧ Player.is_eliminated w 1 = true
      ∧ ∃ p, w.game.players[w.game.current_player_index]? = some p
        ∧ Player.is_eliminated w p = false := by
  have hfresh : ∀ p ∈ [0, 1, 2], (three_fresh_heap p).active = true := by decide
  refine ⟨hfresh, ?_⟩
  have hsome : (run_if spares_current (setup three_fresh_heap [0, 1, 2])
      disciplined_trace).isSome = true := by decide
  obtain ⟨w, hw⟩ := Option.isSome_iff_exists.mp hsome
  have hno : Game.is_game_over w = false := by
    have h : (run_if spares_current (setup three_fresh_heap [0, 1, 2])
        disciplined_trace).map Game.is_game_over = some false := by decide
    rw [hw] at h
    simpa using h
  have hbob : Player.is_eliminated w 1 = true := by
    have h : (run_if spares_current (setup three_fresh_heap [0, 1, 2])
        disciplined_trace).map (fun w => Player.is_eliminated w 1) = some true := by decide
    rw [hw] at h
    simpa using h
  exact ⟨w, hw, hno, hbob,
    current_player_active_if_spared three_fresh_heap [0, 1, 2] disciplined_trace w hfresh hw hno⟩

/-- C38: starting from a roster of at least two players none of whom is
eliminated, with the turn pointer at index 0, along any trace that keeps the
turn discipline (every action is a call by the player at the turn pointer, a
coup does not target its actor, and nothing but next_turn moves the pointer),
if the game is not over then the player at the turn pointer is not
eliminated. -/
theorem current_player_active_in_turn (w0 w : World) (cs : List Call)
    (hn : 2 ≤ w0.game.players.length)
    (hall : ∀ p ∈ w0.game.players, Player.is_eliminated w0 p = false)
    (hidx : w0.game.current_player_index = 0)
    (hrun : run_if turn_discipline w0 cs = some w)
    (hno : Game.is_game_over w = false) :
    ∃ p, w.game.players[w.game.current_player_index]? = some p
      ∧ Player.is_eliminated w p = false := by
  have _hn := hn
  exact run_if_current_active turn_discipline turn_discipline_spares cs w0 w
    (start_current_active w0 hidx hall) hrun hno

/-- C38 on the six players of the role tests with 7 coins each: the Governor
coups the Spy and passes the turn, the Baron coups the Judge and passes the
turn; the General at index 3 then holds the turn. -/
theorem current_player_active_in_turn_witness :
    2 ≤ six_rich_world.game.players.length
    ∧ (∀ p ∈ six_rich_world.game.players, Player.is_eliminated six_rich_world p = false)
    ∧ six_rich_world.game.current_player_index = 0
    ∧ ∃ w, run_if turn_discipline six_rich_world
          [.coup 0 1, .next_turn, .coup 2 4, .next_turn] = some w
      ∧ Game.is_game_over w = false
      ∧ w.game.current_player_index = 3
      ∧ ∃ p, w.game.players[w.game.current_player_index]? = some p
        ∧ Player.is_eliminated w p = false := by
  have hall : ∀ p ∈ six_rich_world.game.players,
      Player.is_eliminated six_rich_world p = false := by decide
  refine ⟨by decide, hall, rfl, ?_⟩
  have hsome : (run_if turn_discipline six_rich_world
      [.coup 0 1, .next_turn, .coup 2 4, .next_turn]).isSome = true := by decide
  obtain ⟨w, hw⟩ := Option.isSome_iff_exists.mp hsome
  have hno : Game.is_game_over w = false := by
    have h : (run_if turn_discipline six_rich_world
        [.coup 0 1, .next_turn, .coup 2 4, .next_turn]).map Game.is_game_over
        = some false := by decide
    rw [hw] at h
    simpa using h
  have h3 : w.game.current_player_index = 3 := by
    have h : (run_if turn_discipline six_rich_world
        [.coup 0 1, .next_turn, .coup 2 4, .next_turn]).map
        (fun w => w.game.current_player_index) = some 3 := by decide
    rw [hw] at h
    simpa using h
  exact ⟨w, hw, hno, h3,
    current_player_active_in_turn six_rich_world w _ (by decide) hall rfl hw hno⟩

/-! ## How long a sanction lasts -/

/-- A sanctioned flag that is set is still set after any call other than the
next_turn that ends the turn of that player. -/
theorem exec_keeps_sanction (w : World) (c : Call) (o : Outcome) (p : Nat)
    (h : exec w c = some o) (hs : (w.heap p).sanctioned = true)
    (hk : keeps_turn_of p w c = true) : (o.world.heap p).sanctioned = true := by
  by_cases hc : c = .next_turn
  · subst hc
    rcases next_turn_cases w o h with ⟨_, ho⟩ | ⟨_, _, cur, j, hcur, hheap, _, _⟩
    · rw [ho]; exact hs
    · rw [hheap, prefix_world_sanctioned]
      have hne : p ≠ cur := by
        intro heq
        subst heq
        simp [keeps_turn_of, hcur] at hk
      simp [hne, hs]
  · exact ((exec_foot w c o hc h).2 p).2.2 hs

theorem run_if_keeps_sanction (p : Nat) (cs : List Call) :
    ∀ w w2 : World, (w.heap p).sanctioned = true →
      run_if (keeps_turn_of p) w cs = some w2 → (w2.heap p).sanctioned = true := by
  induction cs with
  | nil =>
    intro w w2 hs hrun
    simp only [run_if, Option.some.injEq] at hrun
    rw [← hrun]; exact hs
  | cons c cs ih =>
    intro w w2 hs hrun
    unfold run_if at hrun
    split_ifs at hrun with hc
    split at hrun
    · exact absurd hrun (by simp)
    · next o ho => exact ih o.world w2 (exec_keeps_sanction w c o p ho hs hc) hrun

/-- C35: a player whose sanctioned flag is set keeps it through every trace of
engine calls that contains no next_turn made while that player holds the turn
(next_turn calls that end the turn of other players included), so at the end of
such a trace, in particular during the player's own next turn, gather and tax
by that player are rejected with SanctionedException; a call that clears the
flag is the next_turn that ends that player's own turn, and that call does
clear it. -/
theorem sanction_lasts_until_own_turn_ends (w w2 : World) (p : Nat) (cs : List Call)
    (hs : (w.heap p).sanctioned = true)
    (hrun : run_if (keeps_turn_of p) w cs = some w2) :
    (w2.heap p).sanctioned = true
    ∧ Player.gather w2 p = throw_ .SanctionedException w2
    ∧ dispatch_tax w2 p = throw_ .SanctionedException w2
    ∧ (∀ c o, exec w2 c = some o → (o.world.heap p).sanctioned = false →
        c = .next_turn ∧ w2.game.players[w2.game.current_player_index]? = some p
          ∧ o.result = .ok ())
    ∧ (∀ o, Game.next_turn w2 = some o → o.result = .ok () →
        w2.game.players[w2.game.current_player_index]? = some p →
        (o.world.heap p).sanctioned = false) := by
  have hs2 := run_if_keeps_sanction p cs w w2 hs hrun
  refine ⟨hs2, ?_, ?_, ?_, ?_⟩
  · simp [Player.gather, Player.is_sanctioned, hs2]
  · unfold dispatch_tax
    split <;> simp [Governor.tax, Player.tax, Player.is_sanctioned, hs2]
  · intro c o hx hclr
    by_cases hk : keeps_turn_of p w2 c = true
    · have := exec_keeps_sanction w2 c o p hx hs2 hk
      rw [hclr] at this
      exact absurd this (by decide)
    · cases c <;> simp [keeps_turn_of] at hk
      refine ⟨rfl, hk, ?_⟩
      rcases next_turn_cases w2 o hx with ⟨_, ho⟩ | ⟨_, hr, _⟩
      · rw [ho] at hclr
        simp only [throw_] at hclr
        rw [hs2] at hclr
        exact absurd hclr (by decide)
      · exact hr
  · intro o ho hr hcur
    rw [next_turn_heap w2 o p ho hr hcur, prefix_world_sanctioned]
    simp

/-- C35 on the scenario of the demo: Diana sanctions Ethan and ends her turn;
Ethan, now holding the turn, is still sanctioned and cannot gather or tax; the
next_turn that ends his turn clears the flag. -/
theorem sanction_lasts_until_own_turn_ends_witness :
    ∃ w1 w2 o, (Player.sanction diana_ethan_world 0 1).world = w1
      ∧ (w1.heap 1).sanctioned = true
      ∧ run_if (keeps_turn_of 1) w1 [.next_turn] = some w2
      ∧ w2.game.players[w2.game.current_player_index]? = some 1
      ∧ (w2.heap 1).sanctioned = true
      ∧ Player.gather w2 1 = throw_ .SanctionedException w2
      ∧ dispatch_tax w2 1 = throw_ .SanctionedException w2
      ∧ Game.next_turn w2 = some o ∧ o.result = .ok ()
      ∧ (o.world.heap 1).sanctioned = false := by
  have hs : ((Player.sanction diana_ethan_world 0 1).world.heap 1).sanctioned = true := by
    decide
  have hsome : (run_if (keeps_turn_of 1) (Player.sanction diana_ethan_world 0 1).world
      [.next_turn]).isSome = true := by decide
  obtain ⟨w2, hw2⟩ := Option.isSome_iff_exists.mp hsome
  have hcur : w2.game.players[w2.game.current_player_index]? = some 1 := by
    have h : (run_if (keeps_turn_of 1) (Player.sanction diana_ethan_world 0 1).world
        [.next_turn]).map (fun w => w.game.players[w.game.current_player_index]?)
        = some (some 1) := by decide
    rw [hw2] at h
    simpa using h
  have hsome2 : ((run_if (keeps_turn_of 1) (Player.sanction diana_ethan_world 0 1).world
      [.next_turn]).bind Game.next_turn).isSome = true := by decide
  have hres : ((run_if (keeps_turn_of 1) (Player.sanction diana_ethan_world 0 1).world
      [.next_turn]).bind Game.next_turn).map (fun o => o.result) = some (.ok ()) := by decide
  rw [hw2] at hsome2 hres
  simp only [Option.some_bind] at hsome2 hres
  obtain ⟨o, ho⟩ := Option.isSome_iff_exists.mp hsome2
  have hr : o.result = .ok () := by
    rw [ho] at hres
    simpa using hres
  have h := sanction_lasts_until_own_turn_ends (Player.sanction diana_ethan_world 0 1).world
    w2 1 [.next_turn] hs hw2
  exact ⟨_, w2, o, rfl, hs, hw2, hcur, h.1, h.2.1, h.2.2.1, ho, hr,
    h.2.2.2.2 o ho hr hcur⟩

/-- C36 as stated fails: Diana, holding the turn, sanctions Ethan and ends her
turn; both calls return normally, Ethan now holds the turn and his sanctioned
flag is set. -/
theorem new_holder_still_sanctioned :
    (run diana_ethan_world [.sanction 0 1, .next_turn]).map
        (fun r => (r.1.map (fun e => e.2), r.2.game.players[r.2.game.current_player_index]?,
          (r.2.heap 1).sanctioned))
      = some ([.ok (), .ok ()], some 1, true) := by
  decide

/-- C36 amended: the sanctioned flag is cleared when the player's own turn
ends: after a next_turn that returns normally the player that held the turn
before the call has its flag clear, and the player that now holds the turn has
the flag it had before the call, unless it is that same player. -/
theorem next_turn_new_holder_flag (w : World) (o : Outcome) (cur nxt : Nat)
    (h : Game.next_turn w = some o) (hr : o.result = .ok ())
    (hcur : w.game.players[w.game.current_player_index]? = some cur)
    (hnxt : o.world.game.players[o.world.game.current_player_index]? = some nxt) :
    (o.world.heap cur).sanctioned = false
    ∧ (o.world.heap nxt).sanctioned = (if nxt = cur then false else (w.heap nxt).sanctioned) := by
  have _h := hnxt
  rw [next_turn_heap w o cur h hr hcur, prefix_world_sanctioned, prefix_world_sanctioned]
  simp

/-- C36 amended, on the scenario of the demo: after Diana sanctioned Ethan and
ended her turn, Diana's flag is clear and Ethan, who holds the turn, has the
flag he had, which is set. -/
theorem next_turn_new_holder_flag_witness :
    ∃ o, Game.next_turn (Player.sanction diana_ethan_world 0 1).world = some o
      ∧ o.result = .ok ()
      ∧ o.world.game.players[o.world.game.current_player_index]? = some 1
      ∧ (o.world.heap 0).sanctioned = false
      ∧ (o.world.heap 1).sanctioned = true := by
  have hsome : (Game.next_turn (Player.sanction diana_ethan_world 0 1).world).isSome
      = true := by decide
  obtain ⟨o, ho⟩ := Option.isSome_iff_exists.mp hsome
  have hr : o.result = .ok () := by
    have h : (Game.next_turn (Player.sanction diana_ethan_world 0 1).world).map
        (fun o => o.result) = some (.ok ()) := by decide
    rw [ho] at h
    simpa using h
  have hnxt : o.world.game.players[o.world.game.current_player_index]? = some 1 := by
    have h : (Game.next_turn (Player.sanction diana_ethan_world 0 1).world).map
        (fun o => o.world.game.players[o.world.game.current_player_index]?)
        = some (some 1) := by decide
    rw [ho] at h
    simpa using h
  have h := next_turn_new_holder_flag (Player.sanction diana_ethan_world 0 1).world o 0 1 ho hr
    (by decide) hnxt
  refine ⟨o, ho, hr, hnxt, h.1, ?_⟩
  rw [h.2]
  decide

/-! ## The last-arrested reference -/

theorem run_last_arrested_ne_none (cs : List Call) :
    ∀ (w w2 : World) (log : List (Call × Except Exn Unit)),
      run w cs = some (log, w2) → w.game.last_arrested ≠ none →
      w2.game.last_arrested ≠ none := by
  induction cs with
  | nil =>
    intro w w2 log hrun h0
    simp only [run, Option.some.injEq, Prod.mk.injEq] at hrun
    rw [← hrun.2]; exact h0
  | cons c cs ih =>
    intro w w2 log hrun h0
    unfold run at hrun
    split at hrun
    · exact absurd hrun (by simp)
    · next o ho =>
      split at hrun
      · exact absurd hrun (by simp)
      · next log2 w3 hrun2 =>
        simp only [Option.some.injEq, Prod.mk.injEq] at hrun
        rw [← hrun.2]
        apply ih o.world w3 log2 hrun2
        rcases exec_last_arrested w c o ho with h | ⟨x, u, _, _, hl⟩
        · rw [h]; exact h0
        · rw [hl]; simp

/-- C37: an arrest (base or Merchant) that returns normally sets last-arrested
to its target; every other call (next_turn, a non-arrest action or ability, an
arrest that is rejected) leaves last-arrested as it was; and along any trace a
last-arrested reference that is not null never becomes null again. -/
theorem last_arrested_frame (w : World) (c : Call) (o : Outcome) (h : exec w c = some o) :
    (∀ x u, c = .arrest x u → o.result = .ok () → o.world.game.last_arrested = some u)
    ∧ ((∀ x u, c = .arrest x u → o.result ≠ .ok ()) →
        o.world.game.last_arrested = w.game.last_arrested)
    ∧ (∀ cs log w2, run w cs = some (log, w2) → w.game.last_arrested ≠ none →
        w2.game.last_arrested ≠ none) := by
  refine ⟨?_, ?_, fun cs log w2 hrun h0 => run_last_arrested_ne_none cs w w2 log hrun h0⟩
  · intro x u hc hr
    subst hc
    simp only [exec, Option.some.injEq] at h
    subst h
    exact arrest_ok_last_arrested w x u hr
  · intro hrej
    rcases exec_last_arrested w c o h with h1 | ⟨x, u, hc, hr, _⟩
    · exact h1
    · exact absurd hr (hrej x u hc)

/-- C37 on two Generals with 3 coins each: the arrest of 1 by 0 sets
last-arrested to 1; the rejected arrest of 1 by 1 that follows and a next_turn
leave it at 1. -/
theorem last_arrested_frame_witness :
    two_generals_world.game.last_arrested = none
    ∧ (dispatch_arrest two_generals_world 0 1).result = .ok ()
    ∧ (dispatch_arrest two_generals_world 0 1).world.game.last_arrested = some 1
    ∧ (run (dispatch_arrest two_generals_world 0 1).world [.arrest 1 1, .next_turn]).map
        (fun r => (r.1.map (fun e => e.2), r.2.game.last_arrested))
      = some ([.error .ConsecutiveArrestException, .ok ()], some 1) :=
  ⟨rfl, by decide,
    (last_arrested_frame two_generals_world (.arrest 0 1)
      (dispatch_arrest two_generals_world 0 1) rfl).1 0 1 rfl (by decide),
    by decide⟩

/-! ## Conservation of coins by the base arrest -/

/-- A base arrest returns normally exactly when its three preconditions
hold. -/
theorem base_arrest_ok_iff (w : World) (self target : Nat) :
    (Player.arrest w self target).result = .ok ()
      ↔ 1 ≤ (w.heap self).coins ∧ w.game.last_arrested ≠ some target
        ∧ 1 ≤ (w.heap target).coins := by
  constructor
  · intro h
    unfold Player.arrest Player.get_coins Game.get_last_arrested at h
    split_ifs at h with h1 h2 h3
    · simp [throw_] at h
    · simp [throw_] at h
    · simp [throw_] at h
    · exact ⟨by omega, h2, by omega⟩
  · intro h
    rw [base_arrest_ok w self target h.1 h.2.1 h.2.2]
    rfl

theorem arrest_result_coins (w : World) (self target p : Nat) (hne : target ≠ self)
    (hf : w.fit ((w.heap self).coins + 1) = (w.heap self).coins + 1) :
    ((arrest_result w self target).heap p).coins
      = (w.heap p).coins + (if p = self then 1 else 0) - (if p = target then 1 else 0) := by
  have hne2 : self ≠ target := fun h => hne h.symm
  by_cases h1 : p = self
  · subst h1
    simp [arrest_result, store_heap, hne, hne2, hf]
  · by_cases h2 : p = target
    · subst h2
      simp [arrest_result, store_heap, h1, hne2]
    · simp [arrest_result, store_heap, h1, h2]

theorem self_arrest_result_coins (w : World) (self p : Nat)
    (hf : w.fit (w.heap self).coins = (w.heap self).coins) :
    ((arrest_result w self self).heap p).coins = (w.heap p).coins := by
  by_cases h1 : p = self
  · subst h1
    simp [arrest_result, store_heap, hf]
  · simp [arrest_result, store_heap, h1]

/-- C39 fails at the largest balance: on a 32-bit platform a Governor holding
INT_MAX = 2147483647 coins arrests a Baron; the call returns normally and the
sum of the balances of the three players, 6442450941 before, is 2147483645
after: the coin taken from the Baron did not arrive, the actor's balance has
wrapped to INT_MIN. -/
theorem arrest_at_int_max_changes_sum :
    (int_max_world.heap 0).cls ≠ .Merchant
    ∧ int_max_world.game.players = [0, 1, 2]
    ∧ (dispatch_arrest int_max_world 0 2).result = .ok ()
    ∧ (∑ p ∈ ({0, 1, 2} : Finset Nat), (int_max_world.heap p).coins) = 6442450941
    ∧ (∑ p ∈ ({0, 1, 2} : Finset Nat),
        ((dispatch_arrest int_max_world 0 2).world.heap p).coins) = 2147483645 := by
  refine ⟨by decide, by decide, by decide, ?_, ?_⟩
  · rw [Finset.sum_insert (by decide), Finset.sum_insert (by decide), Finset.sum_singleton]
    decide
  · rw [Finset.sum_insert (by decide), Finset.sum_insert (by decide), Finset.sum_singleton]
    decide

/-- C39, amended: a base (non-Merchant) arrest that returns normally, by an
actor whose balance is a value of `int` and, when the target is another player,
is below INT_MAX (balance + 1 is a value of `int`), conserves coins: over every
finite set of players that contains the actor and the target, the whole roster
for instance, the sum of the balances is the same before and after; and when
the actor arrests itself its own balance is as before. -/
theorem arrest_conserves_coins (w : World) (self target : Nat) (S : Finset Nat)
    (hcls : (w.heap self).cls ≠ .Merchant)
    (hok : (dispatch_arrest w self target).result = .ok ())
    (hs : self ∈ S) (ht : target ∈ S)
    (hfit : w.fits ((w.heap self).coins + (if target = self then 0 else 1)) = true) :
    (∑ p ∈ S, ((dispatch_arrest w self target).world.heap p).coins)
      = ∑ p ∈ S, (w.heap p).coins
    ∧ (target = self →
        ((dispatch_arrest w self target).world.heap self).coins = (w.heap self).coins) := by
  have hd : dispatch_arrest w self target = Player.arrest w self target := by
    unfold dispatch_arrest
    split
    · next h => exact absurd h hcls
    · rfl
  rw [hd] at hok ⊢
  obtain ⟨h1, h2, h3⟩ := (base_arrest_ok_iff w self target).mp hok
  rw [base_arrest_ok w self target h1 h2 h3]
  simp only [ret]
  have hf := (fits_iff w _).mp hfit
  by_cases heq : target = self
  · subst heq
    rw [if_pos rfl, add_zero] at hf
    simp [self_arrest_result_coins w target _ hf]
  · rw [if_neg heq] at hf
    constructor
    · simp only [arrest_result_coins w self target _ heq hf]
      rw [Finset.sum_sub_distrib, Finset.sum_add_distrib]
      simp [hs, ht]
    · intro h
      exact absurd h heq

/-- C39 on two Generals with 3 coins each: after 0 arrests 1 the balances are 4
and 2, with sum 6 as before; after 0 arrests itself its balance is 3 as
before. -/
theorem arrest_conserves_coins_witness :
    (dispatch_arrest two_generals_world 0 1).result = .ok ()
    ∧ ((dispatch_arrest two_generals_world 0 1).world.heap 0).coins = 4
    ∧ ((dispatch_arrest two_generals_world 0 1).world.heap 1).coins = 2
    ∧ (∑ p ∈ ({0, 1} : Finset Nat), ((dispatch_arrest two_generals_world 0 1).world.heap p).coins)
        = ∑ p ∈ ({0, 1} : Finset Nat), (two_generals_world.heap p).coins
    ∧ (dispatch_arrest two_generals_world 0 0).result = .ok ()
    ∧ ((dispatch_arrest two_generals_world 0 0).world.heap 0).coins
        = (two_generals_world.heap 0).coins :=
  ⟨by decide, by decide, by decide,
    (arrest_conserves_coins two_generals_world 0 1 {0, 1} (by decide) (by decide) (by decide)
      (by decide) (by decide)).1,
    by decide,
    (arrest_conserves_coins two_generals_world 0 0 {0, 1} (by decide) (by decide) (by decide)
      (by decide) (by decide)).2 rfl⟩

/-! ## The eliminated flag of the actor -/

/-- The copy keeps the turn pointer and, position by position, the name and the
role string of every player. -/
theorem copy_keeps_pointer_name_role (w : World) :
    (Game.copy w).current_player_index = w.game.current_player_index
    ∧ (Game.copy w).players.map (fun p => (p.name, p.role))
        = w.game.players.map fun a => ((w.heap a).name, (w.heap a).role) := by
  refine ⟨rfl, ?_⟩
  simp only [Game.copy, List.map_map]
  apply List.map_congr_left
  intro a _
  simp only [Function.comp, copy_player]
  split_ifs with h1 h2 h3 h4 h5 h6
  · simp [Governor.new, Player.new, h1]
  · simp [Spy.new, Player.new, h2]
  · simp [Baron.new, Player.new, h3]
  · simp [General.new, Player.new, h4]
  · simp [Judge.new, Player.new, h5]
  · simp [Merchant.new, Player.new, h6]
  · simp

/-- A player whose role string names none of the six roles is copied with its
balance and flags. -/
theorem copy_player_generic (p : Player) (h1 : p.role ≠ "Governor") (h2 : p.role ≠ "Spy")
    (h3 : p.role ≠ "Baron") (h4 : p.role ≠ "General") (h5 : p.role ≠ "Judge")
    (h6 : p.role ≠ "Merchant") :
    copy_player p = { p with cls := .Player } := by
  simp [copy_player, h1, h2, h3, h4, h5, h6]

/-- C40, evaluated at the failing input: in the copy of a game of a sanctioned
Governor with 4 coins, a sanctioned base player with 5 coins and an eliminated
Spy with 2 coins, the base player has its 5 coins and its flag, but the
Governor has 0 coins and no sanction and the Spy has 0 coins and is not
eliminated. -/
theorem copy_resets_role_players :
    game_to_copy.game.players.map
        (fun a => ((game_to_copy.heap a).name, (game_to_copy.heap a).role,
          (game_to_copy.heap a).coins, (game_to_copy.heap a).sanctioned,
          !(game_to_copy.heap a).active))
      = [("Alice", "Governor", 4, true, false), ("Pat", "Regular", 5, true, false),
          ("Bob", "Spy", 2, false, true)]
    ∧ (Game.copy game_to_copy).players.map
        (fun p => (p.name, p.role, p.coins, p.sanctioned, !p.active))
      = [("Alice", "Governor", 0, false, false), ("Pat", "Regular", 5, true, false),
          ("Bob", "Spy", 0, false, false)]
    ∧ (Game.copy game_to_copy).current_player_index = 1 := by
  decide

end Coup
